import Mathlib

/-!
Verification development for the node-graph core of `noise_gui`
(`src/node.rs`): the node data model, the scalar evaluators
(`eval_f64` / `eval_u32`), the expression compiler (`expr`), and the four
type-propagation flood-fill walks
(`propagate_f64_from_tuple_op`, `propagate_u32_from_tuple_op`,
`propagate_tuple_from_f64_op`, `propagate_tuple_from_u32_op`).

Modelling conventions:
* `f64` values are modelled as `Rat`.  Every property proved about them
  concerns control flow on an exact equality test (`rhs != 0.0`), literal
  copying, or structural bookkeeping - never rounding - so the rational
  model is faithful for these statements.
* `u32` values are modelled as `Nat` together with the explicit bound
  `4294967296 = 2 ^ 32` at the points where Rust performs checked
  arithmetic.
* Rust panics (`unwrap`, `unreachable!`, out-of-bounds `get_node`) are
  modelled by `Option`: a `none` result is a panic.
* The graph store (`egui_snarl::Snarl`) is external to the file; it is
  modelled by a node list (indexing by `usize`, panicking access) plus the
  output-pin adjacency used by the walks
  (`out_pin(OutPinId { node, output: 0 }).remotes`).
-/

set_option maxHeartbeats 1000000

namespace NoiseGui

/-- Arithmetic operator tag (`OpType` from `expr.rs`; its four variants are
fully determined by the exhaustive matches in `eval_f64`/`eval_u32`). -/
inductive OpType where
  | add
  | divide
  | multiply
  | subtract
deriving DecidableEq

/-- Modelled from the spec: `SourceType` lives in `expr.rs`, which is not
part of the packaged sources; only the variant evidenced by
`impl Default for SourceType` (`Self::Perlin`) is used here, and no claim
depends on the others. -/
inductive SourceType where
  | perlin
deriving DecidableEq

/-- Modelled from the spec: `DistanceFunction` lives in `expr.rs`; only the
variant evidenced in `node.rs` (`Euclidean`) is included. -/
inductive DistanceFunction where
  | euclidean
deriving DecidableEq

/-- Modelled from the spec: `ReturnType` lives in `expr.rs`; only the
variant evidenced in `node.rs` (`Value`) is included. -/
inductive ReturnType where
  | value
deriving DecidableEq

/-- Preview-image bookkeeping attached to most nodes.  The `texture` field
(an `egui` GPU handle, serde-skipped) is an external UI resource and is
omitted; no claim concerns it. -/
structure Image where
  scale : Rat
  version : Nat
  x : Rat
  y : Rat
deriving DecidableEq

/-- `NodeValue<T>`: a parameter slot holding either a literal value or a
reference to another node by index. -/
inductive NodeValue (T : Type) where
  | node (idx : Nat)
  | value (v : T)
deriving DecidableEq

/-- `NodeValue::as_node_index`. -/
def NodeValue.as_node_index {T : Type} : NodeValue T → Option Nat
  | .node idx => some idx
  | .value _ => none

/-- `NodeValue::is_node_idx`. -/
def NodeValue.is_node_idx {T : Type} (v : NodeValue T) : Bool :=
  v.as_node_index.isSome

/-- The slot rewrite used by all four propagation walks:
`input.as_node_index().map(NodeValue::Node).unwrap_or_default()`, with the
target representation's `Default` literal passed explicitly
(`0.0` for f64, `0` for u32, `()` for the unresolved tuple type). -/
def NodeValue.retype {A B : Type} (dflt : B) : NodeValue A → NodeValue B
  | .node idx => .node idx
  | .value _ => .value dflt

structure BlendNode where
  image : Image
  input_node_indices : Option Nat × Option Nat
  control_node_idx : Option Nat
deriving DecidableEq

structure CheckerboardNode where
  image : Image
  size : NodeValue Nat
deriving DecidableEq

structure ClampNode where
  image : Image
  input_node_idx : Option Nat
  lower_bound : NodeValue Rat
  upper_bound : NodeValue Rat
deriving DecidableEq

structure CombinerNode where
  image : Image
  input_node_indices : Option Nat × Option Nat
deriving DecidableEq

structure ConstantNode (T : Type) where
  name : String
  value : T
deriving DecidableEq

structure ConstantOpNode (T : Type) where
  inputs : NodeValue T × NodeValue T
  op_ty : OpType
deriving DecidableEq

structure ControlPointNode where
  input : NodeValue Rat
  output : NodeValue Rat
deriving DecidableEq

structure CurveNode where
  image : Image
  input_node_idx : Option Nat
  control_point_node_indices : List (Option Nat)
deriving DecidableEq

structure CylindersNode where
  image : Image
  frequency : NodeValue Rat
deriving DecidableEq

structure DisplaceNode where
  image : Image
  input_node_idx : Option Nat
  axes : Option Nat × Option Nat × Option Nat × Option Nat
deriving DecidableEq

structure ExponentNode where
  image : Image
  input_node_idx : Option Nat
  exponent : NodeValue Rat
deriving DecidableEq

structure FractalNode where
  image : Image
  source_ty : SourceType
  seed : NodeValue Nat
  octaves : NodeValue Nat
  frequency : NodeValue Rat
  lacunarity : NodeValue Rat
  persistence : NodeValue Rat
deriving DecidableEq

structure GeneratorNode where
  image : Image
  seed : NodeValue Nat
deriving DecidableEq

structure RigidFractalNode where
  image : Image
  source_ty : SourceType
  seed : NodeValue Nat
  octaves : NodeValue Nat
  frequency : NodeValue Rat
  lacunarity : NodeValue Rat
  persistence : NodeValue Rat
  attenuation : NodeValue Rat
deriving DecidableEq

structure ScaleBiasNode where
  image : Image
  input_node_idx : Option Nat
  scale : NodeValue Rat
  bias : NodeValue Rat
deriving DecidableEq

structure SelectNode where
  image : Image
  input_node_indices : Option Nat × Option Nat
  control_node_idx : Option Nat
  lower_bound : NodeValue Rat
  upper_bound : NodeValue Rat
  falloff : NodeValue Rat
deriving DecidableEq

structure TerraceNode where
  image : Image
  input_node_idx : Option Nat
  inverted : Bool
  control_point_node_indices : List (Option Nat)
deriving DecidableEq

structure TransformNode where
  image : Image
  input_node_idx : Option Nat
  axes : NodeValue Rat × NodeValue Rat × NodeValue Rat × NodeValue Rat
deriving DecidableEq

structure TurbulenceNode where
  image : Image
  input_node_idx : Option Nat
  source_ty : SourceType
  seed : NodeValue Nat
  frequency : NodeValue Rat
  power : NodeValue Rat
  roughness : NodeValue Nat
deriving DecidableEq

structure UnaryNode where
  image : Image
  input_node_idx : Option Nat
deriving DecidableEq

structure WorleyNode where
  image : Image
  seed : NodeValue Nat
  frequency : NodeValue Rat
  distance_fn : DistanceFunction
  return_ty : ReturnType
deriving DecidableEq

/-- The closed tagged union of node kinds (`enum NoiseNode`). -/
inductive NoiseNode where
  | abs (node : UnaryNode)
  | add (node : CombinerNode)
  | basicMulti (node : FractalNode)
  | billow (node : FractalNode)
  | blend (node : BlendNode)
  | clamp (node : ClampNode)
  | checkerboard (node : CheckerboardNode)
  | controlPoint (node : ControlPointNode)
  | curve (node : CurveNode)
  | cylinders (node : CylindersNode)
  | displace (node : DisplaceNode)
  | exponent (node : ExponentNode)
  | f64 (node : ConstantNode Rat)
  | f64Operation (node : ConstantOpNode Rat)
  | fbm (node : FractalNode)
  | hybridMulti (node : FractalNode)
  | max (node : CombinerNode)
  | min (node : CombinerNode)
  | multiply (node : CombinerNode)
  | negate (node : UnaryNode)
  | openSimplex (node : GeneratorNode)
  | operation (node : ConstantOpNode Unit)
  | perlin (node : GeneratorNode)
  | perlinSurflet (node : GeneratorNode)
  | power (node : CombinerNode)
  | rigidMulti (node : RigidFractalNode)
  | rotatePoint (node : TransformNode)
  | scaleBias (node : ScaleBiasNode)
  | scalePoint (node : TransformNode)
  | select (node : SelectNode)
  | simplex (node : GeneratorNode)
  | superSimplex (node : GeneratorNode)
  | terrace (node : TerraceNode)
  | translatePoint (node : TransformNode)
  | turbulence (node : TurbulenceNode)
  | u32 (node : ConstantNode Nat)
  | u32Operation (node : ConstantOpNode Nat)
  | value (node : GeneratorNode)
  | worley (node : WorleyNode)
deriving DecidableEq

/-- The graph store consumed by the core (`egui_snarl::Snarl`): node storage
by stable index plus, for each node, the list of consumer node indices of
its single output pin (`out_pin(OutPinId { node, output: 0 }).remotes`). -/
structure Snarl where
  nodes : List NoiseNode
  remotes : List (List Nat)
deriving DecidableEq

/-- `snarl.get_node(idx)`: panicking access, modelled as `Option`. -/
def Snarl.getNode (s : Snarl) (idx : Nat) : Option NoiseNode :=
  s.nodes[idx]?

/-- In-place node rewrite (`*snarl.get_node_mut(idx) = n`). -/
def Snarl.setNode (s : Snarl) (idx : Nat) (n : NoiseNode) : Snarl :=
  { s with nodes := s.nodes.set idx n }

/-- Consumers of node `idx`'s output pin. -/
def Snarl.remotesOf (s : Snarl) (idx : Nat) : List Nat :=
  (s.remotes[idx]?).getD []

/-! ## Scalar evaluators (`NodeValue::eval`, `eval_f64`, `eval_u32`)

The Rust functions recurse through the graph; the embedding takes an
explicit fuel that is consumed at each hop into a referenced node, and
returns `none` on fuel exhaustion or on a panic
(the `unreachable!()` arms, or an out-of-bounds reference). -/

mutual

/-- `NodeValue::<f64>::eval`. -/
def NodeValue.evalF64 (fuel : Nat) (s : Snarl) (v : NodeValue Rat) : Option Rat :=
  match fuel, v with
  | _, .value x => some x
  | 0, .node _ => none
  | fuel + 1, .node idx => (s.getNode idx).bind (fun n => NoiseNode.eval_f64 fuel s n)
termination_by (fuel, 0)

/-- `NoiseNode::eval_f64`.  Division by an exact zero yields `0.0`. -/
def NoiseNode.eval_f64 (fuel : Nat) (s : Snarl) (n : NoiseNode) : Option Rat :=
  match n with
  | .f64 node => some node.value
  | .f64Operation node =>
    (NodeValue.evalF64 fuel s node.inputs.1).bind (fun lhs =>
      (NodeValue.evalF64 fuel s node.inputs.2).bind (fun rhs =>
        match node.op_ty with
        | .add => some (lhs + rhs)
        | .divide => some (if rhs ≠ 0 then lhs / rhs else 0)
        | .multiply => some (lhs * rhs)
        | .subtract => some (lhs - rhs)))
  | _ => none
termination_by (fuel, 1)

end

mutual

/-- `NodeValue::<u32>::eval`. -/
def NodeValue.evalU32 (fuel : Nat) (s : Snarl) (v : NodeValue Nat) : Option Nat :=
  match fuel, v with
  | _, .value x => some x
  | 0, .node _ => none
  | fuel + 1, .node idx => (s.getNode idx).bind (fun n => NoiseNode.eval_u32 fuel s n)
termination_by (fuel, 0)

/-- `NoiseNode::eval_u32`: checked u32 arithmetic, any overflow, underflow
or division by zero collapsing to `0` (`unwrap_or_default`). -/
def NoiseNode.eval_u32 (fuel : Nat) (s : Snarl) (n : NoiseNode) : Option Nat :=
  match n with
  | .u32 node => some node.value
  | .u32Operation node =>
    (NodeValue.evalU32 fuel s node.inputs.1).bind (fun lhs =>
      (NodeValue.evalU32 fuel s node.inputs.2).bind (fun rhs =>
        match node.op_ty with
        | .add => some (if lhs + rhs < 4294967296 then lhs + rhs else 0)
        | .divide => some (if rhs ≠ 0 then lhs / rhs else 0)
        | .multiply => some (if lhs * rhs < 4294967296 then lhs * rhs else 0)
        | .subtract => some (if rhs ≤ lhs then lhs - rhs else 0)))
  | _ => none
termination_by (fuel, 1)

end

/-! ## Expression trees (`super::expr`)

The `expr.rs` module is not part of the packaged sources; the shapes of its
data types are fully determined by the construction sites in `node.rs` and
are reproduced here ([Box<T>; 2] / [Box<T>; 4] arrays become separate
fields; `Vec` becomes `List`). -/

/-- A resolved leaf value (`Variable<T>`): an anonymous literal, a named
literal carrying the user-given `Constant` name, or a nested arithmetic
sub-expression. -/
inductive Variable (T : Type) where
  | anonymous (v : T)
  | named (name : String) (v : T)
  | operation (lhs rhs : Variable T) (op_ty : OpType)
deriving DecidableEq

structure FractalExpr where
  source_ty : SourceType
  seed : Variable Nat
  octaves : Variable Nat
  frequency : Variable Rat
  lacunarity : Variable Rat
  persistence : Variable Rat
deriving DecidableEq

structure RigidFractalExpr where
  source_ty : SourceType
  seed : Variable Nat
  octaves : Variable Nat
  frequency : Variable Rat
  lacunarity : Variable Rat
  persistence : Variable Rat
  attenuation : Variable Rat
deriving DecidableEq

structure WorleyExpr where
  seed : Variable Nat
  frequency : Variable Rat
  distance_fn : DistanceFunction
  return_ty : ReturnType
deriving DecidableEq

structure ControlPointExpr where
  input_value : Variable Rat
  output_value : Variable Rat
deriving DecidableEq

mutual

/-- The immutable compiled expression tree (`Expr`). -/
inductive Expr where
  | abs (source : Expr)
  | add (lhs rhs : Expr)
  | basicMulti (fractal : FractalExpr)
  | billow (fractal : FractalExpr)
  | blend (e : BlendExpr)
  | checkerboard (size : Variable Nat)
  | clamp (e : ClampExpr)
  | constant (v : Variable Rat)
  | curve (e : CurveExpr)
  | cylinders (frequency : Variable Rat)
  | displace (e : DisplaceExpr)
  | exponent (e : ExponentExpr)
  | fbm (fractal : FractalExpr)
  | hybridMulti (fractal : FractalExpr)
  | max (lhs rhs : Expr)
  | min (lhs rhs : Expr)
  | multiply (lhs rhs : Expr)
  | negate (source : Expr)
  | openSimplex (seed : Variable Nat)
  | perlin (seed : Variable Nat)
  | perlinSurflet (seed : Variable Nat)
  | power (lhs rhs : Expr)
  | ridgedMulti (e : RigidFractalExpr)
  | rotatePoint (e : TransformExpr)
  | scaleBias (e : ScaleBiasExpr)
  | scalePoint (e : TransformExpr)
  | select (e : SelectExpr)
  | simplex (seed : Variable Nat)
  | superSimplex (seed : Variable Nat)
  | terrace (e : TerraceExpr)
  | translatePoint (e : TransformExpr)
  | turbulence (e : TurbulenceExpr)
  | value (seed : Variable Nat)
  | worley (e : WorleyExpr)

inductive BlendExpr where
  | mk (source0 source1 control : Expr)

inductive ClampExpr where
  | mk (source : Expr) (lower_bound upper_bound : Variable Rat)

inductive CurveExpr where
  | mk (source : Expr) (control_points : List ControlPointExpr)

inductive DisplaceExpr where
  | mk (source axis0 axis1 axis2 axis3 : Expr)

inductive ExponentExpr where
  | mk (source : Expr) (exponent : Variable Rat)

inductive ScaleBiasExpr where
  | mk (source : Expr) (scale bias : Variable Rat)

inductive SelectExpr where
  | mk (source0 source1 control : Expr)
      (lower_bound upper_bound falloff : Variable Rat)

inductive TerraceExpr where
  | mk (source : Expr) (inverted : Bool) (control_points : List (Variable Rat))

inductive TransformExpr where
  | mk (source : Expr)
      (axis0 axis1 axis2 axis3 : Variable Rat)

inductive TurbulenceExpr where
  | mk (source : Expr) (source_ty : SourceType) (seed : Variable Nat)
      (frequency power : Variable Rat) (roughness : Variable Nat)

end

/-- The `constant(value)` helper: an anonymous literal leaf. -/
def constant (v : Rat) : Expr :=
  Expr.constant (Variable.anonymous v)

/-! ## Expression compiler (`NoiseNode::expr` and the per-kind helpers)

Fuel is consumed at each hop into a referenced node; `none` models a Rust
panic (the `unreachable!()` arms or an invalid index) or fuel exhaustion. -/

mutual

/-- Compile the node stored at `idx`
(`snarl.get_node(node_idx).expr(snarl)`). -/
def exprIdx (fuel : Nat) (s : Snarl) (idx : Nat) : Option Expr :=
  match fuel with
  | 0 => none
  | fuel + 1 => (s.getNode idx).bind (fun n => NoiseNode.expr fuel s n)
termination_by (fuel, 0)

/-- The ubiquitous slot pattern
`node_idx.map(|i| snarl.get_node(i).expr(snarl)).unwrap_or_else(|| constant(dflt))`;
`dflt` is `0.0` everywhere except the combiners, which pass their own
default. -/
def exprOfInput (fuel : Nat) (s : Snarl) (dflt : Rat) (o : Option Nat) :
    Option Expr :=
  match o with
  | some idx => exprIdx fuel s idx
  | none => some (constant dflt)
termination_by (fuel, 1)

/-- `NodeValue::<f64>::var`. -/
def NodeValue.varF64 (fuel : Nat) (s : Snarl) (v : NodeValue Rat) :
    Option (Variable Rat) :=
  match fuel, v with
  | _, .value x => some (.anonymous x)
  | 0, .node _ => none
  | fuel + 1, .node idx =>
    match s.getNode idx with
    | some (.f64 node) => some (.named node.name node.value)
    | some (.f64Operation node) => ConstantOpNode.varF64Op fuel s node
    | _ => none
termination_by (fuel, 0)

/-- `ConstantOpNode::<f64>::var`. -/
def ConstantOpNode.varF64Op (fuel : Nat) (s : Snarl)
    (op : ConstantOpNode Rat) : Option (Variable Rat) :=
  (NodeValue.varF64 fuel s op.inputs.1).bind (fun lhs =>
    (NodeValue.varF64 fuel s op.inputs.2).bind (fun rhs =>
      some (.operation lhs rhs op.op_ty)))
termination_by (fuel, 1)

/-- `NodeValue::<u32>::var` (the operation case is inline in the source). -/
def NodeValue.varU32 (fuel : Nat) (s : Snarl) (v : NodeValue Nat) :
    Option (Variable Nat) :=
  match fuel, v with
  | _, .value x => some (.anonymous x)
  | 0, .node _ => none
  | fuel + 1, .node idx =>
    match s.getNode idx with
    | some (.u32 node) => some (.named node.name node.value)
    | some (.u32Operation node) =>
      (NodeValue.varU32 fuel s node.inputs.1).bind (fun lhs =>
        (NodeValue.varU32 fuel s node.inputs.2).bind (fun rhs =>
          some (.operation lhs rhs node.op_ty)))
    | _ => none
termination_by (fuel, 0)

/-- `BlendNode::expr`. -/
def BlendNode.expr (fuel : Nat) (s : Snarl) (node : BlendNode) :
    Option BlendExpr :=
  (exprOfInput fuel s 0 node.input_node_indices.1).bind (fun s0 =>
    (exprOfInput fuel s 0 node.input_node_indices.2).bind (fun s1 =>
      (exprOfInput fuel s 0 node.control_node_idx).bind (fun c =>
        some (.mk s0 s1 c))))
termination_by (fuel, 2)

/-- `ClampNode::expr`. -/
def ClampNode.expr (fuel : Nat) (s : Snarl) (node : ClampNode) :
    Option ClampExpr :=
  (exprOfInput fuel s 0 node.input_node_idx).bind (fun src =>
    (NodeValue.varF64 fuel s node.lower_bound).bind (fun lo =>
      (NodeValue.varF64 fuel s node.upper_bound).bind (fun hi =>
        some (.mk src lo hi))))
termination_by (fuel, 2)

/-- `CombinerNode::expr` with its per-kind `default_value`. -/
def CombinerNode.expr (fuel : Nat) (s : Snarl) (node : CombinerNode)
    (default_value : Rat) : Option (Expr × Expr) :=
  (exprOfInput fuel s default_value node.input_node_indices.1).bind (fun l =>
    (exprOfInput fuel s default_value node.input_node_indices.2).bind (fun r =>
      some (l, r)))
termination_by (fuel, 2)

/-- The body of `CurveNode::expr`'s `filter_map` closure for a connected
slot: the referenced node must be a `ControlPoint`
(`as_control_point().unwrap()` panics otherwise). -/
def curveControlPoint (fuel : Nat) (s : Snarl) (idx : Nat) :
    Option ControlPointExpr :=
  match s.getNode idx with
  | some (.controlPoint cp) =>
    (NodeValue.varF64 fuel s cp.input).bind (fun iv =>
      (NodeValue.varF64 fuel s cp.output).bind (fun ov =>
        some (ControlPointExpr.mk iv ov)))
  | _ => none

/-- `CurveNode::expr`: disconnected control-point slots are dropped by
`filter_map`. -/
def CurveNode.expr (fuel : Nat) (s : Snarl) (node : CurveNode) :
    Option CurveExpr :=
  (exprOfInput fuel s 0 node.input_node_idx).bind (fun src =>
    ((node.control_point_node_indices.filterMap id).mapM
        (curveControlPoint fuel s)).bind (fun cps =>
      some (.mk src cps)))
termination_by (fuel, 3)

/-- `DisplaceNode::expr`. -/
def DisplaceNode.expr (fuel : Nat) (s : Snarl) (node : DisplaceNode) :
    Option DisplaceExpr :=
  (exprOfInput fuel s 0 node.input_node_idx).bind (fun src =>
    (exprOfInput fuel s 0 node.axes.1).bind (fun a0 =>
      (exprOfInput fuel s 0 node.axes.2.1).bind (fun a1 =>
        (exprOfInput fuel s 0 node.axes.2.2.1).bind (fun a2 =>
          (exprOfInput fuel s 0 node.axes.2.2.2).bind (fun a3 =>
            some (.mk src a0 a1 a2 a3))))))
termination_by (fuel, 2)

/-- `ExponentNode::expr`. -/
def ExponentNode.expr (fuel : Nat) (s : Snarl) (node : ExponentNode) :
    Option ExponentExpr :=
  (exprOfInput fuel s 0 node.input_node_idx).bind (fun src =>
    (NodeValue.varF64 fuel s node.exponent).bind (fun e =>
      some (.mk src e)))
termination_by (fuel, 2)

/-- `FractalNode::expr`. -/
def FractalNode.expr (fuel : Nat) (s : Snarl) (node : FractalNode) :
    Option FractalExpr :=
  (NodeValue.varU32 fuel s node.seed).bind (fun seed =>
    (NodeValue.varU32 fuel s node.octaves).bind (fun oct =>
      (NodeValue.varF64 fuel s node.frequency).bind (fun freq =>
        (NodeValue.varF64 fuel s node.lacunarity).bind (fun lac =>
          (NodeValue.varF64 fuel s node.persistence).bind (fun pers =>
            some ⟨node.source_ty, seed, oct, freq, lac, pers⟩)))))

/-- `RigidFractalNode::expr`. -/
def RigidFractalNode.expr (fuel : Nat) (s : Snarl) (node : RigidFractalNode) :
    Option RigidFractalExpr :=
  (NodeValue.varU32 fuel s node.seed).bind (fun seed =>
    (NodeValue.varU32 fuel s node.octaves).bind (fun oct =>
      (NodeValue.varF64 fuel s node.frequency).bind (fun freq =>
        (NodeValue.varF64 fuel s node.lacunarity).bind (fun lac =>
          (NodeValue.varF64 fuel s node.persistence).bind (fun pers =>
            (NodeValue.varF64 fuel s node.attenuation).bind (fun att =>
              some ⟨node.source_ty, seed, oct, freq, lac, pers, att⟩))))))

/-- `ScaleBiasNode::expr`. -/
def ScaleBiasNode.expr (fuel : Nat) (s : Snarl) (node : ScaleBiasNode) :
    Option ScaleBiasExpr :=
  (exprOfInput fuel s 0 node.input_node_idx).bind (fun src =>
    (NodeValue.varF64 fuel s node.scale).bind (fun sc =>
      (NodeValue.varF64 fuel s node.bias).bind (fun b =>
        some (.mk src sc b))))
termination_by (fuel, 2)

/-- `SelectNode::expr`. -/
def SelectNode.expr (fuel : Nat) (s : Snarl) (node : SelectNode) :
    Option SelectExpr :=
  (exprOfInput fuel s 0 node.input_node_indices.1).bind (fun s0 =>
    (exprOfInput fuel s 0 node.input_node_indices.2).bind (fun s1 =>
      (exprOfInput fuel s 0 node.control_node_idx).bind (fun c =>
        (NodeValue.varF64 fuel s node.lower_bound).bind (fun lo =>
          (NodeValue.varF64 fuel s node.upper_bound).bind (fun hi =>
            (NodeValue.varF64 fuel s node.falloff).bind (fun f =>
              some (.mk s0 s1 c lo hi f)))))))
termination_by (fuel, 2)

/-- The body of `TerraceNode::expr`'s `filter_map` closure for a connected
slot: the referenced node must hold an `F64` constant or an `F64Operation`
(the wildcard arm is `unreachable!()`). -/
def terraceControlPoint (fuel : Nat) (s : Snarl) (idx : Nat) :
    Option (Variable Rat) :=
  match s.getNode idx with
  | some (.f64 c) => some (Variable.named c.name c.value)
  | some (.f64Operation op) => ConstantOpNode.varF64Op fuel s op
  | _ => none

/-- `TerraceNode::expr`: disconnected control-point slots are dropped by
`filter_map`. -/
def TerraceNode.expr (fuel : Nat) (s : Snarl) (node : TerraceNode) :
    Option TerraceExpr :=
  (exprOfInput fuel s 0 node.input_node_idx).bind (fun src =>
    ((node.control_point_node_indices.filterMap id).mapM
        (terraceControlPoint fuel s)).bind (fun cps =>
      some (.mk src node.inverted cps)))
termination_by (fuel, 3)

/-- `TransformNode::expr`. -/
def TransformNode.expr (fuel : Nat) (s : Snarl) (node : TransformNode) :
    Option TransformExpr :=
  (exprOfInput fuel s 0 node.input_node_idx).bind (fun src =>
    (NodeValue.varF64 fuel s node.axes.1).bind (fun a0 =>
      (NodeValue.varF64 fuel s node.axes.2.1).bind (fun a1 =>
        (NodeValue.varF64 fuel s node.axes.2.2.1).bind (fun a2 =>
          (NodeValue.varF64 fuel s node.axes.2.2.2).bind (fun a3 =>
            some (.mk src a0 a1 a2 a3))))))
termination_by (fuel, 2)

/-- `TurbulenceNode::expr`. -/
def TurbulenceNode.expr (fuel : Nat) (s : Snarl) (node : TurbulenceNode) :
    Option TurbulenceExpr :=
  (exprOfInput fuel s 0 node.input_node_idx).bind (fun src =>
    (NodeValue.varU32 fuel s node.seed).bind (fun seed =>
      (NodeValue.varF64 fuel s node.frequency).bind (fun freq =>
        (NodeValue.varF64 fuel s node.power).bind (fun pw =>
          (NodeValue.varU32 fuel s node.roughness).bind (fun rough =>
            some (.mk src node.source_ty seed freq pw rough))))))
termination_by (fuel, 2)

/-- `UnaryNode::expr`. -/
def UnaryNode.expr (fuel : Nat) (s : Snarl) (node : UnaryNode) :
    Option Expr :=
  exprOfInput fuel s 0 node.input_node_idx
termination_by (fuel, 2)

/-- `WorleyNode::expr`. -/
def WorleyNode.expr (fuel : Nat) (s : Snarl) (node : WorleyNode) :
    Option WorleyExpr :=
  (NodeValue.varU32 fuel s node.seed).bind (fun seed =>
    (NodeValue.varF64 fuel s node.frequency).bind (fun freq =>
      some ⟨seed, freq, node.distance_fn, node.return_ty⟩))

/-- `NoiseNode::expr`: the compiler entry point.  `ControlPoint`,
`Operation`, `U32` and `U32Operation` nodes are `unreachable!()`. -/
def NoiseNode.expr (fuel : Nat) (s : Snarl) (n : NoiseNode) : Option Expr :=
  match n with
  | .abs node => UnaryNode.expr fuel s node |>.map Expr.abs
  | .add node =>
    (CombinerNode.expr fuel s node 0).map (fun p => Expr.add p.1 p.2)
  | .basicMulti node => (FractalNode.expr fuel s node).map Expr.basicMulti
  | .billow node => (FractalNode.expr fuel s node).map Expr.billow
  | .blend node => (BlendNode.expr fuel s node).map Expr.blend
  | .checkerboard node =>
    (NodeValue.varU32 fuel s node.size).map Expr.checkerboard
  | .clamp node => (ClampNode.expr fuel s node).map Expr.clamp
  | .curve node => (CurveNode.expr fuel s node).map Expr.curve
  | .cylinders node =>
    (NodeValue.varF64 fuel s node.frequency).map Expr.cylinders
  | .displace node => (DisplaceNode.expr fuel s node).map Expr.displace
  | .exponent node => (ExponentNode.expr fuel s node).map Expr.exponent
  | .f64 node => some (Expr.constant (.named node.name node.value))
  | .f64Operation node => (ConstantOpNode.varF64Op fuel s node).map Expr.constant
  | .fbm node => (FractalNode.expr fuel s node).map Expr.fbm
  | .hybridMulti node => (FractalNode.expr fuel s node).map Expr.hybridMulti
  | .max node =>
    (CombinerNode.expr fuel s node 1).map (fun p => Expr.max p.1 p.2)
  | .min node =>
    (CombinerNode.expr fuel s node (-1)).map (fun p => Expr.min p.1 p.2)
  | .multiply node =>
    (CombinerNode.expr fuel s node 1).map (fun p => Expr.multiply p.1 p.2)
  | .negate node => (UnaryNode.expr fuel s node).map Expr.negate
  | .openSimplex node => (NodeValue.varU32 fuel s node.seed).map Expr.openSimplex
  | .perlin node => (NodeValue.varU32 fuel s node.seed).map Expr.perlin
  | .perlinSurflet node =>
    (NodeValue.varU32 fuel s node.seed).map Expr.perlinSurflet
  | .power node =>
    (CombinerNode.expr fuel s node 1).map (fun p => Expr.power p.1 p.2)
  | .rigidMulti node => (RigidFractalNode.expr fuel s node).map Expr.ridgedMulti
  | .rotatePoint node => (TransformNode.expr fuel s node).map Expr.rotatePoint
  | .scaleBias node => (ScaleBiasNode.expr fuel s node).map Expr.scaleBias
  | .scalePoint node => (TransformNode.expr fuel s node).map Expr.scalePoint
  | .select node => (SelectNode.expr fuel s node).map Expr.select
  | .simplex node => (NodeValue.varU32 fuel s node.seed).map Expr.simplex
  | .superSimplex node =>
    (NodeValue.varU32 fuel s node.seed).map Expr.superSimplex
  | .terrace node => (TerraceNode.expr fuel s node).map Expr.terrace
  | .translatePoint node =>
    (TransformNode.expr fuel s node).map Expr.translatePoint
  | .turbulence node => (TurbulenceNode.expr fuel s node).map Expr.turbulence
  | .value node => (NodeValue.varU32 fuel s node.seed).map Expr.value
  | .worley node => (WorleyNode.expr fuel s node).map Expr.worley
  | .controlPoint _ => none
  | .operation _ => none
  | .u32 _ => none
  | .u32Operation _ => none
termination_by (fuel, 4)

end

/-! ## Literal-leaf counting and the spec's reachable-constant count
(used to settle C5). -/

/-- Number of literal leaves (anonymous plus named) of a resolved leaf
value. -/
def Variable.leafCount {T : Type} : Variable T → Nat
  | .anonymous _ => 1
  | .named _ _ => 1
  | .operation lhs rhs _ => lhs.leafCount + rhs.leafCount

def FractalExpr.leafCount (e : FractalExpr) : Nat :=
  e.seed.leafCount + e.octaves.leafCount + e.frequency.leafCount
    + e.lacunarity.leafCount + e.persistence.leafCount

def RigidFractalExpr.leafCount (e : RigidFractalExpr) : Nat :=
  e.seed.leafCount + e.octaves.leafCount + e.frequency.leafCount
    + e.lacunarity.leafCount + e.persistence.leafCount
    + e.attenuation.leafCount

def WorleyExpr.leafCount (e : WorleyExpr) : Nat :=
  e.seed.leafCount + e.frequency.leafCount

def ControlPointExpr.leafCount (e : ControlPointExpr) : Nat :=
  e.input_value.leafCount + e.output_value.leafCount

mutual

/-- Number of literal leaves (anonymous plus named) of a compiled tree. -/
def Expr.leafCount : Expr → Nat
  | .abs e => e.leafCount
  | .add lhs rhs => lhs.leafCount + rhs.leafCount
  | .basicMulti f => f.leafCount
  | .billow f => f.leafCount
  | .blend e => e.leafCount
  | .checkerboard v => v.leafCount
  | .clamp e => e.leafCount
  | .constant v => v.leafCount
  | .curve e => e.leafCount
  | .cylinders v => v.leafCount
  | .displace e => e.leafCount
  | .exponent e => e.leafCount
  | .fbm f => f.leafCount
  | .hybridMulti f => f.leafCount
  | .max lhs rhs => lhs.leafCount + rhs.leafCount
  | .min lhs rhs => lhs.leafCount + rhs.leafCount
  | .multiply lhs rhs => lhs.leafCount + rhs.leafCount
  | .negate e => e.leafCount
  | .openSimplex v => v.leafCount
  | .perlin v => v.leafCount
  | .perlinSurflet v => v.leafCount
  | .power lhs rhs => lhs.leafCount + rhs.leafCount
  | .ridgedMulti e => e.leafCount
  | .rotatePoint e => e.leafCount
  | .scaleBias e => e.leafCount
  | .scalePoint e => e.leafCount
  | .select e => e.leafCount
  | .simplex v => v.leafCount
  | .superSimplex v => v.leafCount
  | .terrace e => e.leafCount
  | .translatePoint e => e.leafCount
  | .turbulence e => e.leafCount
  | .value v => v.leafCount
  | .worley e => e.leafCount

def BlendExpr.leafCount : BlendExpr → Nat
  | .mk s0 s1 c => s0.leafCount + s1.leafCount + c.leafCount

def ClampExpr.leafCount : ClampExpr → Nat
  | .mk src lo hi => src.leafCount + lo.leafCount + hi.leafCount

def CurveExpr.leafCount : CurveExpr → Nat
  | .mk src cps =>
    src.leafCount + (cps.map ControlPointExpr.leafCount).sum

def DisplaceExpr.leafCount : DisplaceExpr → Nat
  | .mk src a0 a1 a2 a3 =>
    src.leafCount + a0.leafCount + a1.leafCount + a2.leafCount + a3.leafCount

def ExponentExpr.leafCount : ExponentExpr → Nat
  | .mk src e => src.leafCount + e.leafCount

def ScaleBiasExpr.leafCount : ScaleBiasExpr → Nat
  | .mk src sc b => src.leafCount + sc.leafCount + b.leafCount

def SelectExpr.leafCount : SelectExpr → Nat
  | .mk s0 s1 c lo hi f =>
    s0.leafCount + s1.leafCount + c.leafCount + lo.leafCount + hi.leafCount
      + f.leafCount

def TerraceExpr.leafCount : TerraceExpr → Nat
  | .mk src _ cps => src.leafCount + (cps.map Variable.leafCount).sum

def TransformExpr.leafCount : TransformExpr → Nat
  | .mk src a0 a1 a2 a3 =>
    src.leafCount + a0.leafCount + a1.leafCount + a2.leafCount + a3.leafCount

def TurbulenceExpr.leafCount : TurbulenceExpr → Nat
  | .mk src _ seed freq pw rough =>
    src.leafCount + seed.leafCount + freq.leafCount + pw.leafCount
      + rough.leafCount

end

/-- All reference edges leaving a node: `NodeValue::Node` slots, `Option`
input-node slots, control-point slot lists and axis references. -/
def NoiseNode.refIndices : NoiseNode → List Nat
  | .abs node => node.input_node_idx.toList
  | .add node | .max node | .min node | .multiply node | .power node =>
    node.input_node_indices.1.toList ++ node.input_node_indices.2.toList
  | .basicMulti node | .billow node | .fbm node | .hybridMulti node =>
    [node.seed, node.octaves].filterMap NodeValue.as_node_index
      ++ [node.frequency, node.lacunarity,
          node.persistence].filterMap NodeValue.as_node_index
  | .blend node =>
    node.input_node_indices.1.toList ++ node.input_node_indices.2.toList
      ++ node.control_node_idx.toList
  | .checkerboard node => [node.size].filterMap NodeValue.as_node_index
  | .clamp node =>
    node.input_node_idx.toList
      ++ [node.lower_bound, node.upper_bound].filterMap NodeValue.as_node_index
  | .controlPoint node =>
    [node.input, node.output].filterMap NodeValue.as_node_index
  | .curve node =>
    node.input_node_idx.toList ++ node.control_point_node_indices.filterMap id
  | .cylinders node => [node.frequency].filterMap NodeValue.as_node_index
  | .displace node =>
    node.input_node_idx.toList ++ node.axes.1.toList ++ node.axes.2.1.toList
      ++ node.axes.2.2.1.toList ++ node.axes.2.2.2.toList
  | .exponent node =>
    node.input_node_idx.toList
      ++ [node.exponent].filterMap NodeValue.as_node_index
  | .f64 _ => []
  | .f64Operation node =>
    [node.inputs.1, node.inputs.2].filterMap NodeValue.as_node_index
  | .negate node => node.input_node_idx.toList
  | .openSimplex node | .perlin node | .perlinSurflet node | .simplex node
  | .superSimplex node | .value node =>
    [node.seed].filterMap NodeValue.as_node_index
  | .operation node =>
    [node.inputs.1, node.inputs.2].filterMap NodeValue.as_node_index
  | .rigidMulti node =>
    [node.seed, node.octaves].filterMap NodeValue.as_node_index
      ++ [node.frequency, node.lacunarity, node.persistence,
          node.attenuation].filterMap NodeValue.as_node_index
  | .rotatePoint node | .scalePoint node | .translatePoint node =>
    node.input_node_idx.toList
      ++ [node.axes.1, node.axes.2.1, node.axes.2.2.1,
          node.axes.2.2.2].filterMap NodeValue.as_node_index
  | .scaleBias node =>
    node.input_node_idx.toList
      ++ [node.scale, node.bias].filterMap NodeValue.as_node_index
  | .select node =>
    node.input_node_indices.1.toList ++ node.input_node_indices.2.toList
      ++ node.control_node_idx.toList
      ++ [node.lower_bound, node.upper_bound,
          node.falloff].filterMap NodeValue.as_node_index
  | .terrace node =>
    node.input_node_idx.toList ++ node.control_point_node_indices.filterMap id
  | .turbulence node =>
    node.input_node_idx.toList
      ++ [node.seed, node.roughness].filterMap NodeValue.as_node_index
      ++ [node.frequency, node.power].filterMap NodeValue.as_node_index
  | .u32 _ => []
  | .u32Operation node =>
    [node.inputs.1, node.inputs.2].filterMap NodeValue.as_node_index
  | .worley node =>
    [node.seed].filterMap NodeValue.as_node_index
      ++ [node.frequency].filterMap NodeValue.as_node_index

/-- Fuel-bounded flood fill along reference edges, collecting the visited
node indices. -/
def refReachable (s : Snarl) : Nat → List Nat → List Nat → List Nat
  | _, visited, [] => visited
  | 0, visited, _ :: _ => visited
  | fuel + 1, visited, idx :: rest =>
    if idx ∈ visited then refReachable s fuel visited rest
    else
      refReachable s fuel (idx :: visited)
        ((((s.getNode idx).map NoiseNode.refIndices).getD []) ++ rest)

/-- Whether a stored node is a `Constant` (`F64`/`U32`) or a concrete
operation node (`F64Operation`/`U32Operation`). -/
def isConstOrConcreteOp : Option NoiseNode → Bool
  | some (.f64 _) => true
  | some (.u32 _) => true
  | some (.f64Operation _) => true
  | some (.u32Operation _) => true
  | _ => false

/-- The count the spec's §8 property compares against, following the
spec's words: the number of distinct `Constant`/concrete-operation nodes
reachable from `n` via reference edges. -/
def specDistinctConstOpCount (s : Snarl) (n : Nat) (fuel : Nat) : Nat :=
  ((refReachable s fuel [] [n]).filter
      (fun i => isConstOrConcreteOp (s.getNode i))).length

/-- The `Image` produced by `impl Default for Image`
(scale `4.0`, version `0`, position `(0.0, 0.0)`). -/
def defaultImage : Image := ⟨4, 0, 0, 0⟩

/-! ## Type propagation engine

The four walks share one worklist discipline: `node_indices` is a Rust
`Vec` used as a stack (`push`/`pop` at the end, `extend` appends), and
`child_node_indices` is the visited set.  The embedding keeps the stack
reversed - the head of the list is the top of the stack - so `extend(xs)`
becomes `xs.reverse ++ wl`.  The visited set is kept as the list of
indices in insertion order; the demotion commit loop drains the Rust
`HashSet` in unspecified order, but each per-index rewrite touches a
distinct index and reads only that index, so insertion order is a faithful
model of any drain order. -/

/-- Reference slots of an operation node, in slot order
(`op.inputs.iter().filter_map(|input| input.as_node_index())`). -/
def ConstantOpNode.refs {T : Type} (op : ConstantOpNode T) : List Nat :=
  [op.inputs.1, op.inputs.2].filterMap NodeValue.as_node_index

/-- The per-node rewrite applied by every walk: each reference slot keeps
its node index, each literal slot becomes the target default, and the
operator tag is preserved. -/
def ConstantOpNode.retypeOp {A B : Type} (dflt : B) (op : ConstantOpNode A) :
    ConstantOpNode B :=
  ⟨(op.inputs.1.retype dflt, op.inputs.2.retype dflt), op.op_ty⟩

/-- Loop of `propagate_f64_from_tuple_op`: pop, mark visited, push the
output-pin consumers, then the node must be an unresolved `Operation`
(else `unreachable!()` panics); rewrite it to an `F64Operation` and push
its reference slots. -/
def promoteF64Loop (s : Snarl) (visited : List Nat) (wl : List Nat) :
    Option (Snarl × List Nat) :=
  match wl with
  | [] => some (s, visited)
  | idx :: rest =>
    if idx ∈ visited then promoteF64Loop s visited rest
    else
      match hn : s.getNode idx with
      | some (.operation op) =>
        promoteF64Loop (s.setNode idx (.f64Operation (op.retypeOp 0)))
          (idx :: visited)
          (op.refs.reverse ++ ((s.remotesOf idx).reverse ++ rest))
      | _ => none
termination_by
  (((Finset.range s.nodes.length \ visited.toFinset)).card, wl.length)
decreasing_by
  · exact Prod.Lex.right _ (Nat.lt_succ_self _)
  · apply Prod.Lex.left
    have hlt : idx < s.nodes.length := by
      have h := hn
      unfold Snarl.getNode at h
      exact (List.getElem?_eq_some.mp h).1
    have hsub : (Finset.range (s.nodes.set idx
          (NoiseNode.f64Operation (op.retypeOp 0))).length
          \ (idx :: visited).toFinset)
        ⊆ (Finset.range s.nodes.length \ visited.toFinset) := by
      simp only [List.length_set, List.toFinset_cons]
      exact Finset.sdiff_subset_sdiff (le_refl _)
        (Finset.subset_insert _ _)
    refine Finset.card_lt_card ((Finset.ssubset_iff_of_subset hsub).mpr
      ⟨idx, ?_, ?_⟩)
    · simp only [Finset.mem_sdiff, Finset.mem_range, List.mem_toFinset]
      exact ⟨hlt, by simpa using (by assumption : ¬ idx ∈ visited)⟩
    · simp [List.toFinset_cons]

/-- `propagate_f64_from_tuple_op`. -/
def NoiseNode.propagate_f64_from_tuple_op (node_idx : Nat) (s : Snarl) :
    Option Snarl :=
  (promoteF64Loop s [] [node_idx]).map Prod.fst

/-- Loop of `propagate_u32_from_tuple_op` (mirror of the f64 promotion). -/
def promoteU32Loop (s : Snarl) (visited : List Nat) (wl : List Nat) :
    Option (Snarl × List Nat) :=
  match wl with
  | [] => some (s, visited)
  | idx :: rest =>
    if idx ∈ visited then promoteU32Loop s visited rest
    else
      match hn : s.getNode idx with
      | some (.operation op) =>
        promoteU32Loop (s.setNode idx (.u32Operation (op.retypeOp 0)))
          (idx :: visited)
          (op.refs.reverse ++ ((s.remotesOf idx).reverse ++ rest))
      | _ => none
termination_by
  (((Finset.range s.nodes.length \ visited.toFinset)).card, wl.length)
decreasing_by
  · exact Prod.Lex.right _ (Nat.lt_succ_self _)
  · apply Prod.Lex.left
    have hlt : idx < s.nodes.length := by
      have h := hn
      unfold Snarl.getNode at h
      exact (List.getElem?_eq_some.mp h).1
    have hsub : (Finset.range (s.nodes.set idx
          (NoiseNode.u32Operation (op.retypeOp 0))).length
          \ (idx :: visited).toFinset)
        ⊆ (Finset.range s.nodes.length \ visited.toFinset) := by
      simp only [List.length_set, List.toFinset_cons]
      exact Finset.sdiff_subset_sdiff (le_refl _)
        (Finset.subset_insert _ _)
    refine Finset.card_lt_card ((Finset.ssubset_iff_of_subset hsub).mpr
      ⟨idx, ?_, ?_⟩)
    · simp only [Finset.mem_sdiff, Finset.mem_range, List.mem_toFinset]
      exact ⟨hlt, by simpa using (by assumption : ¬ idx ∈ visited)⟩
    · simp [List.toFinset_cons]

/-- `propagate_u32_from_tuple_op`. -/
def NoiseNode.propagate_u32_from_tuple_op (node_idx : Nat) (s : Snarl) :
    Option Snarl :=
  (promoteU32Loop s [] [node_idx]).map Prod.fst

/-- Check phase of `propagate_tuple_from_f64_op`: pop, mark visited; an
`F64Operation` node pushes its reference slots and its output-pin
consumers; any other stored node aborts cleanly (`some none`: scratch is
cleared and the function returns with no mutation); a dangling index
panics in `get_node` (`none`). -/
def demoteF64Check (s : Snarl) (visited : List Nat) (wl : List Nat) :
    Option (Option (List Nat)) :=
  match wl with
  | [] => some (some visited)
  | idx :: rest =>
    if idx ∈ visited then demoteF64Check s visited rest
    else
      match hn : s.getNode idx with
      | some (.f64Operation op) =>
        demoteF64Check s (idx :: visited)
          ((s.remotesOf idx).reverse ++ (op.refs.reverse ++ rest))
      | some _ => some none
      | none => none
termination_by
  (((Finset.range s.nodes.length \ visited.toFinset)).card, wl.length)
decreasing_by
  · exact Prod.Lex.right _ (Nat.lt_succ_self _)
  · apply Prod.Lex.left
    have hlt : idx < s.nodes.length := by
      have h := hn
      unfold Snarl.getNode at h
      exact (List.getElem?_eq_some.mp h).1
    have hsub : (Finset.range s.nodes.length
          \ (idx :: visited).toFinset)
        ⊆ (Finset.range s.nodes.length \ visited.toFinset) := by
      simp only [List.toFinset_cons]
      exact Finset.sdiff_subset_sdiff (le_refl _)
        (Finset.subset_insert _ _)
    refine Finset.card_lt_card ((Finset.ssubset_iff_of_subset hsub).mpr
      ⟨idx, ?_, ?_⟩)
    · simp only [Finset.mem_sdiff, Finset.mem_range, List.mem_toFinset]
      exact ⟨hlt, by simpa using (by assumption : ¬ idx ∈ visited)⟩
    · simp [List.toFinset_cons]

/-- Commit phase of `propagate_tuple_from_f64_op`: every visited node is
rewritten back to an unresolved `Operation`
(`as_const_op_f64().unwrap()` panics if it is not an `F64Operation`). -/
def demoteCommitF64 (s : Snarl) : List Nat → Option Snarl
  | [] => some s
  | idx :: rest =>
    match s.getNode idx with
    | some (.f64Operation op) =>
      demoteCommitF64 (s.setNode idx (.operation (op.retypeOp ()))) rest
    | _ => none

/-- `propagate_tuple_from_f64_op`: check-then-commit. -/
def NoiseNode.propagate_tuple_from_f64_op (node_idx : Nat) (s : Snarl) :
    Option Snarl :=
  match demoteF64Check s [] [node_idx] with
  | none => none
  | some none => some s
  | some (some vs) => demoteCommitF64 s vs

/-- Check phase of `propagate_tuple_from_u32_op` (mirror of the f64
demotion). -/
def demoteU32Check (s : Snarl) (visited : List Nat) (wl : List Nat) :
    Option (Option (List Nat)) :=
  match wl with
  | [] => some (some visited)
  | idx :: rest =>
    if idx ∈ visited then demoteU32Check s visited rest
    else
      match hn : s.getNode idx with
      | some (.u32Operation op) =>
        demoteU32Check s (idx :: visited)
          ((s.remotesOf idx).reverse ++ (op.refs.reverse ++ rest))
      | some _ => some none
      | none => none
termination_by
  (((Finset.range s.nodes.length \ visited.toFinset)).card, wl.length)
decreasing_by
  · exact Prod.Lex.right _ (Nat.lt_succ_self _)
  · apply Prod.Lex.left
    have hlt : idx < s.nodes.length := by
      have h := hn
      unfold Snarl.getNode at h
      exact (List.getElem?_eq_some.mp h).1
    have hsub : (Finset.range s.nodes.length
          \ (idx :: visited).toFinset)
        ⊆ (Finset.range s.nodes.length \ visited.toFinset) := by
      simp only [List.toFinset_cons]
      exact Finset.sdiff_subset_sdiff (le_refl _)
        (Finset.subset_insert _ _)
    refine Finset.card_lt_card ((Finset.ssubset_iff_of_subset hsub).mpr
      ⟨idx, ?_, ?_⟩)
    · simp only [Finset.mem_sdiff, Finset.mem_range, List.mem_toFinset]
      exact ⟨hlt, by simpa using (by assumption : ¬ idx ∈ visited)⟩
    · simp [List.toFinset_cons]

/-- Commit phase of `propagate_tuple_from_u32_op`. -/
def demoteCommitU32 (s : Snarl) : List Nat → Option Snarl
  | [] => some s
  | idx :: rest =>
    match s.getNode idx with
    | some (.u32Operation op) =>
      demoteCommitU32 (s.setNode idx (.operation (op.retypeOp ()))) rest
    | _ => none

/-- `propagate_tuple_from_u32_op`: check-then-commit. -/
def NoiseNode.propagate_tuple_from_u32_op (node_idx : Nat) (s : Snarl) :
    Option Snarl :=
  match demoteU32Check s [] [node_idx] with
  | none => none
  | some none => some s
  | some (some vs) => demoteCommitU32 s vs

/-! ## Adjacency and reachability for the flood fills -/

/-- Reference slots of the stored node, when it is an operation node of
any of the three type states; other kinds contribute none (the promotion
walks panic on them and the demotion walks abort on them before reading
slots). -/
def NoiseNode.opRefs : NoiseNode → List Nat
  | .operation op => op.refs
  | .f64Operation op => op.refs
  | .u32Operation op => op.refs
  | _ => []

/-- Backward edges of the flood fill at `i`. -/
def Snarl.refsOf (s : Snarl) (i : Nat) : List Nat :=
  ((s.getNode i).map NoiseNode.opRefs).getD []

/-- The combined flood-fill adjacency at `i`: forward along output-pin
consumers and backward along reference slots. -/
def Snarl.adj (s : Snarl) (i : Nat) : List Nat :=
  s.remotesOf i ++ s.refsOf i

/-- Reachability along a pure adjacency function. -/
inductive Reach (A : Nat → List Nat) (start : Nat) : Nat → Prop where
  | refl : Reach A start start
  | step {i j : Nat} : Reach A start i → j ∈ A i → Reach A start j

/-- Whether a stored node is an unresolved `Operation`. -/
def isTupleOpO : Option NoiseNode → Bool
  | some (.operation _) => true
  | _ => false

/-- Whether a stored node is an `F64Operation`. -/
def isF64OpO : Option NoiseNode → Bool
  | some (.f64Operation _) => true
  | _ => false

/-- Whether a stored node is a `U32Operation`. -/
def isU32OpO : Option NoiseNode → Bool
  | some (.u32Operation _) => true
  | _ => false

/-- How one rewritten slot relates to the original slot: a reference keeps
its node index, a literal becomes the default of the target
representation. -/
def slotsCorrespond {A B : Type} (dflt : B) (a : NodeValue A)
    (b : NodeValue B) : Prop :=
  (∀ j, a = .node j → b = .node j) ∧ ((∃ v, a = .value v) → b = .value dflt)

/-- Example store: two linked unresolved operation nodes (node 1 references
node 0 in a slot; node 0's output pin feeds node 1). -/
def exampleTupleSnarl : Snarl :=
  ⟨[.operation ⟨(.value (), .value ()), .add⟩,
    .operation ⟨(.node 0, .value ()), .multiply⟩], [[1], []]⟩

/-- Example store: an unresolved operation node whose output pin is wired
to a `Perlin` consumer. -/
def examplePinnedSnarl : Snarl :=
  ⟨[.operation ⟨(.value (), .value ()), .add⟩,
    .perlin ⟨defaultImage, .value 0⟩], [[1], []]⟩

/-- Example store: two linked `F64Operation` nodes. -/
def exampleF64PairSnarl : Snarl :=
  ⟨[.f64Operation ⟨(.value 1, .value 2), .add⟩,
    .f64Operation ⟨(.node 0, .value 3), .multiply⟩], [[1], []]⟩

/-- Example store: an `F64Operation` node still pinned by a `BasicMulti`
consumer. -/
def examplePinnedF64Snarl : Snarl :=
  ⟨[.f64Operation ⟨(.value 1, .value 2), .add⟩,
    .basicMulti ⟨defaultImage, .perlin, .value 0, .value 6, .node 0,
      .value 2, .value (1/2)⟩], [[1], []]⟩

/-! ## Well-formedness of a graph (§3 invariants, for compiler totality)

A graph is well-formed when a `rank` function witnesses acyclicity: every
reference edge strictly decreases the rank, every reference is valid, and
every referenced node is of the kind its slot requires (`Reference` is
valid only if it names a node capable of producing a value of type T). -/

/-- Slot check for an f64-typed `NodeValue` slot. -/
def slotOkF64 (s : Snarl) (rank : Nat → Nat) (r : Nat) :
    NodeValue Rat → Bool
  | .value _ => true
  | .node j =>
    decide (rank j < r) &&
      (match s.getNode j with
        | some (.f64 _) => true
        | some (.f64Operation _) => true
        | _ => false)

/-- Slot check for a u32-typed `NodeValue` slot. -/
def slotOkU32 (s : Snarl) (rank : Nat → Nat) (r : Nat) :
    NodeValue Nat → Bool
  | .value _ => true
  | .node j =>
    decide (rank j < r) &&
      (match s.getNode j with
        | some (.u32 _) => true
        | some (.u32Operation _) => true
        | _ => false)

/-- Whether `NoiseNode::expr` accepts this node kind (everything except
the four `unreachable!()` kinds). -/
def exprableKind : NoiseNode → Bool
  | .controlPoint _ => false
  | .operation _ => false
  | .u32 _ => false
  | .u32Operation _ => false
  | _ => true

/-- Check of a source-input slot (an `Option<usize>` slot compiled through
the `unwrap_or_else(constant)` pattern). -/
def inputOk (s : Snarl) (rank : Nat → Nat) (r : Nat) : Option Nat → Bool
  | none => true
  | some j =>
    decide (rank j < r) &&
      (match s.getNode j with
        | some n => exprableKind n
        | none => false)

/-- Check of one `Curve` control-point slot. -/
def controlPointSlotOk (s : Snarl) (rank : Nat → Nat) (r : Nat) :
    Option Nat → Bool
  | none => true
  | some j =>
    decide (rank j < r) &&
      (match s.getNode j with
        | some (.controlPoint _) => true
        | _ => false)

/-- Check of one `Terrace` control-point slot. -/
def terraceSlotOk (s : Snarl) (rank : Nat → Nat) (r : Nat) :
    Option Nat → Bool
  | none => true
  | some j =>
    decide (rank j < r) &&
      (match s.getNode j with
        | some (.f64 _) => true
        | some (.f64Operation _) => true
        | _ => false)

/-- Per-node well-formedness at rank `r`: every slot satisfies its check. -/
def NodeWF (s : Snarl) (rank : Nat → Nat) (r : Nat) : NoiseNode → Bool
  | .abs node => inputOk s rank r node.input_node_idx
  | .add node =>
    inputOk s rank r node.input_node_indices.1
      && inputOk s rank r node.input_node_indices.2
  | .basicMulti node =>
    slotOkU32 s rank r node.seed && slotOkU32 s rank r node.octaves
      && slotOkF64 s rank r node.frequency
      && slotOkF64 s rank r node.lacunarity
      && slotOkF64 s rank r node.persistence
  | .billow node =>
    slotOkU32 s rank r node.seed && slotOkU32 s rank r node.octaves
      && slotOkF64 s rank r node.frequency
      && slotOkF64 s rank r node.lacunarity
      && slotOkF64 s rank r node.persistence
  | .blend node =>
    inputOk s rank r node.input_node_indices.1
      && inputOk s rank r node.input_node_indices.2
      && inputOk s rank r node.control_node_idx
  | .checkerboard node => slotOkU32 s rank r node.size
  | .clamp node =>
    inputOk s rank r node.input_node_idx
      && slotOkF64 s rank r node.lower_bound
      && slotOkF64 s rank r node.upper_bound
  | .controlPoint node =>
    slotOkF64 s rank r node.input && slotOkF64 s rank r node.output
  | .curve node =>
    inputOk s rank r node.input_node_idx
      && node.control_point_node_indices.all (controlPointSlotOk s rank r)
  | .cylinders node => slotOkF64 s rank r node.frequency
  | .displace node =>
    inputOk s rank r node.input_node_idx
      && inputOk s rank r node.axes.1
      && inputOk s rank r node.axes.2.1
      && inputOk s rank r node.axes.2.2.1
      && inputOk s rank r node.axes.2.2.2
  | .exponent node =>
    inputOk s rank r node.input_node_idx
      && slotOkF64 s rank r node.exponent
  | .f64 _ => true
  | .f64Operation node =>
    slotOkF64 s rank r node.inputs.1 && slotOkF64 s rank r node.inputs.2
  | .fbm node =>
    slotOkU32 s rank r node.seed && slotOkU32 s rank r node.octaves
      && slotOkF64 s rank r node.frequency
      && slotOkF64 s rank r node.lacunarity
      && slotOkF64 s rank r node.persistence
  | .hybridMulti node =>
    slotOkU32 s rank r node.seed && slotOkU32 s rank r node.octaves
      && slotOkF64 s rank r node.frequency
      && slotOkF64 s rank r node.lacunarity
      && slotOkF64 s rank r node.persistence
  | .max node =>
    inputOk s rank r node.input_node_indices.1
      && inputOk s rank r node.input_node_indices.2
  | .min node =>
    inputOk s rank r node.input_node_indices.1
      && inputOk s rank r node.input_node_indices.2
  | .multiply node =>
    inputOk s rank r node.input_node_indices.1
      && inputOk s rank r node.input_node_indices.2
  | .negate node => inputOk s rank r node.input_node_idx
  | .openSimplex node => slotOkU32 s rank r node.seed
  | .operation node => true
  | .perlin node => slotOkU32 s rank r node.seed
  | .perlinSurflet node => slotOkU32 s rank r node.seed
  | .power node =>
    inputOk s rank r node.input_node_indices.1
      && inputOk s rank r node.input_node_indices.2
  | .rigidMulti node =>
    slotOkU32 s rank r node.seed && slotOkU32 s rank r node.octaves
      && slotOkF64 s rank r node.frequency
      && slotOkF64 s rank r node.lacunarity
      && slotOkF64 s rank r node.persistence
      && slotOkF64 s rank r node.attenuation
  | .rotatePoint node =>
    inputOk s rank r node.input_node_idx
      && slotOkF64 s rank r node.axes.1
      && slotOkF64 s rank r node.axes.2.1
      && slotOkF64 s rank r node.axes.2.2.1
      && slotOkF64 s rank r node.axes.2.2.2
  | .scaleBias node =>
    inputOk s rank r node.input_node_idx
      && slotOkF64 s rank r node.scale && slotOkF64 s rank r node.bias
  | .scalePoint node =>
    inputOk s rank r node.input_node_idx
      && slotOkF64 s rank r node.axes.1
      && slotOkF64 s rank r node.axes.2.1
      && slotOkF64 s rank r node.axes.2.2.1
      && slotOkF64 s rank r node.axes.2.2.2
  | .select node =>
    inputOk s rank r node.input_node_indices.1
      && inputOk s rank r node.input_node_indices.2
      && inputOk s rank r node.control_node_idx
      && slotOkF64 s rank r node.lower_bound
      && slotOkF64 s rank r node.upper_bound
      && slotOkF64 s rank r node.falloff
  | .simplex node => slotOkU32 s rank r node.seed
  | .superSimplex node => slotOkU32 s rank r node.seed
  | .terrace node =>
    inputOk s rank r node.input_node_idx
      && node.control_point_node_indices.all (terraceSlotOk s rank r)
  | .translatePoint node =>
    inputOk s rank r node.input_node_idx
      && slotOkF64 s rank r node.axes.1
      && slotOkF64 s rank r node.axes.2.1
      && slotOkF64 s rank r node.axes.2.2.1
      && slotOkF64 s rank r node.axes.2.2.2
  | .turbulence node =>
    inputOk s rank r node.input_node_idx
      && slotOkU32 s rank r node.seed
      && slotOkF64 s rank r node.frequency
      && slotOkF64 s rank r node.power
      && slotOkU32 s rank r node.roughness
  | .u32 _ => true
  | .u32Operation node =>
    slotOkU32 s rank r node.inputs.1 && slotOkU32 s rank r node.inputs.2
  | .value node => slotOkU32 s rank r node.seed
  | .worley node =>
    slotOkU32 s rank r node.seed && slotOkF64 s rank r node.frequency

/-- Whole-graph well-formedness under the acyclicity witness `rank`. -/
def SnarlWF (s : Snarl) (rank : Nat → Nat) : Bool :=
  (List.range s.nodes.length).all (fun i =>
    match s.getNode i with
    | some n => NodeWF s rank (rank i) n
    | none => true)

/-! ## Claims C6 and C7: numeric edge-case policy of the scalar evaluators -/

/-- C6: for every u32 operation node, `eval_u32` computes add, subtract,
multiply and divide with overflow-checked arithmetic; whenever the
operation overflows (add/multiply past `2^32 - 1`), underflows
(subtract below `0`) or divides by zero, the result is `0` and the
evaluation never faults (it always returns a value once the two operands
resolve). -/
theorem claim_C6_u32_checked_arithmetic
    (fuel : Nat) (s : Snarl) (inputs : NodeValue Nat × NodeValue Nat)
    (op : OpType) (lhs rhs : Nat)
    (h1 : NodeValue.evalU32 fuel s inputs.1 = some lhs)
    (h2 : NodeValue.evalU32 fuel s inputs.2 = some rhs) :
    (NoiseNode.eval_u32 fuel s (.u32Operation ⟨inputs, op⟩)).isSome = true
    ∧ (op = .add → 4294967296 ≤ lhs + rhs →
        NoiseNode.eval_u32 fuel s (.u32Operation ⟨inputs, op⟩) = some 0)
    ∧ (op = .subtract → lhs < rhs →
        NoiseNode.eval_u32 fuel s (.u32Operation ⟨inputs, op⟩) = some 0)
    ∧ (op = .multiply → 4294967296 ≤ lhs * rhs →
        NoiseNode.eval_u32 fuel s (.u32Operation ⟨inputs, op⟩) = some 0)
    ∧ (op = .divide → rhs = 0 →
        NoiseNode.eval_u32 fuel s (.u32Operation ⟨inputs, op⟩) = some 0) := by
  refine ⟨?_, ?_, ?_, ?_, ?_⟩
  · cases op <;> simp [NoiseNode.eval_u32, h1, h2]
  · rintro rfl hof
    simp only [NoiseNode.eval_u32, h1, h2, Option.bind_some]
    simp [Nat.not_lt_of_le hof]
  · rintro rfl huf
    simp only [NoiseNode.eval_u32, h1, h2, Option.bind_some]
    simp [Nat.not_le_of_lt huf]
  · rintro rfl hof
    simp only [NoiseNode.eval_u32, h1, h2, Option.bind_some]
    simp [Nat.not_lt_of_le hof]
  · rintro rfl rfl
    simp [NoiseNode.eval_u32, h1, h2]

/-- Witness for C6: the u32 addition node with literal inputs
`(4294967295, 1)` evaluates to `0`; the overflow collapses rather than
faulting. -/
theorem claim_C6_u32_checked_arithmetic_witness :
    NoiseNode.eval_u32 0 ⟨[], []⟩
      (.u32Operation ⟨(.value 4294967295, .value 1), .add⟩) = some 0 :=
  (claim_C6_u32_checked_arithmetic 0 ⟨[], []⟩ (.value 4294967295, .value 1)
      .add 4294967295 1 (by simp [NodeValue.evalU32])
      (by simp [NodeValue.evalU32])).2.1 rfl (by norm_num)

/-- C7: for every f64 operation node whose operator is divide, `eval_f64`
returns `0.0` whenever the resolved right-hand operand equals `0.0`
(no NaN or infinity can arise from the zero divisor: the division is never
performed). -/
theorem claim_C7_f64_divide_by_zero
    (fuel : Nat) (s : Snarl) (inputs : NodeValue Rat × NodeValue Rat)
    (lhs : Rat)
    (h1 : NodeValue.evalF64 fuel s inputs.1 = some lhs)
    (h2 : NodeValue.evalF64 fuel s inputs.2 = some 0) :
    NoiseNode.eval_f64 fuel s (.f64Operation ⟨inputs, .divide⟩) = some 0 := by
  simp [NoiseNode.eval_f64, h1, h2]

/-- Witness for C7: the float division node with literal inputs
`(10.0, 0.0)` evaluates to `0.0`. -/
theorem claim_C7_f64_divide_by_zero_witness :
    NoiseNode.eval_f64 0 ⟨[], []⟩
      (.f64Operation ⟨(.value 10, .value 0), .divide⟩) = some 0 :=
  claim_C7_f64_divide_by_zero 0 ⟨[], []⟩ (.value 10, .value 0) 10
    (by simp [NodeValue.evalF64]) (by simp [NodeValue.evalF64])

/-! ## Claim C4: disconnected input slots -/

/-- Counterexample to C4 as stated: a `Max` node with both source slots
disconnected compiles, but the substituted constant is the combiner's own
default `1.0`, not the claimed `0.0` (`Expr::Max(node.expr(snarl, 1.0))`). -/
theorem claim_C4_counterexample :
    NoiseNode.expr 0 ⟨[], []⟩ (.max ⟨defaultImage, (none, none)⟩)
      = some (.max (constant 1) (constant 1))
    ∧ constant 1 ≠ constant 0 := by
  constructor
  · simp [NoiseNode.expr, CombinerNode.expr, exprOfInput]
  · simp [constant]

/-- C4 (amended): compiling a node with a disconnected (`None`) required
input slot never fails, and substitutes a constant for the slot: the
anonymous literal `0.0` for every node kind except the combiners, which
substitute their own identity default (`Add` `0.0`, `Min` `-1.0`, `Max`,
`Multiply` and `Power` `1.0`). -/
theorem claim_C4_amended_disconnected_defaults
    (fuel : Nat) (s : Snarl) (img : Image) :
    exprOfInput fuel s 0 none = some (constant 0)
    ∧ NoiseNode.expr fuel s (.add ⟨img, (none, none)⟩)
        = some (.add (constant 0) (constant 0))
    ∧ NoiseNode.expr fuel s (.min ⟨img, (none, none)⟩)
        = some (.min (constant (-1)) (constant (-1)))
    ∧ NoiseNode.expr fuel s (.max ⟨img, (none, none)⟩)
        = some (.max (constant 1) (constant 1))
    ∧ NoiseNode.expr fuel s (.multiply ⟨img, (none, none)⟩)
        = some (.multiply (constant 1) (constant 1))
    ∧ NoiseNode.expr fuel s (.power ⟨img, (none, none)⟩)
        = some (.power (constant 1) (constant 1))
    ∧ NoiseNode.expr fuel s (.blend ⟨img, (none, none), none⟩)
        = some (.blend (.mk (constant 0) (constant 0) (constant 0)))
    ∧ (∀ lo hi fo : Rat,
        NoiseNode.expr fuel s
            (.select ⟨img, (none, none), none, .value lo, .value hi, .value fo⟩)
          = some (.select (.mk (constant 0) (constant 0) (constant 0)
              (.anonymous lo) (.anonymous hi) (.anonymous fo))))
    ∧ NoiseNode.expr fuel s (.displace ⟨img, none, (none, none, none, none)⟩)
        = some (.displace
            (.mk (constant 0) (constant 0) (constant 0) (constant 0)
              (constant 0)))
    ∧ (∀ lo hi : Rat,
        NoiseNode.expr fuel s (.clamp ⟨img, none, .value lo, .value hi⟩)
          = some (.clamp (.mk (constant 0) (.anonymous lo) (.anonymous hi))))
    ∧ NoiseNode.expr fuel s (.curve ⟨img, none, []⟩)
        = some (.curve (.mk (constant 0) []))
    ∧ (∀ inv : Bool,
        NoiseNode.expr fuel s (.terrace ⟨img, none, inv, []⟩)
          = some (.terrace (.mk (constant 0) inv [])))
    ∧ (∀ e : Rat,
        NoiseNode.expr fuel s (.exponent ⟨img, none, .value e⟩)
          = some (.exponent (.mk (constant 0) (.anonymous e))))
    ∧ (∀ sc b : Rat,
        NoiseNode.expr fuel s (.scaleBias ⟨img, none, .value sc, .value b⟩)
          = some (.scaleBias (.mk (constant 0) (.anonymous sc) (.anonymous b))))
    ∧ (∀ a0 a1 a2 a3 : Rat,
        NoiseNode.expr fuel s
            (.rotatePoint
              ⟨img, none, (.value a0, .value a1, .value a2, .value a3)⟩)
          = some (.rotatePoint (.mk (constant 0) (.anonymous a0) (.anonymous a1)
              (.anonymous a2) (.anonymous a3)))
        ∧ NoiseNode.expr fuel s
            (.scalePoint
              ⟨img, none, (.value a0, .value a1, .value a2, .value a3)⟩)
          = some (.scalePoint (.mk (constant 0) (.anonymous a0) (.anonymous a1)
              (.anonymous a2) (.anonymous a3)))
        ∧ NoiseNode.expr fuel s
            (.translatePoint
              ⟨img, none, (.value a0, .value a1, .value a2, .value a3)⟩)
          = some (.translatePoint (.mk (constant 0) (.anonymous a0)
              (.anonymous a1) (.anonymous a2) (.anonymous a3))))
    ∧ (∀ (st : SourceType) (seed rough : Nat) (freq pw : Rat),
        NoiseNode.expr fuel s
            (.turbulence
              ⟨img, none, st, .value seed, .value freq, .value pw,
                .value rough⟩)
          = some (.turbulence (.mk (constant 0) st (.anonymous seed)
              (.anonymous freq) (.anonymous pw) (.anonymous rough))))
    ∧ NoiseNode.expr fuel s (.abs ⟨img, none⟩) = some (.abs (constant 0))
    ∧ NoiseNode.expr fuel s (.negate ⟨img, none⟩)
        = some (.negate (constant 0)) := by
  refine ⟨?_, ?_, ?_, ?_, ?_, ?_, ?_, ?_, ?_, ?_, ?_, ?_, ?_, ?_, ?_, ?_,
    ?_, ?_⟩ <;>
    intros <;>
    simp [NoiseNode.expr, BlendNode.expr, ClampNode.expr, CombinerNode.expr,
      CurveNode.expr, DisplaceNode.expr, ExponentNode.expr, ScaleBiasNode.expr,
      SelectNode.expr, TerraceNode.expr, TransformNode.expr,
      TurbulenceNode.expr, UnaryNode.expr, exprOfInput, NodeValue.varF64,
      NodeValue.varU32, List.mapM.loop]

/-! ## Claim C10: control-point slot handling in Curve and Terrace -/

/-- A successful `Option`-monadic `mapM` relates inputs and outputs
pointwise and in order. -/
theorem mapM_option_forall2 {α β : Type} (f : α → Option β) :
    ∀ (l : List α) (ys : List β), l.mapM f = some ys →
      List.Forall₂ (fun a b => f a = some b) l ys := by
  intro l
  induction l with
  | nil =>
    intro ys h
    rw [List.mapM_nil] at h
    cases h
    exact .nil
  | cons a t ih =>
    intro ys h
    rw [List.mapM_cons] at h
    cases hfa : f a with
    | none => rw [hfa] at h; simp at h
    | some b =>
      rw [hfa] at h
      cases hmt : t.mapM f with
      | none => rw [hmt] at h; simp at h
      | some bs =>
        rw [hmt] at h
        simp at h
        subst h
        exact .cons hfa (ih bs hmt)

/-- C10: when compiling a `Curve` or `Terrace` node, disconnected (`None`)
entries of the ordered control-point slot list are omitted entirely: the
compiled control-point list corresponds pointwise, in order, to the
connected slots, so its length equals the number of connected slots. -/
theorem claim_C10_control_point_slots :
    (∀ (fuel : Nat) (s : Snarl) (node : CurveNode) (src : Expr)
        (cps : List ControlPointExpr),
      CurveNode.expr fuel s node = some (.mk src cps) →
      List.Forall₂ (fun idx cp => curveControlPoint fuel s idx = some cp)
          (node.control_point_node_indices.filterMap id) cps
        ∧ cps.length = (node.control_point_node_indices.filterMap id).length)
    ∧ (∀ (fuel : Nat) (s : Snarl) (node : TerraceNode) (src : Expr)
        (inv : Bool) (cps : List (Variable Rat)),
      TerraceNode.expr fuel s node = some (.mk src inv cps) →
      List.Forall₂ (fun idx cp => terraceControlPoint fuel s idx = some cp)
          (node.control_point_node_indices.filterMap id) cps
        ∧ cps.length
            = (node.control_point_node_indices.filterMap id).length) := by
  constructor
  · intro fuel s node src cps h
    rw [CurveNode.expr] at h
    cases hsrc : exprOfInput fuel s 0 node.input_node_idx with
    | none => rw [hsrc] at h; simp at h
    | some src' =>
      rw [hsrc] at h
      cases hcps : (node.control_point_node_indices.filterMap id).mapM
          (curveControlPoint fuel s) with
      | none => rw [hcps] at h; simp at h
      | some cps' =>
        rw [hcps] at h
        simp only [Option.some_bind, Option.some.injEq, CurveExpr.mk.injEq] at h
        obtain ⟨-, rfl⟩ := h
        have hf := mapM_option_forall2 _ _ _ hcps
        exact ⟨hf, hf.length_eq.symm⟩
  · intro fuel s node src inv cps h
    rw [TerraceNode.expr] at h
    cases hsrc : exprOfInput fuel s 0 node.input_node_idx with
    | none => rw [hsrc] at h; simp at h
    | some src' =>
      rw [hsrc] at h
      cases hcps : (node.control_point_node_indices.filterMap id).mapM
          (terraceControlPoint fuel s) with
      | none => rw [hcps] at h; simp at h
      | some cps' =>
        rw [hcps] at h
        simp only [Option.some_bind, Option.some.injEq,
          TerraceExpr.mk.injEq] at h
        obtain ⟨-, -, rfl⟩ := h
        have hf := mapM_option_forall2 _ _ _ hcps
        exact ⟨hf, hf.length_eq.symm⟩

/-- Witness for C10: a concrete `Curve` node with slot list
`[some 0, none, some 0]` compiles to two control points (the `None` slot is
dropped), and a concrete `Terrace` node with slot list `[some 1, none]`
compiles to one control point. -/
theorem claim_C10_control_point_slots_witness :
    (List.Forall₂
        (fun idx cp =>
          curveControlPoint 1
              ⟨[.controlPoint ⟨.value 1, .value 2⟩, .f64 ⟨"k", 3⟩], []⟩ idx
            = some cp)
        ([some 0, none, some 0].filterMap id)
        [ControlPointExpr.mk (.anonymous 1) (.anonymous 2),
          ControlPointExpr.mk (.anonymous 1) (.anonymous 2)]
      ∧ ([ControlPointExpr.mk (.anonymous 1) (.anonymous 2),
          ControlPointExpr.mk (.anonymous 1) (.anonymous 2)]).length
          = ([some 0, none, some 0].filterMap
              (id : Option Nat → Option Nat)).length)
    ∧ (List.Forall₂
        (fun idx cp =>
          terraceControlPoint 1
              ⟨[.controlPoint ⟨.value 1, .value 2⟩, .f64 ⟨"k", 3⟩], []⟩ idx
            = some cp)
        ([some 1, none].filterMap id) [Variable.named "k" 3]
      ∧ ([Variable.named "k" 3]).length
          = ([some 1, none].filterMap (id : Option Nat → Option Nat)).length) := by
  constructor
  · refine claim_C10_control_point_slots.1 1
      ⟨[.controlPoint ⟨.value 1, .value 2⟩, .f64 ⟨"k", 3⟩], []⟩
      ⟨defaultImage, none, [some 0, none, some 0]⟩ (constant 0) _ ?_
    simp [CurveNode.expr, exprOfInput, curveControlPoint, NodeValue.varF64,
      Snarl.getNode, List.filterMap, List.mapM.loop]
  · refine claim_C10_control_point_slots.2 1
      ⟨[.controlPoint ⟨.value 1, .value 2⟩, .f64 ⟨"k", 3⟩], []⟩
      ⟨defaultImage, none, true, [some 1, none]⟩ (constant 0) true _ ?_
    simp [TerraceNode.expr, exprOfInput, terraceControlPoint,
      Snarl.getNode, List.filterMap, List.mapM.loop]

/-! ## Claim C5: leaf count versus distinct reachable constants -/

/-- Counterexample to C5 as stated: for the graph holding a single default
`Perlin` node with a literal seed, compilation succeeds and produces a tree
with one literal leaf (the anonymous seed), while the number of distinct
`Constant`/concrete-operation nodes reachable from it via reference edges
is zero; the claimed equality fails. -/
theorem claim_C5_counterexample :
    NoiseNode.expr 1 ⟨[.perlin ⟨defaultImage, .value 0⟩], []⟩
        (.perlin ⟨defaultImage, .value 0⟩)
      = some (.perlin (.anonymous 0))
    ∧ Expr.leafCount (.perlin (.anonymous 0)) = 1
    ∧ specDistinctConstOpCount ⟨[.perlin ⟨defaultImage, .value 0⟩], []⟩ 0 2 = 0
    ∧ (1 : Nat) ≠ 0 := by
  refine ⟨?_, ?_, ?_, by decide⟩
  · simp [NoiseNode.expr, NodeValue.varU32]
  · simp [Expr.leafCount, Variable.leafCount]
  · rfl

/-! ## Flood-fill lemma battery -/

theorem Snarl.getNode_lt_length {s : Snarl} {i : Nat} {n : NoiseNode}
    (h : s.getNode i = some n) : i < s.nodes.length := by
  unfold Snarl.getNode at h
  exact (List.getElem?_eq_some.mp h).1

theorem Snarl.length_setNode (s : Snarl) (i : Nat) (n : NoiseNode) :
    (s.setNode i n).nodes.length = s.nodes.length := by
  simp [Snarl.setNode]

theorem Snarl.remotes_setNode (s : Snarl) (i : Nat) (n : NoiseNode) :
    (s.setNode i n).remotes = s.remotes := rfl

theorem Snarl.remotesOf_setNode (s : Snarl) (i : Nat) (n : NoiseNode)
    (j : Nat) : (s.setNode i n).remotesOf j = s.remotesOf j := rfl

theorem Snarl.getNode_setNode_self {s : Snarl} {i : Nat} (n : NoiseNode)
    (h : i < s.nodes.length) : (s.setNode i n).getNode i = some n := by
  simp [Snarl.setNode, Snarl.getNode, List.getElem?_set_self h]

theorem Snarl.getNode_setNode_ne {s : Snarl} {i j : Nat} (n : NoiseNode)
    (h : i ≠ j) : (s.setNode i n).getNode j = s.getNode j := by
  simp [Snarl.setNode, Snarl.getNode, List.getElem?_set_ne h]

theorem ConstantOpNode.refs_retypeOp {A B : Type} (dflt : B)
    (op : ConstantOpNode A) : (op.retypeOp dflt).refs = op.refs := by
  obtain ⟨⟨i1, i2⟩, t⟩ := op
  cases i1 <;> cases i2 <;>
    simp [ConstantOpNode.retypeOp, ConstantOpNode.refs, NodeValue.retype,
      NodeValue.as_node_index]

theorem Snarl.adj_setNode_op {s : Snarl} {i : Nat} {old new : NoiseNode}
    (hold : s.getNode i = some old) (hrefs : new.opRefs = old.opRefs) :
    ∀ j, (s.setNode i new).adj j = s.adj j := by
  intro j
  unfold Snarl.adj Snarl.refsOf
  rw [Snarl.remotesOf_setNode]
  by_cases hji : i = j
  · subst hji
    rw [Snarl.getNode_setNode_self new (Snarl.getNode_lt_length hold), hold]
    simp [hrefs]
  · rw [Snarl.getNode_setNode_ne new hji]

theorem Reach.trans {A : Nat → List Nat} {a b c : Nat}
    (h1 : Reach A a b) (h2 : Reach A b c) : Reach A a c := by
  induction h2 with
  | refl => exact h1
  | step _ hmem ih => exact .step ih hmem

/-- Master invariant lemma for the f64 promotion loop: on success the
returned visited set contains the input visited set and worklist, is
exactly the input visited set plus the nodes reachable from the worklist,
is closed under the adjacency, and every newly visited node was an
unresolved `Operation` rewritten in place to the corresponding
`F64Operation`; every other index is untouched, and the store's length,
pin adjacency and remotes are preserved. -/
theorem promoteF64Loop_spec (A : Nat → List Nat) :
    ∀ (s : Snarl) (visited wl : List Nat),
    ∀ (s' : Snarl) (vs : List Nat),
    promoteF64Loop s visited wl = some (s', vs) →
    (∀ j, s.adj j = A j) →
    (∀ i ∈ visited, ∀ j ∈ A i, j ∈ visited ∨ j ∈ wl) →
    (∀ i ∈ visited, i ∈ vs)
    ∧ (∀ i ∈ wl, i ∈ vs)
    ∧ (∀ i ∈ vs, i ∈ visited ∨ ∃ w ∈ wl, Reach A w i)
    ∧ (∀ i ∈ vs, i ∉ visited →
        ∃ op, s.getNode i = some (.operation op)
          ∧ s'.getNode i = some (.f64Operation (op.retypeOp 0)))
    ∧ (∀ i, (i ∉ vs ∨ i ∈ visited) → s'.getNode i = s.getNode i)
    ∧ (∀ i ∈ vs, ∀ j ∈ A i, j ∈ vs)
    ∧ s'.nodes.length = s.nodes.length
    ∧ s'.remotes = s.remotes
    ∧ (∀ j, s'.adj j = A j) := by
  intro s visited wl
  induction s, visited, wl using promoteF64Loop.induct with
  | case1 s visited =>
    intro s' vs h hadj hfront
    rw [promoteF64Loop] at h
    simp only [Option.some.injEq, Prod.mk.injEq] at h
    obtain ⟨rfl, rfl⟩ := h
    refine ⟨fun i hi => hi, by simp, fun i hi => Or.inl hi, ?_, ?_, ?_,
      rfl, rfl, hadj⟩
    · intro i hi hni; exact absurd hi hni
    · intro i _; rfl
    · intro i hi j hj
      rcases hfront i hi j hj with hv | hv
      · exact hv
      · simp at hv
  | case2 s visited idx rest hmem ih =>
    intro s' vs h hadj hfront
    rw [promoteF64Loop, if_pos hmem] at h
    have hfront' : ∀ i ∈ visited, ∀ j ∈ A i, j ∈ visited ∨ j ∈ rest := by
      intro i hi j hj
      rcases hfront i hi j hj with hv | hv
      · exact Or.inl hv
      · rcases List.mem_cons.mp hv with rfl | hv
        · exact Or.inl hmem
        · exact Or.inr hv
    obtain ⟨ha, hb, hc, hd, he, hf, hg, hh, hi2⟩ :=
      ih s' vs h hadj hfront'
    refine ⟨ha, ?_, ?_, hd, he, hf, hg, hh, hi2⟩
    · intro i hi
      rcases List.mem_cons.mp hi with rfl | hi
      · exact ha i hmem
      · exact hb i hi
    · intro i hi
      rcases hc i hi with hv | ⟨w, hw, hr⟩
      · exact Or.inl hv
      · exact Or.inr ⟨w, List.mem_cons_of_mem _ hw, hr⟩
  | case3 s visited idx rest hmem op hn ih =>
    intro s' vs h hadj hfront
    rw [promoteF64Loop, if_neg hmem] at h
    split at h
    swap
    · rename_i hno2
      exact (hno2 op hn).elim
    rename_i op1 heq
    rw [hn] at heq
    injection heq with h2
    injection h2 with h3
    subst h3
    have hlt : idx < s.nodes.length := Snarl.getNode_lt_length hn
    have hrefs : (NoiseNode.f64Operation (op.retypeOp 0)).opRefs
        = (NoiseNode.operation op).opRefs := by
      simp [NoiseNode.opRefs, ConstantOpNode.refs_retypeOp]
    have hadj1 : ∀ j,
        (s.setNode idx (.f64Operation (op.retypeOp 0))).adj j = A j :=
      fun j => (Snarl.adj_setNode_op hn hrefs j).trans (hadj j)
    have hAidx : A idx = s.remotesOf idx ++ op.refs := by
      rw [← hadj idx]
      simp [Snarl.adj, Snarl.refsOf, hn, NoiseNode.opRefs]
    have hfront1 : ∀ i ∈ idx :: visited, ∀ j ∈ A i,
        j ∈ idx :: visited
          ∨ j ∈ op.refs.reverse ++ ((s.remotesOf idx).reverse ++ rest) := by
      intro i hi j hj
      rcases List.mem_cons.mp hi with rfl | hi
      · rw [hAidx] at hj
        rcases List.mem_append.mp hj with hj | hj
        · exact Or.inr (by simp [hj])
        · exact Or.inr (by simp [hj])
      · rcases hfront i hi j hj with hv | hv
        · exact Or.inl (List.mem_cons_of_mem _ hv)
        · rcases List.mem_cons.mp hv with rfl | hv
          · exact Or.inl (List.mem_cons_self _ _)
          · exact Or.inr (by simp [hv])
    obtain ⟨ha, hb, hc, hd, he, hf, hg, hh, hi2⟩ := ih s' vs h hadj1 hfront1
    have hidxvs : idx ∈ vs := ha idx (List.mem_cons_self _ _)
    have hvisvs : ∀ i ∈ visited, i ∈ vs :=
      fun i hi => ha i (List.mem_cons_of_mem _ hi)
    refine ⟨hvisvs, ?_, ?_, ?_, ?_, hf, ?_, ?_, hi2⟩
    · intro i hi
      rcases List.mem_cons.mp hi with rfl | hi
      · exact hidxvs
      · exact hb i (by simp [hi])
    · intro i hi
      rcases hc i hi with hv | ⟨w, hw, hr⟩
      · rcases List.mem_cons.mp hv with rfl | hv
        · exact Or.inr ⟨i, List.mem_cons_self _ _, .refl⟩
        · exact Or.inl hv
      · rcases List.mem_append.mp hw with hw | hw
        · refine Or.inr ⟨idx, List.mem_cons_self _ _, Reach.trans ?_ hr⟩
          exact .step .refl (by rw [hAidx]; simp at hw; simp [hw])
        · rcases List.mem_append.mp hw with hw | hw
          · refine Or.inr ⟨idx, List.mem_cons_self _ _, Reach.trans ?_ hr⟩
            exact .step .refl (by rw [hAidx]; simp at hw; simp [hw])
          · exact Or.inr ⟨w, List.mem_cons_of_mem _ hw, hr⟩
    · intro i hi hni
      by_cases hieq : i = idx
      · subst hieq
        refine ⟨op, hn, ?_⟩
        have := he i (Or.inr (List.mem_cons_self _ _))
        rw [this]
        exact Snarl.getNode_setNode_self _ hlt
      · have hni1 : i ∉ idx :: visited := by
          simp only [List.mem_cons]
          rintro (rfl | hv)
          · exact hieq rfl
          · exact hni hv
        obtain ⟨op', h1, h2⟩ := hd i hi hni1
        refine ⟨op', ?_, h2⟩
        rwa [Snarl.getNode_setNode_ne _ (fun hc2 => hieq hc2.symm)] at h1
    · intro i hcase
      rcases hcase with hnvs | hvis
      · have hni1 : i ∉ idx :: visited := by
          simp only [List.mem_cons]
          rintro (rfl | hv)
          · exact hnvs hidxvs
          · exact hnvs (hvisvs i hv)
        have := he i (Or.inl (by
          intro hvv
          exact hnvs hvv))
        rw [this]
        have hieq : idx ≠ i := by
          rintro rfl
          exact hnvs hidxvs
        exact Snarl.getNode_setNode_ne _ hieq
      · have := he i (Or.inr (List.mem_cons_of_mem _ hvis))
        rw [this]
        have hieq : idx ≠ i := by
          rintro rfl
          exact hmem hvis
        exact Snarl.getNode_setNode_ne _ hieq
    · rw [hg]; exact Snarl.length_setNode s idx _
    · rw [hh]; rfl
  | case4 s visited idx rest hmem hno =>
    intro s' vs h hadj hfront
    rw [promoteF64Loop, if_neg hmem] at h
    split at h
    · rename_i op1 heq
      exact (hno op1 heq).elim
    · exact Option.noConfusion h

/-- Master invariant lemma for the u32 promotion loop: on success the
returned visited set contains the input visited set and worklist, is
exactly the input visited set plus the nodes reachable from the worklist,
is closed under the adjacency, and every newly visited node was an
unresolved `Operation` rewritten in place to the corresponding
`U32Operation`; every other index is untouched, and the store's length,
pin adjacency and remotes are preserved. -/
theorem promoteU32Loop_spec (A : Nat → List Nat) :
    ∀ (s : Snarl) (visited wl : List Nat),
    ∀ (s' : Snarl) (vs : List Nat),
    promoteU32Loop s visited wl = some (s', vs) →
    (∀ j, s.adj j = A j) →
    (∀ i ∈ visited, ∀ j ∈ A i, j ∈ visited ∨ j ∈ wl) →
    (∀ i ∈ visited, i ∈ vs)
    ∧ (∀ i ∈ wl, i ∈ vs)
    ∧ (∀ i ∈ vs, i ∈ visited ∨ ∃ w ∈ wl, Reach A w i)
    ∧ (∀ i ∈ vs, i ∉ visited →
        ∃ op, s.getNode i = some (.operation op)
          ∧ s'.getNode i = some (.u32Operation (op.retypeOp 0)))
    ∧ (∀ i, (i ∉ vs ∨ i ∈ visited) → s'.getNode i = s.getNode i)
    ∧ (∀ i ∈ vs, ∀ j ∈ A i, j ∈ vs)
    ∧ s'.nodes.length = s.nodes.length
    ∧ s'.remotes = s.remotes
    ∧ (∀ j, s'.adj j = A j) := by
  intro s visited wl
  induction s, visited, wl using promoteU32Loop.induct with
  | case1 s visited =>
    intro s' vs h hadj hfront
    rw [promoteU32Loop] at h
    simp only [Option.some.injEq, Prod.mk.injEq] at h
    obtain ⟨rfl, rfl⟩ := h
    refine ⟨fun i hi => hi, by simp, fun i hi => Or.inl hi, ?_, ?_, ?_,
      rfl, rfl, hadj⟩
    · intro i hi hni; exact absurd hi hni
    · intro i _; rfl
    · intro i hi j hj
      rcases hfront i hi j hj with hv | hv
      · exact hv
      · simp at hv
  | case2 s visited idx rest hmem ih =>
    intro s' vs h hadj hfront
    rw [promoteU32Loop, if_pos hmem] at h
    have hfront' : ∀ i ∈ visited, ∀ j ∈ A i, j ∈ visited ∨ j ∈ rest := by
      intro i hi j hj
      rcases hfront i hi j hj with hv | hv
      · exact Or.inl hv
      · rcases List.mem_cons.mp hv with rfl | hv
        · exact Or.inl hmem
        · exact Or.inr hv
    obtain ⟨ha, hb, hc, hd, he, hf, hg, hh, hi2⟩ :=
      ih s' vs h hadj hfront'
    refine ⟨ha, ?_, ?_, hd, he, hf, hg, hh, hi2⟩
    · intro i hi
      rcases List.mem_cons.mp hi with rfl | hi
      · exact ha i hmem
      · exact hb i hi
    · intro i hi
      rcases hc i hi with hv | ⟨w, hw, hr⟩
      · exact Or.inl hv
      · exact Or.inr ⟨w, List.mem_cons_of_mem _ hw, hr⟩
  | case3 s visited idx rest hmem op hn ih =>
    intro s' vs h hadj hfront
    rw [promoteU32Loop, if_neg hmem] at h
    split at h
    swap
    · rename_i hno2
      exact (hno2 op hn).elim
    rename_i op1 heq
    rw [hn] at heq
    injection heq with h2
    injection h2 with h3
    subst h3
    have hlt : idx < s.nodes.length := Snarl.getNode_lt_length hn
    have hrefs : (NoiseNode.u32Operation (op.retypeOp 0)).opRefs
        = (NoiseNode.operation op).opRefs := by
      simp [NoiseNode.opRefs, ConstantOpNode.refs_retypeOp]
    have hadj1 : ∀ j,
        (s.setNode idx (.u32Operation (op.retypeOp 0))).adj j = A j :=
      fun j => (Snarl.adj_setNode_op hn hrefs j).trans (hadj j)
    have hAidx : A idx = s.remotesOf idx ++ op.refs := by
      rw [← hadj idx]
      simp [Snarl.adj, Snarl.refsOf, hn, NoiseNode.opRefs]
    have hfront1 : ∀ i ∈ idx :: visited, ∀ j ∈ A i,
        j ∈ idx :: visited
          ∨ j ∈ op.refs.reverse ++ ((s.remotesOf idx).reverse ++ rest) := by
      intro i hi j hj
      rcases List.mem_cons.mp hi with rfl | hi
      · rw [hAidx] at hj
        rcases List.mem_append.mp hj with hj | hj
        · exact Or.inr (by simp [hj])
        · exact Or.inr (by simp [hj])
      · rcases hfront i hi j hj with hv | hv
        · exact Or.inl (List.mem_cons_of_mem _ hv)
        · rcases List.mem_cons.mp hv with rfl | hv
          · exact Or.inl (List.mem_cons_self _ _)
          · exact Or.inr (by simp [hv])
    obtain ⟨ha, hb, hc, hd, he, hf, hg, hh, hi2⟩ := ih s' vs h hadj1 hfront1
    have hidxvs : idx ∈ vs := ha idx (List.mem_cons_self _ _)
    have hvisvs : ∀ i ∈ visited, i ∈ vs :=
      fun i hi => ha i (List.mem_cons_of_mem _ hi)
    refine ⟨hvisvs, ?_, ?_, ?_, ?_, hf, ?_, ?_, hi2⟩
    · intro i hi
      rcases List.mem_cons.mp hi with rfl | hi
      · exact hidxvs
      · exact hb i (by simp [hi])
    · intro i hi
      rcases hc i hi with hv | ⟨w, hw, hr⟩
      · rcases List.mem_cons.mp hv with rfl | hv
        · exact Or.inr ⟨i, List.mem_cons_self _ _, .refl⟩
        · exact Or.inl hv
      · rcases List.mem_append.mp hw with hw | hw
        · refine Or.inr ⟨idx, List.mem_cons_self _ _, Reach.trans ?_ hr⟩
          exact .step .refl (by rw [hAidx]; simp at hw; simp [hw])
        · rcases List.mem_append.mp hw with hw | hw
          · refine Or.inr ⟨idx, List.mem_cons_self _ _, Reach.trans ?_ hr⟩
            exact .step .refl (by rw [hAidx]; simp at hw; simp [hw])
          · exact Or.inr ⟨w, List.mem_cons_of_mem _ hw, hr⟩
    · intro i hi hni
      by_cases hieq : i = idx
      · subst hieq
        refine ⟨op, hn, ?_⟩
        have := he i (Or.inr (List.mem_cons_self _ _))
        rw [this]
        exact Snarl.getNode_setNode_self _ hlt
      · have hni1 : i ∉ idx :: visited := by
          simp only [List.mem_cons]
          rintro (rfl | hv)
          · exact hieq rfl
          · exact hni hv
        obtain ⟨op', h1, h2⟩ := hd i hi hni1
        refine ⟨op', ?_, h2⟩
        rwa [Snarl.getNode_setNode_ne _ (fun hc2 => hieq hc2.symm)] at h1
    · intro i hcase
      rcases hcase with hnvs | hvis
      · have hni1 : i ∉ idx :: visited := by
          simp only [List.mem_cons]
          rintro (rfl | hv)
          · exact hnvs hidxvs
          · exact hnvs (hvisvs i hv)
        have := he i (Or.inl (by
          intro hvv
          exact hnvs hvv))
        rw [this]
        have hieq : idx ≠ i := by
          rintro rfl
          exact hnvs hidxvs
        exact Snarl.getNode_setNode_ne _ hieq
      · have := he i (Or.inr (List.mem_cons_of_mem _ hvis))
        rw [this]
        have hieq : idx ≠ i := by
          rintro rfl
          exact hmem hvis
        exact Snarl.getNode_setNode_ne _ hieq
    · rw [hg]; exact Snarl.length_setNode s idx _
    · rw [hh]; rfl
  | case4 s visited idx rest hmem hno =>
    intro s' vs h hadj hfront
    rw [promoteU32Loop, if_neg hmem] at h
    split at h
    · rename_i op1 heq
      exact (hno op1 heq).elim
    · exact Option.noConfusion h

/-- Master invariant lemma for the f64 demotion check phase: on full
success the returned visited set contains the input visited set and
worklist, adds exactly the nodes reachable from the worklist, is closed
under the adjacency, consists (beyond the input visited set) of
`F64Operation` nodes only, and is duplicate-free when the input visited
set is; the check phase never mutates the store. -/
theorem demoteF64Check_spec (A : Nat → List Nat) :
    ∀ (s : Snarl) (visited wl : List Nat),
    ∀ (vs : List Nat),
    demoteF64Check s visited wl = some (some vs) →
    (∀ j, s.adj j = A j) →
    (∀ i ∈ visited, ∀ j ∈ A i, j ∈ visited ∨ j ∈ wl) →
    (∀ i ∈ visited, i ∈ vs)
    ∧ (∀ i ∈ wl, i ∈ vs)
    ∧ (∀ i ∈ vs, i ∈ visited ∨ ∃ w ∈ wl, Reach A w i)
    ∧ (∀ i ∈ vs, i ∉ visited →
        ∃ op, s.getNode i = some (.f64Operation op))
    ∧ (∀ i ∈ vs, ∀ j ∈ A i, j ∈ vs)
    ∧ (visited.Nodup → vs.Nodup) := by
  intro s visited wl
  induction visited, wl using demoteF64Check.induct s with
  | case1 visited =>
    intro vs h hadj hfront
    rw [demoteF64Check] at h
    simp only [Option.some.injEq] at h
    subst h
    refine ⟨fun i hi => hi, by simp, fun i hi => Or.inl hi, ?_, ?_, id⟩
    · intro i hi hni; exact absurd hi hni
    · intro i hi j hj
      rcases hfront i hi j hj with hv | hv
      · exact hv
      · simp at hv
  | case2 visited idx rest hmem ih =>
    intro vs h hadj hfront
    rw [demoteF64Check, if_pos hmem] at h
    have hfront' : ∀ i ∈ visited, ∀ j ∈ A i, j ∈ visited ∨ j ∈ rest := by
      intro i hi j hj
      rcases hfront i hi j hj with hv | hv
      · exact Or.inl hv
      · rcases List.mem_cons.mp hv with rfl | hv
        · exact Or.inl hmem
        · exact Or.inr hv
    obtain ⟨ha, hb, hc, hd, hf, hnd⟩ := ih vs h hadj hfront'
    refine ⟨ha, ?_, ?_, hd, hf, hnd⟩
    · intro i hi
      rcases List.mem_cons.mp hi with rfl | hi
      · exact ha i hmem
      · exact hb i hi
    · intro i hi
      rcases hc i hi with hv | ⟨w, hw, hr⟩
      · exact Or.inl hv
      · exact Or.inr ⟨w, List.mem_cons_of_mem _ hw, hr⟩
  | case3 visited idx rest hmem op hn ih =>
    intro vs h hadj hfront
    rw [demoteF64Check, if_neg hmem] at h
    split at h
    rotate_left
    · simp at h
    · exact Option.noConfusion h
    rename_i op1 heq
    rw [hn] at heq
    injection heq with h2
    injection h2 with h3
    subst h3
    have hAidx : A idx = s.remotesOf idx ++ op.refs := by
      rw [← hadj idx]
      simp [Snarl.adj, Snarl.refsOf, hn, NoiseNode.opRefs]
    have hfront1 : ∀ i ∈ idx :: visited, ∀ j ∈ A i,
        j ∈ idx :: visited
          ∨ j ∈ (s.remotesOf idx).reverse ++ (op.refs.reverse ++ rest) := by
      intro i hi j hj
      rcases List.mem_cons.mp hi with rfl | hi
      · rw [hAidx] at hj
        rcases List.mem_append.mp hj with hj | hj
        · exact Or.inr (by simp [hj])
        · exact Or.inr (by simp [hj])
      · rcases hfront i hi j hj with hv | hv
        · exact Or.inl (List.mem_cons_of_mem _ hv)
        · rcases List.mem_cons.mp hv with rfl | hv
          · exact Or.inl (List.mem_cons_self _ _)
          · exact Or.inr (by simp [hv])
    obtain ⟨ha, hb, hc, hd, hf, hnd⟩ := ih vs h hadj hfront1
    have hidxvs : idx ∈ vs := ha idx (List.mem_cons_self _ _)
    have hvisvs : ∀ i ∈ visited, i ∈ vs :=
      fun i hi => ha i (List.mem_cons_of_mem _ hi)
    refine ⟨hvisvs, ?_, ?_, ?_, hf, ?_⟩
    · intro i hi
      rcases List.mem_cons.mp hi with rfl | hi
      · exact hidxvs
      · exact hb i (by simp [hi])
    · intro i hi
      rcases hc i hi with hv | ⟨w, hw, hr⟩
      · rcases List.mem_cons.mp hv with rfl | hv
        · exact Or.inr ⟨i, List.mem_cons_self _ _, .refl⟩
        · exact Or.inl hv
      · rcases List.mem_append.mp hw with hw | hw
        · refine Or.inr ⟨idx, List.mem_cons_self _ _, Reach.trans ?_ hr⟩
          exact .step .refl (by rw [hAidx]; simp at hw; simp [hw])
        · rcases List.mem_append.mp hw with hw | hw
          · refine Or.inr ⟨idx, List.mem_cons_self _ _, Reach.trans ?_ hr⟩
            exact .step .refl (by rw [hAidx]; simp at hw; simp [hw])
          · exact Or.inr ⟨w, List.mem_cons_of_mem _ hw, hr⟩
    · intro i hi hni
      by_cases hieq : i = idx
      · subst hieq
        exact ⟨op, hn⟩
      · have hni1 : i ∉ idx :: visited := by
          simp only [List.mem_cons]
          rintro (rfl | hv)
          · exact hieq rfl
          · exact hni hv
        exact hd i hi hni1
    · intro hv
      exact hnd (by simp [List.nodup_cons, hmem, hv])
  | case4 visited idx rest hmem n hnot hgn =>
    intro vs h hadj hfront
    rw [demoteF64Check, if_neg hmem] at h
    split at h
    · rename_i op1 heq
      rw [hgn] at heq
      injection heq with h2
      exact (hnot op1 h2).elim
    · simp at h
    · rename_i heq
      rw [hgn] at heq
      cases heq
  | case5 visited idx rest hmem hgn =>
    intro vs h hadj hfront
    rw [demoteF64Check, if_neg hmem] at h
    split at h
    · rename_i op1 heq
      rw [hgn] at heq
      cases heq
    · simp at h
    · exact Option.noConfusion h

/-- If the f64 demotion check aborts cleanly, the flood fill reached a
stored node that is not an `F64Operation`. -/
theorem demoteF64Check_abort (A : Nat → List Nat) :
    ∀ (s : Snarl) (visited wl : List Nat),
    demoteF64Check s visited wl = some none →
    (∀ j, s.adj j = A j) →
    ∃ i n, (∃ w ∈ wl, Reach A w i) ∧ s.getNode i = some n
      ∧ isF64OpO (some n) = false := by
  intro s visited wl
  induction visited, wl using demoteF64Check.induct s with
  | case1 visited =>
    intro h hadj
    rw [demoteF64Check] at h
    simp at h
  | case2 visited idx rest hmem ih =>
    intro h hadj
    rw [demoteF64Check, if_pos hmem] at h
    obtain ⟨i, n, ⟨w, hw, hr⟩, hgn, hbad⟩ := ih h hadj
    exact ⟨i, n, ⟨w, List.mem_cons_of_mem _ hw, hr⟩, hgn, hbad⟩
  | case3 visited idx rest hmem op hn ih =>
    intro h hadj
    rw [demoteF64Check, if_neg hmem] at h
    split at h
    rotate_left
    · rename_i val hval heq
      rw [hn] at heq
      injection heq with h2
      exact (hval op h2.symm).elim
    · rename_i heq
      rw [hn] at heq
      cases heq
    rename_i op1 heq
    rw [hn] at heq
    injection heq with h2
    injection h2 with h3
    subst h3
    have hAidx : A idx = s.remotesOf idx ++ op.refs := by
      rw [← hadj idx]
      simp [Snarl.adj, Snarl.refsOf, hn, NoiseNode.opRefs]
    obtain ⟨i, n, ⟨w, hw, hr⟩, hgn, hbad⟩ := ih h hadj
    rcases List.mem_append.mp hw with hw | hw
    · refine ⟨i, n, ⟨idx, List.mem_cons_self _ _, Reach.trans ?_ hr⟩, hgn,
        hbad⟩
      exact .step .refl (by rw [hAidx]; simp at hw; simp [hw])
    · rcases List.mem_append.mp hw with hw | hw
      · refine ⟨i, n, ⟨idx, List.mem_cons_self _ _, Reach.trans ?_ hr⟩, hgn,
          hbad⟩
        exact .step .refl (by rw [hAidx]; simp at hw; simp [hw])
      · exact ⟨i, n, ⟨w, List.mem_cons_of_mem _ hw, hr⟩, hgn, hbad⟩
  | case4 visited idx rest hmem n hnot hgn =>
    intro h hadj
    refine ⟨idx, n, ⟨idx, List.mem_cons_self _ _, .refl⟩, hgn, ?_⟩
    cases n <;> first
      | rfl
      | (rename_i op1; exact (hnot op1 rfl).elim)
  | case5 visited idx rest hmem hgn =>
    intro h hadj
    rw [demoteF64Check, if_neg hmem] at h
    split at h
    · rename_i op1 heq
      rw [hgn] at heq
      cases heq
    · rename_i val hval heq
      rw [hgn] at heq
      cases heq
    · exact Option.noConfusion h

/-- If the f64 demotion check panics, the flood fill reached a dangling
index. -/
theorem demoteF64Check_none (A : Nat → List Nat) :
    ∀ (s : Snarl) (visited wl : List Nat),
    demoteF64Check s visited wl = none →
    (∀ j, s.adj j = A j) →
    ∃ i, (∃ w ∈ wl, Reach A w i) ∧ s.getNode i = none := by
  intro s visited wl
  induction visited, wl using demoteF64Check.induct s with
  | case1 visited =>
    intro h hadj
    rw [demoteF64Check] at h
    simp at h
  | case2 visited idx rest hmem ih =>
    intro h hadj
    rw [demoteF64Check, if_pos hmem] at h
    obtain ⟨i, ⟨w, hw, hr⟩, hgn⟩ := ih h hadj
    exact ⟨i, ⟨w, List.mem_cons_of_mem _ hw, hr⟩, hgn⟩
  | case3 visited idx rest hmem op hn ih =>
    intro h hadj
    rw [demoteF64Check, if_neg hmem] at h
    split at h
    rotate_left
    · rename_i val hval heq
      rw [hn] at heq
      injection heq with h2
      exact (hval op h2.symm).elim
    · rename_i heq
      rw [hn] at heq
      cases heq
    rename_i op1 heq
    rw [hn] at heq
    injection heq with h2
    injection h2 with h3
    subst h3
    have hAidx : A idx = s.remotesOf idx ++ op.refs := by
      rw [← hadj idx]
      simp [Snarl.adj, Snarl.refsOf, hn, NoiseNode.opRefs]
    obtain ⟨i, ⟨w, hw, hr⟩, hgn⟩ := ih h hadj
    rcases List.mem_append.mp hw with hw | hw
    · refine ⟨i, ⟨idx, List.mem_cons_self _ _, Reach.trans ?_ hr⟩, hgn⟩
      exact .step .refl (by rw [hAidx]; simp at hw; simp [hw])
    · rcases List.mem_append.mp hw with hw | hw
      · refine ⟨i, ⟨idx, List.mem_cons_self _ _, Reach.trans ?_ hr⟩, hgn⟩
        exact .step .refl (by rw [hAidx]; simp at hw; simp [hw])
      · exact ⟨i, ⟨w, List.mem_cons_of_mem _ hw, hr⟩, hgn⟩
  | case4 visited idx rest hmem n hnot hgn =>
    intro h hadj
    rw [demoteF64Check, if_neg hmem] at h
    split at h
    · rename_i op1 heq
      rw [hgn] at heq
      injection heq with h2
      exact (hnot op1 h2).elim
    · exact Option.noConfusion h
    · rename_i heq
      rw [hgn] at heq
      cases heq
  | case5 visited idx rest hmem hgn =>
    intro h hadj
    exact ⟨idx, ⟨idx, List.mem_cons_self _ _, .refl⟩, hgn⟩

/-- If the f64 promotion walk panics, the flood fill reached an index not
currently holding an unresolved `Operation` node (a node of another kind,
or a dangling index). -/
theorem promoteF64Loop_none (A : Nat → List Nat) :
    ∀ (s : Snarl) (visited wl : List Nat),
    promoteF64Loop s visited wl = none →
    (∀ j, s.adj j = A j) →
    ∃ i, (∃ w ∈ wl, Reach A w i) ∧ i ∉ visited
      ∧ isTupleOpO (s.getNode i) = false := by
  intro s visited wl
  induction s, visited, wl using promoteF64Loop.induct with
  | case1 s visited =>
    intro h hadj
    rw [promoteF64Loop] at h
    simp at h
  | case2 s visited idx rest hmem ih =>
    intro h hadj
    rw [promoteF64Loop, if_pos hmem] at h
    obtain ⟨i, ⟨w, hw, hr⟩, hni, hbad⟩ := ih h hadj
    exact ⟨i, ⟨w, List.mem_cons_of_mem _ hw, hr⟩, hni, hbad⟩
  | case3 s visited idx rest hmem op hn ih =>
    intro h hadj
    rw [promoteF64Loop, if_neg hmem] at h
    split at h
    swap
    · rename_i hno2
      exact (hno2 op hn).elim
    rename_i op1 heq
    rw [hn] at heq
    injection heq with h2
    injection h2 with h3
    subst h3
    have hlt : idx < s.nodes.length := Snarl.getNode_lt_length hn
    have hrefs : (NoiseNode.f64Operation (op.retypeOp 0)).opRefs
        = (NoiseNode.operation op).opRefs := by
      simp [NoiseNode.opRefs, ConstantOpNode.refs_retypeOp]
    have hadj1 : ∀ j,
        (s.setNode idx (.f64Operation (op.retypeOp 0))).adj j = A j :=
      fun j => (Snarl.adj_setNode_op hn hrefs j).trans (hadj j)
    have hAidx : A idx = s.remotesOf idx ++ op.refs := by
      rw [← hadj idx]
      simp [Snarl.adj, Snarl.refsOf, hn, NoiseNode.opRefs]
    obtain ⟨i, ⟨w, hw, hr⟩, hni, hbad⟩ := ih h hadj1
    have hii : i ≠ idx := by
      intro hc
      exact hni (hc ▸ List.mem_cons_self _ _)
    have hbad' : isTupleOpO (s.getNode i) = false := by
      rwa [Snarl.getNode_setNode_ne _ (fun hc => hii hc.symm)] at hbad
    have hni' : i ∉ visited := fun hc => hni (List.mem_cons_of_mem _ hc)
    rcases List.mem_append.mp hw with hw | hw
    · refine ⟨i, ⟨idx, List.mem_cons_self _ _, Reach.trans ?_ hr⟩, hni',
        hbad'⟩
      exact .step .refl (by rw [hAidx]; simp at hw; simp [hw])
    · rcases List.mem_append.mp hw with hw | hw
      · refine ⟨i, ⟨idx, List.mem_cons_self _ _, Reach.trans ?_ hr⟩, hni',
          hbad'⟩
        exact .step .refl (by rw [hAidx]; simp at hw; simp [hw])
      · exact ⟨i, ⟨w, List.mem_cons_of_mem _ hw, hr⟩, hni', hbad'⟩
  | case4 s visited idx rest hmem hno =>
    intro h hadj
    refine ⟨idx, ⟨idx, List.mem_cons_self _ _, .refl⟩, hmem, ?_⟩
    cases hgn : s.getNode idx with
    | none => rfl
    | some n =>
      cases n <;> first
        | rfl
        | (rename_i op1; exact (hno op1 hgn).elim)

/-- Commit-phase lemma for the f64 demotion: when every index in the
(duplicate-free) visited list holds an `F64Operation`, the commit succeeds,
rewrites exactly those indices back to unresolved `Operation` nodes and
leaves every other index, the store length and the pin adjacency table
untouched. -/
theorem demoteCommitF64_spec :
    ∀ (s : Snarl) (vs : List Nat),
    vs.Nodup →
    (∀ i ∈ vs, ∃ op, s.getNode i = some (.f64Operation op)) →
    ∃ s', demoteCommitF64 s vs = some s'
      ∧ (∀ i ∈ vs, ∀ op, s.getNode i = some (.f64Operation op) →
          s'.getNode i = some (.operation (op.retypeOp ())))
      ∧ (∀ i, i ∉ vs → s'.getNode i = s.getNode i)
      ∧ s'.nodes.length = s.nodes.length
      ∧ s'.remotes = s.remotes := by
  intro s vs
  induction vs generalizing s with
  | nil =>
    intro hnd hall
    exact ⟨s, rfl, by simp, fun i _ => rfl, rfl, rfl⟩
  | cons idx rest ih =>
    intro hnd hall
    obtain ⟨op, hop⟩ := hall idx (List.mem_cons_self _ _)
    have hlt : idx < s.nodes.length := Snarl.getNode_lt_length hop
    have hndr : rest.Nodup := (List.nodup_cons.mp hnd).2
    have hnir : idx ∉ rest := (List.nodup_cons.mp hnd).1
    have hall1 : ∀ i ∈ rest, ∃ op',
        (s.setNode idx (.operation (op.retypeOp ()))).getNode i
          = some (.f64Operation op') := by
      intro i hi
      obtain ⟨op', hop'⟩ := hall i (List.mem_cons_of_mem _ hi)
      refine ⟨op', ?_⟩
      rwa [Snarl.getNode_setNode_ne _ (fun hc => hnir (by rw [hc]; exact hi))]
    obtain ⟨s', hs', hset, hframe, hlen, hrem⟩ :=
      ih (s.setNode idx (.operation (op.retypeOp ()))) hndr hall1
    refine ⟨s', ?_, ?_, ?_, ?_, ?_⟩
    · rw [demoteCommitF64, hop]
      exact hs'
    · intro i hi op' hop'
      rcases List.mem_cons.mp hi with rfl | hi
      · rw [hop] at hop'
        injection hop' with h2
        injection h2 with h3
        subst h3
        rw [hframe i hnir]
        exact Snarl.getNode_setNode_self _ hlt
      · refine hset i hi op' ?_
        rwa [Snarl.getNode_setNode_ne _ (fun hc => hnir (by rw [hc]; exact hi))]
    · intro i hi
      have hii : idx ≠ i := fun hc => hi (hc ▸ List.mem_cons_self _ _)
      rw [hframe i (fun hc => hi (List.mem_cons_of_mem _ hc))]
      exact Snarl.getNode_setNode_ne _ hii
    · rw [hlen]
      exact Snarl.length_setNode s idx _
    · rw [hrem]
      rfl

/-- Master invariant lemma for the u32 demotion check phase: on full
success the returned visited set contains the input visited set and
worklist, adds exactly the nodes reachable from the worklist, is closed
under the adjacency, consists (beyond the input visited set) of
`U32Operation` nodes only, and is duplicate-free when the input visited
set is; the check phase never mutates the store. -/
theorem demoteU32Check_spec (A : Nat → List Nat) :
    ∀ (s : Snarl) (visited wl : List Nat),
    ∀ (vs : List Nat),
    demoteU32Check s visited wl = some (some vs) →
    (∀ j, s.adj j = A j) →
    (∀ i ∈ visited, ∀ j ∈ A i, j ∈ visited ∨ j ∈ wl) →
    (∀ i ∈ visited, i ∈ vs)
    ∧ (∀ i ∈ wl, i ∈ vs)
    ∧ (∀ i ∈ vs, i ∈ visited ∨ ∃ w ∈ wl, Reach A w i)
    ∧ (∀ i ∈ vs, i ∉ visited →
        ∃ op, s.getNode i = some (.u32Operation op))
    ∧ (∀ i ∈ vs, ∀ j ∈ A i, j ∈ vs)
    ∧ (visited.Nodup → vs.Nodup) := by
  intro s visited wl
  induction visited, wl using demoteU32Check.induct s with
  | case1 visited =>
    intro vs h hadj hfront
    rw [demoteU32Check] at h
    simp only [Option.some.injEq] at h
    subst h
    refine ⟨fun i hi => hi, by simp, fun i hi => Or.inl hi, ?_, ?_, id⟩
    · intro i hi hni; exact absurd hi hni
    · intro i hi j hj
      rcases hfront i hi j hj with hv | hv
      · exact hv
      · simp at hv
  | case2 visited idx rest hmem ih =>
    intro vs h hadj hfront
    rw [demoteU32Check, if_pos hmem] at h
    have hfront' : ∀ i ∈ visited, ∀ j ∈ A i, j ∈ visited ∨ j ∈ rest := by
      intro i hi j hj
      rcases hfront i hi j hj with hv | hv
      · exact Or.inl hv
      · rcases List.mem_cons.mp hv with rfl | hv
        · exact Or.inl hmem
        · exact Or.inr hv
    obtain ⟨ha, hb, hc, hd, hf, hnd⟩ := ih vs h hadj hfront'
    refine ⟨ha, ?_, ?_, hd, hf, hnd⟩
    · intro i hi
      rcases List.mem_cons.mp hi with rfl | hi
      · exact ha i hmem
      · exact hb i hi
    · intro i hi
      rcases hc i hi with hv | ⟨w, hw, hr⟩
      · exact Or.inl hv
      · exact Or.inr ⟨w, List.mem_cons_of_mem _ hw, hr⟩
  | case3 visited idx rest hmem op hn ih =>
    intro vs h hadj hfront
    rw [demoteU32Check, if_neg hmem] at h
    split at h
    rotate_left
    · simp at h
    · exact Option.noConfusion h
    rename_i op1 heq
    rw [hn] at heq
    injection heq with h2
    injection h2 with h3
    subst h3
    have hAidx : A idx = s.remotesOf idx ++ op.refs := by
      rw [← hadj idx]
      simp [Snarl.adj, Snarl.refsOf, hn, NoiseNode.opRefs]
    have hfront1 : ∀ i ∈ idx :: visited, ∀ j ∈ A i,
        j ∈ idx :: visited
          ∨ j ∈ (s.remotesOf idx).reverse ++ (op.refs.reverse ++ rest) := by
      intro i hi j hj
      rcases List.mem_cons.mp hi with rfl | hi
      · rw [hAidx] at hj
        rcases List.mem_append.mp hj with hj | hj
        · exact Or.inr (by simp [hj])
        · exact Or.inr (by simp [hj])
      · rcases hfront i hi j hj with hv | hv
        · exact Or.inl (List.mem_cons_of_mem _ hv)
        · rcases List.mem_cons.mp hv with rfl | hv
          · exact Or.inl (List.mem_cons_self _ _)
          · exact Or.inr (by simp [hv])
    obtain ⟨ha, hb, hc, hd, hf, hnd⟩ := ih vs h hadj hfront1
    have hidxvs : idx ∈ vs := ha idx (List.mem_cons_self _ _)
    have hvisvs : ∀ i ∈ visited, i ∈ vs :=
      fun i hi => ha i (List.mem_cons_of_mem _ hi)
    refine ⟨hvisvs, ?_, ?_, ?_, hf, ?_⟩
    · intro i hi
      rcases List.mem_cons.mp hi with rfl | hi
      · exact hidxvs
      · exact hb i (by simp [hi])
    · intro i hi
      rcases hc i hi with hv | ⟨w, hw, hr⟩
      · rcases List.mem_cons.mp hv with rfl | hv
        · exact Or.inr ⟨i, List.mem_cons_self _ _, .refl⟩
        · exact Or.inl hv
      · rcases List.mem_append.mp hw with hw | hw
        · refine Or.inr ⟨idx, List.mem_cons_self _ _, Reach.trans ?_ hr⟩
          exact .step .refl (by rw [hAidx]; simp at hw; simp [hw])
        · rcases List.mem_append.mp hw with hw | hw
          · refine Or.inr ⟨idx, List.mem_cons_self _ _, Reach.trans ?_ hr⟩
            exact .step .refl (by rw [hAidx]; simp at hw; simp [hw])
          · exact Or.inr ⟨w, List.mem_cons_of_mem _ hw, hr⟩
    · intro i hi hni
      by_cases hieq : i = idx
      · subst hieq
        exact ⟨op, hn⟩
      · have hni1 : i ∉ idx :: visited := by
          simp only [List.mem_cons]
          rintro (rfl | hv)
          · exact hieq rfl
          · exact hni hv
        exact hd i hi hni1
    · intro hv
      exact hnd (by simp [List.nodup_cons, hmem, hv])
  | case4 visited idx rest hmem n hnot hgn =>
    intro vs h hadj hfront
    rw [demoteU32Check, if_neg hmem] at h
    split at h
    · rename_i op1 heq
      rw [hgn] at heq
      injection heq with h2
      exact (hnot op1 h2).elim
    · simp at h
    · rename_i heq
      rw [hgn] at heq
      cases heq
  | case5 visited idx rest hmem hgn =>
    intro vs h hadj hfront
    rw [demoteU32Check, if_neg hmem] at h
    split at h
    · rename_i op1 heq
      rw [hgn] at heq
      cases heq
    · simp at h
    · exact Option.noConfusion h

/-- If the u32 demotion check aborts cleanly, the flood fill reached a
stored node that is not an `U32Operation`. -/
theorem demoteU32Check_abort (A : Nat → List Nat) :
    ∀ (s : Snarl) (visited wl : List Nat),
    demoteU32Check s visited wl = some none →
    (∀ j, s.adj j = A j) →
    ∃ i n, (∃ w ∈ wl, Reach A w i) ∧ s.getNode i = some n
      ∧ isU32OpO (some n) = false := by
  intro s visited wl
  induction visited, wl using demoteU32Check.induct s with
  | case1 visited =>
    intro h hadj
    rw [demoteU32Check] at h
    simp at h
  | case2 visited idx rest hmem ih =>
    intro h hadj
    rw [demoteU32Check, if_pos hmem] at h
    obtain ⟨i, n, ⟨w, hw, hr⟩, hgn, hbad⟩ := ih h hadj
    exact ⟨i, n, ⟨w, List.mem_cons_of_mem _ hw, hr⟩, hgn, hbad⟩
  | case3 visited idx rest hmem op hn ih =>
    intro h hadj
    rw [demoteU32Check, if_neg hmem] at h
    split at h
    rotate_left
    · rename_i val hval heq
      rw [hn] at heq
      injection heq with h2
      exact (hval op h2.symm).elim
    · rename_i heq
      rw [hn] at heq
      cases heq
    rename_i op1 heq
    rw [hn] at heq
    injection heq with h2
    injection h2 with h3
    subst h3
    have hAidx : A idx = s.remotesOf idx ++ op.refs := by
      rw [← hadj idx]
      simp [Snarl.adj, Snarl.refsOf, hn, NoiseNode.opRefs]
    obtain ⟨i, n, ⟨w, hw, hr⟩, hgn, hbad⟩ := ih h hadj
    rcases List.mem_append.mp hw with hw | hw
    · refine ⟨i, n, ⟨idx, List.mem_cons_self _ _, Reach.trans ?_ hr⟩, hgn,
        hbad⟩
      exact .step .refl (by rw [hAidx]; simp at hw; simp [hw])
    · rcases List.mem_append.mp hw with hw | hw
      · refine ⟨i, n, ⟨idx, List.mem_cons_self _ _, Reach.trans ?_ hr⟩, hgn,
          hbad⟩
        exact .step .refl (by rw [hAidx]; simp at hw; simp [hw])
      · exact ⟨i, n, ⟨w, List.mem_cons_of_mem _ hw, hr⟩, hgn, hbad⟩
  | case4 visited idx rest hmem n hnot hgn =>
    intro h hadj
    refine ⟨idx, n, ⟨idx, List.mem_cons_self _ _, .refl⟩, hgn, ?_⟩
    cases n <;> first
      | rfl
      | (rename_i op1; exact (hnot op1 rfl).elim)
  | case5 visited idx rest hmem hgn =>
    intro h hadj
    rw [demoteU32Check, if_neg hmem] at h
    split at h
    · rename_i op1 heq
      rw [hgn] at heq
      cases heq
    · rename_i val hval heq
      rw [hgn] at heq
      cases heq
    · exact Option.noConfusion h

/-- If the u32 demotion check panics, the flood fill reached a dangling
index. -/
theorem demoteU32Check_none (A : Nat → List Nat) :
    ∀ (s : Snarl) (visited wl : List Nat),
    demoteU32Check s visited wl = none →
    (∀ j, s.adj j = A j) →
    ∃ i, (∃ w ∈ wl, Reach A w i) ∧ s.getNode i = none := by
  intro s visited wl
  induction visited, wl using demoteU32Check.induct s with
  | case1 visited =>
    intro h hadj
    rw [demoteU32Check] at h
    simp at h
  | case2 visited idx rest hmem ih =>
    intro h hadj
    rw [demoteU32Check, if_pos hmem] at h
    obtain ⟨i, ⟨w, hw, hr⟩, hgn⟩ := ih h hadj
    exact ⟨i, ⟨w, List.mem_cons_of_mem _ hw, hr⟩, hgn⟩
  | case3 visited idx rest hmem op hn ih =>
    intro h hadj
    rw [demoteU32Check, if_neg hmem] at h
    split at h
    rotate_left
    · rename_i val hval heq
      rw [hn] at heq
      injection heq with h2
      exact (hval op h2.symm).elim
    · rename_i heq
      rw [hn] at heq
      cases heq
    rename_i op1 heq
    rw [hn] at heq
    injection heq with h2
    injection h2 with h3
    subst h3
    have hAidx : A idx = s.remotesOf idx ++ op.refs := by
      rw [← hadj idx]
      simp [Snarl.adj, Snarl.refsOf, hn, NoiseNode.opRefs]
    obtain ⟨i, ⟨w, hw, hr⟩, hgn⟩ := ih h hadj
    rcases List.mem_append.mp hw with hw | hw
    · refine ⟨i, ⟨idx, List.mem_cons_self _ _, Reach.trans ?_ hr⟩, hgn⟩
      exact .step .refl (by rw [hAidx]; simp at hw; simp [hw])
    · rcases List.mem_append.mp hw with hw | hw
      · refine ⟨i, ⟨idx, List.mem_cons_self _ _, Reach.trans ?_ hr⟩, hgn⟩
        exact .step .refl (by rw [hAidx]; simp at hw; simp [hw])
      · exact ⟨i, ⟨w, List.mem_cons_of_mem _ hw, hr⟩, hgn⟩
  | case4 visited idx rest hmem n hnot hgn =>
    intro h hadj
    rw [demoteU32Check, if_neg hmem] at h
    split at h
    · rename_i op1 heq
      rw [hgn] at heq
      injection heq with h2
      exact (hnot op1 h2).elim
    · exact Option.noConfusion h
    · rename_i heq
      rw [hgn] at heq
      cases heq
  | case5 visited idx rest hmem hgn =>
    intro h hadj
    exact ⟨idx, ⟨idx, List.mem_cons_self _ _, .refl⟩, hgn⟩

/-- If the u32 promotion walk panics, the flood fill reached an index not
currently holding an unresolved `Operation` node (a node of another kind,
or a dangling index). -/
theorem promoteU32Loop_none (A : Nat → List Nat) :
    ∀ (s : Snarl) (visited wl : List Nat),
    promoteU32Loop s visited wl = none →
    (∀ j, s.adj j = A j) →
    ∃ i, (∃ w ∈ wl, Reach A w i) ∧ i ∉ visited
      ∧ isTupleOpO (s.getNode i) = false := by
  intro s visited wl
  induction s, visited, wl using promoteU32Loop.induct with
  | case1 s visited =>
    intro h hadj
    rw [promoteU32Loop] at h
    simp at h
  | case2 s visited idx rest hmem ih =>
    intro h hadj
    rw [promoteU32Loop, if_pos hmem] at h
    obtain ⟨i, ⟨w, hw, hr⟩, hni, hbad⟩ := ih h hadj
    exact ⟨i, ⟨w, List.mem_cons_of_mem _ hw, hr⟩, hni, hbad⟩
  | case3 s visited idx rest hmem op hn ih =>
    intro h hadj
    rw [promoteU32Loop, if_neg hmem] at h
    split at h
    swap
    · rename_i hno2
      exact (hno2 op hn).elim
    rename_i op1 heq
    rw [hn] at heq
    injection heq with h2
    injection h2 with h3
    subst h3
    have hlt : idx < s.nodes.length := Snarl.getNode_lt_length hn
    have hrefs : (NoiseNode.u32Operation (op.retypeOp 0)).opRefs
        = (NoiseNode.operation op).opRefs := by
      simp [NoiseNode.opRefs, ConstantOpNode.refs_retypeOp]
    have hadj1 : ∀ j,
        (s.setNode idx (.u32Operation (op.retypeOp 0))).adj j = A j :=
      fun j => (Snarl.adj_setNode_op hn hrefs j).trans (hadj j)
    have hAidx : A idx = s.remotesOf idx ++ op.refs := by
      rw [← hadj idx]
      simp [Snarl.adj, Snarl.refsOf, hn, NoiseNode.opRefs]
    obtain ⟨i, ⟨w, hw, hr⟩, hni, hbad⟩ := ih h hadj1
    have hii : i ≠ idx := by
      intro hc
      exact hni (hc ▸ List.mem_cons_self _ _)
    have hbad' : isTupleOpO (s.getNode i) = false := by
      rwa [Snarl.getNode_setNode_ne _ (fun hc => hii hc.symm)] at hbad
    have hni' : i ∉ visited := fun hc => hni (List.mem_cons_of_mem _ hc)
    rcases List.mem_append.mp hw with hw | hw
    · refine ⟨i, ⟨idx, List.mem_cons_self _ _, Reach.trans ?_ hr⟩, hni',
        hbad'⟩
      exact .step .refl (by rw [hAidx]; simp at hw; simp [hw])
    · rcases List.mem_append.mp hw with hw | hw
      · refine ⟨i, ⟨idx, List.mem_cons_self _ _, Reach.trans ?_ hr⟩, hni',
          hbad'⟩
        exact .step .refl (by rw [hAidx]; simp at hw; simp [hw])
      · exact ⟨i, ⟨w, List.mem_cons_of_mem _ hw, hr⟩, hni', hbad'⟩
  | case4 s visited idx rest hmem hno =>
    intro h hadj
    refine ⟨idx, ⟨idx, List.mem_cons_self _ _, .refl⟩, hmem, ?_⟩
    cases hgn : s.getNode idx with
    | none => rfl
    | some n =>
      cases n <;> first
        | rfl
        | (rename_i op1; exact (hno op1 hgn).elim)

/-- Commit-phase lemma for the u32 demotion: when every index in the
(duplicate-free) visited list holds an `U32Operation`, the commit succeeds,
rewrites exactly those indices back to unresolved `Operation` nodes and
leaves every other index, the store length and the pin adjacency table
untouched. -/
theorem demoteCommitU32_spec :
    ∀ (s : Snarl) (vs : List Nat),
    vs.Nodup →
    (∀ i ∈ vs, ∃ op, s.getNode i = some (.u32Operation op)) →
    ∃ s', demoteCommitU32 s vs = some s'
      ∧ (∀ i ∈ vs, ∀ op, s.getNode i = some (.u32Operation op) →
          s'.getNode i = some (.operation (op.retypeOp ())))
      ∧ (∀ i, i ∉ vs → s'.getNode i = s.getNode i)
      ∧ s'.nodes.length = s.nodes.length
      ∧ s'.remotes = s.remotes := by
  intro s vs
  induction vs generalizing s with
  | nil =>
    intro hnd hall
    exact ⟨s, rfl, by simp, fun i _ => rfl, rfl, rfl⟩
  | cons idx rest ih =>
    intro hnd hall
    obtain ⟨op, hop⟩ := hall idx (List.mem_cons_self _ _)
    have hlt : idx < s.nodes.length := Snarl.getNode_lt_length hop
    have hndr : rest.Nodup := (List.nodup_cons.mp hnd).2
    have hnir : idx ∉ rest := (List.nodup_cons.mp hnd).1
    have hall1 : ∀ i ∈ rest, ∃ op',
        (s.setNode idx (.operation (op.retypeOp ()))).getNode i
          = some (.u32Operation op') := by
      intro i hi
      obtain ⟨op', hop'⟩ := hall i (List.mem_cons_of_mem _ hi)
      refine ⟨op', ?_⟩
      rwa [Snarl.getNode_setNode_ne _ (fun hc => hnir (by rw [hc]; exact hi))]
    obtain ⟨s', hs', hset, hframe, hlen, hrem⟩ :=
      ih (s.setNode idx (.operation (op.retypeOp ()))) hndr hall1
    refine ⟨s', ?_, ?_, ?_, ?_, ?_⟩
    · rw [demoteCommitU32, hop]
      exact hs'
    · intro i hi op' hop'
      rcases List.mem_cons.mp hi with rfl | hi
      · rw [hop] at hop'
        injection hop' with h2
        injection h2 with h3
        subst h3
        rw [hframe i hnir]
        exact Snarl.getNode_setNode_self _ hlt
      · refine hset i hi op' ?_
        rwa [Snarl.getNode_setNode_ne _ (fun hc => hnir (by rw [hc]; exact hi))]
    · intro i hi
      have hii : idx ≠ i := fun hc => hi (hc ▸ List.mem_cons_self _ _)
      rw [hframe i (fun hc => hi (List.mem_cons_of_mem _ hc))]
      exact Snarl.getNode_setNode_ne _ hii
    · rw [hlen]
      exact Snarl.length_setNode s idx _
    · rw [hrem]
      rfl

/-! ## Shared helpers for the claim theorems about the walks -/

theorem promoteF64Loop_nil (s : Snarl) (visited : List Nat) :
    promoteF64Loop s visited [] = some (s, visited) := by
  rw [promoteF64Loop]

theorem promoteF64Loop_cons_mem (s : Snarl) (visited : List Nat) {idx : Nat}
    (rest : List Nat) (hmem : idx ∈ visited) :
    promoteF64Loop s visited (idx :: rest)
      = promoteF64Loop s visited rest := by
  rw [promoteF64Loop, if_pos hmem]

theorem promoteF64Loop_cons_op (s : Snarl) (visited : List Nat) {idx : Nat}
    (rest : List Nat) {op : ConstantOpNode Unit} (hmem : idx ∉ visited)
    (hn : s.getNode idx = some (.operation op)) :
    promoteF64Loop s visited (idx :: rest)
      = promoteF64Loop (s.setNode idx (.f64Operation (op.retypeOp 0)))
          (idx :: visited)
          (op.refs.reverse ++ ((s.remotesOf idx).reverse ++ rest)) := by
  rw [promoteF64Loop, if_neg hmem]
  split
  · rename_i op1 heq
    rw [hn] at heq
    injection heq with h2
    injection h2 with h3
    subst h3
    rfl
  · rename_i hno
    exact (hno op hn).elim

theorem Reach.congr_adj {A B : Nat → List Nat} (hAB : ∀ j, A j = B j)
    {start i : Nat} (h : Reach A start i) : Reach B start i := by
  induction h with
  | refl => exact .refl
  | step _ hmem ih => exact .step ih (by rw [← hAB]; exact hmem)

theorem reach_subset_of_closed {A : Nat → List Nat} {start : Nat}
    {P : Nat → Prop} (hstart : P start)
    (hclosed : ∀ i, P i → ∀ j, j ∈ A i → P j) :
    ∀ i, Reach A start i → P i := by
  intro i h
  induction h with
  | refl => exact hstart
  | step _ hmem ih => exact hclosed _ ih _ hmem

theorem slotsCorrespond_retype {A B : Type} (dflt : B) (a : NodeValue A) :
    slotsCorrespond dflt a (a.retype dflt) := by
  cases a with
  | node j =>
    refine ⟨?_, ?_⟩
    · intro j' hj'
      injection hj' with h2
      subst h2
      rfl
    · rintro ⟨v, hv⟩
      cases hv
  | value v =>
    refine ⟨?_, ?_⟩
    · intro j' hj'
      cases hj'
    · intro _
      rfl

theorem ConstantOpNode.op_ty_retypeOp {A B : Type} (dflt : B)
    (op : ConstantOpNode A) : (op.retypeOp dflt).op_ty = op.op_ty := rfl

theorem ConstantOpNode.retypeOp_unit_cancel {B : Type} (dflt : B)
    (op : ConstantOpNode Unit) : (op.retypeOp dflt).retypeOp () = op := by
  obtain ⟨⟨i1, i2⟩, t⟩ := op
  cases i1 <;> cases i2 <;> rfl

theorem Snarl.eq_of_parts {a b : Snarl}
    (h1 : ∀ j, a.getNode j = b.getNode j) (h2 : a.remotes = b.remotes) :
    a = b := by
  obtain ⟨an, ar⟩ := a
  obtain ⟨bn, br⟩ := b
  simp only at h2
  subst h2
  have hn : an = bn := List.ext_getElem? (fun n => h1 n)
  rw [hn]

/-! ## Claim C1: atomicity of the component type state -/

/-- C1: after any single propagation call returns normally, every
operation node in the touched component ends in one uniform type state:
a successful f64 (resp. u32) promotion leaves every visited node an
`F64Operation` (resp. `U32Operation`); a demotion either aborts with the
store returned exactly as it was, or commits every visited node back to an
unresolved `Operation`.  No call returns normally with a half-rewritten
component. -/
theorem claim_C1_atomic_component_type_state :
    (∀ (s : Snarl) (start : Nat) (s' : Snarl) (vs : List Nat),
      promoteF64Loop s [] [start] = some (s', vs) →
      ∀ i ∈ vs, ∃ op, s'.getNode i = some (.f64Operation op))
    ∧ (∀ (s : Snarl) (start : Nat) (s' : Snarl) (vs : List Nat),
      promoteU32Loop s [] [start] = some (s', vs) →
      ∀ i ∈ vs, ∃ op, s'.getNode i = some (.u32Operation op))
    ∧ (∀ (s : Snarl) (start : Nat),
      demoteF64Check s [] [start] = some none →
      NoiseNode.propagate_tuple_from_f64_op start s = some s)
    ∧ (∀ (s : Snarl) (start : Nat) (vs : List Nat) (s' : Snarl),
      demoteF64Check s [] [start] = some (some vs) →
      demoteCommitF64 s vs = some s' →
      ∀ i ∈ vs, ∃ op, s'.getNode i = some (.operation op))
    ∧ (∀ (s : Snarl) (start : Nat),
      demoteU32Check s [] [start] = some none →
      NoiseNode.propagate_tuple_from_u32_op start s = some s)
    ∧ (∀ (s : Snarl) (start : Nat) (vs : List Nat) (s' : Snarl),
      demoteU32Check s [] [start] = some (some vs) →
      demoteCommitU32 s vs = some s' →
      ∀ i ∈ vs, ∃ op, s'.getNode i = some (.operation op)) := by
  refine ⟨?_, ?_, ?_, ?_, ?_, ?_⟩
  · intro s start s' vs h i hi
    obtain ⟨-, -, -, hd, -, -, -, -, -⟩ :=
      promoteF64Loop_spec s.adj s [] [start] s' vs h (fun _ => rfl)
        (by simp)
    obtain ⟨op, -, hop⟩ := hd i hi (by simp)
    exact ⟨_, hop⟩
  · intro s start s' vs h i hi
    obtain ⟨-, -, -, hd, -, -, -, -, -⟩ :=
      promoteU32Loop_spec s.adj s [] [start] s' vs h (fun _ => rfl)
        (by simp)
    obtain ⟨op, -, hop⟩ := hd i hi (by simp)
    exact ⟨_, hop⟩
  · intro s start h
    simp [NoiseNode.propagate_tuple_from_f64_op, h]
  · intro s start vs s' hchk hcom i hi
    obtain ⟨-, -, -, hd, -, hnd⟩ :=
      demoteF64Check_spec s.adj s [] [start] vs hchk (fun _ => rfl)
        (by simp)
    obtain ⟨s'', hs'', hset, -, -, -⟩ :=
      demoteCommitF64_spec s vs (hnd List.nodup_nil)
        (fun i hi => hd i hi (by simp))
    rw [hcom] at hs''
    injection hs'' with h2
    subst h2
    obtain ⟨op, hop⟩ := hd i hi (by simp)
    exact ⟨op.retypeOp (), hset i hi op hop⟩
  · intro s start h
    simp [NoiseNode.propagate_tuple_from_u32_op, h]
  · intro s start vs s' hchk hcom i hi
    obtain ⟨-, -, -, hd, -, hnd⟩ :=
      demoteU32Check_spec s.adj s [] [start] vs hchk (fun _ => rfl)
        (by simp)
    obtain ⟨s'', hs'', hset, -, -, -⟩ :=
      demoteCommitU32_spec s vs (hnd List.nodup_nil)
        (fun i hi => hd i hi (by simp))
    rw [hcom] at hs''
    injection hs'' with h2
    subst h2
    obtain ⟨op, hop⟩ := hd i hi (by simp)
    exact ⟨op.retypeOp (), hset i hi op hop⟩

/-- Witness for C1: running the f64 promotion on the two-node unresolved
component visits nodes 1 and 0 and leaves both holding `F64Operation`. -/
theorem claim_C1_atomic_component_type_state_witness :
    ∀ i ∈ [1, 0], ∃ op,
      (Snarl.mk [.f64Operation ⟨(.value 0, .value 0), .add⟩,
          .f64Operation ⟨(.node 0, .value 0), .multiply⟩]
        [[1], []]).getNode i = some (.f64Operation op) := by
  refine claim_C1_atomic_component_type_state.1 exampleTupleSnarl 0 _ [1, 0]
    ?_
  rw [promoteF64Loop_cons_op _ _ _ (by simp)
    (show exampleTupleSnarl.getNode 0
        = some (.operation ⟨(.value (), .value ()), .add⟩) from rfl)]
  show promoteF64Loop
      ⟨[.f64Operation ⟨(.value 0, .value 0), .add⟩,
        .operation ⟨(.node 0, .value ()), .multiply⟩], [[1], []]⟩ [0] [1]
    = _
  rw [promoteF64Loop_cons_op _ _ _ (by simp)
    (show (Snarl.mk [.f64Operation ⟨(.value 0, .value 0), .add⟩,
          .operation ⟨(.node 0, .value ()), .multiply⟩] [[1], []]).getNode 1
        = some (.operation ⟨(.node 0, .value ()), .multiply⟩) from rfl)]
  show promoteF64Loop
      ⟨[.f64Operation ⟨(.value 0, .value 0), .add⟩,
        .f64Operation ⟨(.node 0, .value 0), .multiply⟩], [[1], []]⟩
      [1, 0] [0]
    = _
  rw [promoteF64Loop_cons_mem _ _ _ (by simp), promoteF64Loop_nil]

/-! ## Claim C8: promotion panics on foreign nodes -/

/-- C8: if the combined flood fill of a promotion walk can reach any index
that does not currently hold an unresolved `Operation` node (a typed
consumer already wired to the component, or a dangling index), the call
panics (`unreachable!()` / `get_node`), modelled as `none` - it neither
skips the node nor aborts cleanly. -/
theorem claim_C8_promotion_panics_on_foreign_node :
    ∀ (s : Snarl) (start : Nat),
    ((∃ i, Reach s.adj start i ∧ isTupleOpO (s.getNode i) = false) →
      NoiseNode.propagate_f64_from_tuple_op start s = none)
    ∧ ((∃ i, Reach s.adj start i ∧ isTupleOpO (s.getNode i) = false) →
      NoiseNode.propagate_u32_from_tuple_op start s = none) := by
  intro s start
  constructor
  · rintro ⟨i, hreach, hbad⟩
    cases hres : promoteF64Loop s [] [start] with
    | none => simp [NoiseNode.propagate_f64_from_tuple_op, hres]
    | some p =>
      exfalso
      obtain ⟨s', vs⟩ := p
      obtain ⟨-, hb, -, hd, -, hf, -, -, -⟩ :=
        promoteF64Loop_spec s.adj s [] [start] s' vs hres (fun _ => rfl)
          (by simp)
      have hivs : i ∈ vs :=
        reach_subset_of_closed (hb start (by simp))
          (fun a ha j hj => hf a ha j hj) i hreach
      obtain ⟨op, hop, -⟩ := hd i hivs (by simp)
      rw [hop] at hbad
      simp [isTupleOpO] at hbad
  · rintro ⟨i, hreach, hbad⟩
    cases hres : promoteU32Loop s [] [start] with
    | none => simp [NoiseNode.propagate_u32_from_tuple_op, hres]
    | some p =>
      exfalso
      obtain ⟨s', vs⟩ := p
      obtain ⟨-, hb, -, hd, -, hf, -, -, -⟩ :=
        promoteU32Loop_spec s.adj s [] [start] s' vs hres (fun _ => rfl)
          (by simp)
      have hivs : i ∈ vs :=
        reach_subset_of_closed (hb start (by simp))
          (fun a ha j hj => hf a ha j hj) i hreach
      obtain ⟨op, hop, -⟩ := hd i hivs (by simp)
      rw [hop] at hbad
      simp [isTupleOpO] at hbad

/-- Witness for C8: promoting the component of node 0 while its output pin
feeds a `Perlin` node (node 1) panics, in both promotion directions. -/
theorem claim_C8_promotion_panics_on_foreign_node_witness :
    NoiseNode.propagate_f64_from_tuple_op 0 examplePinnedSnarl = none
    ∧ NoiseNode.propagate_u32_from_tuple_op 0 examplePinnedSnarl = none := by
  have hbad : ∃ i, Reach examplePinnedSnarl.adj 0 i
      ∧ isTupleOpO (examplePinnedSnarl.getNode i) = false := by
    refine ⟨1, .step .refl ?_, rfl⟩
    show (1 : Nat) ∈ examplePinnedSnarl.adj 0
    decide
  exact ⟨(claim_C8_promotion_panics_on_foreign_node examplePinnedSnarl 0).1
      hbad,
    (claim_C8_promotion_panics_on_foreign_node examplePinnedSnarl 0).2 hbad⟩

/-! ## Claim C9: walk rewrites preserve reference slots -/

/-- C9: every propagation walk rewrite preserves the operator tag, keeps
each reference slot's node index, and replaces each literal slot by the
target representation's default (`0.0` when promoting to f64, `0` when
promoting to u32, the unit placeholder when demoting to unresolved). -/
theorem claim_C9_rewrite_preserves_reference_slots :
    (∀ (s : Snarl) (start : Nat) (s' : Snarl) (vs : List Nat),
      promoteF64Loop s [] [start] = some (s', vs) →
      ∀ i ∈ vs, ∃ (opA : ConstantOpNode Unit) (opB : ConstantOpNode Rat),
        s.getNode i = some (.operation opA)
        ∧ s'.getNode i = some (.f64Operation opB)
        ∧ opB.op_ty = opA.op_ty
        ∧ slotsCorrespond (0 : Rat) opA.inputs.1 opB.inputs.1
        ∧ slotsCorrespond (0 : Rat) opA.inputs.2 opB.inputs.2)
    ∧ (∀ (s : Snarl) (start : Nat) (s' : Snarl) (vs : List Nat),
      promoteU32Loop s [] [start] = some (s', vs) →
      ∀ i ∈ vs, ∃ (opA : ConstantOpNode Unit) (opB : ConstantOpNode Nat),
        s.getNode i = some (.operation opA)
        ∧ s'.getNode i = some (.u32Operation opB)
        ∧ opB.op_ty = opA.op_ty
        ∧ slotsCorrespond (0 : Nat) opA.inputs.1 opB.inputs.1
        ∧ slotsCorrespond (0 : Nat) opA.inputs.2 opB.inputs.2)
    ∧ (∀ (s : Snarl) (start : Nat) (vs : List Nat) (s' : Snarl),
      demoteF64Check s [] [start] = some (some vs) →
      demoteCommitF64 s vs = some s' →
      ∀ i ∈ vs, ∃ (opA : ConstantOpNode Rat) (opB : ConstantOpNode Unit),
        s.getNode i = some (.f64Operation opA)
        ∧ s'.getNode i = some (.operation opB)
        ∧ opB.op_ty = opA.op_ty
        ∧ slotsCorrespond () opA.inputs.1 opB.inputs.1
        ∧ slotsCorrespond () opA.inputs.2 opB.inputs.2)
    ∧ (∀ (s : Snarl) (start : Nat) (vs : List Nat) (s' : Snarl),
      demoteU32Check s [] [start] = some (some vs) →
      demoteCommitU32 s vs = some s' →
      ∀ i ∈ vs, ∃ (opA : ConstantOpNode Nat) (opB : ConstantOpNode Unit),
        s.getNode i = some (.u32Operation opA)
        ∧ s'.getNode i = some (.operation opB)
        ∧ opB.op_ty = opA.op_ty
        ∧ slotsCorrespond () opA.inputs.1 opB.inputs.1
        ∧ slotsCorrespond () opA.inputs.2 opB.inputs.2) := by
  refine ⟨?_, ?_, ?_, ?_⟩
  · intro s start s' vs h i hi
    obtain ⟨-, -, -, hd, -, -, -, -, -⟩ :=
      promoteF64Loop_spec s.adj s [] [start] s' vs h (fun _ => rfl)
        (by simp)
    obtain ⟨op, hopA, hopB⟩ := hd i hi (by simp)
    exact ⟨op, op.retypeOp 0, hopA, hopB, rfl,
      slotsCorrespond_retype 0 op.inputs.1,
      slotsCorrespond_retype 0 op.inputs.2⟩
  · intro s start s' vs h i hi
    obtain ⟨-, -, -, hd, -, -, -, -, -⟩ :=
      promoteU32Loop_spec s.adj s [] [start] s' vs h (fun _ => rfl)
        (by simp)
    obtain ⟨op, hopA, hopB⟩ := hd i hi (by simp)
    exact ⟨op, op.retypeOp 0, hopA, hopB, rfl,
      slotsCorrespond_retype 0 op.inputs.1,
      slotsCorrespond_retype 0 op.inputs.2⟩
  · intro s start vs s' hchk hcom i hi
    obtain ⟨-, -, -, hd, -, hnd⟩ :=
      demoteF64Check_spec s.adj s [] [start] vs hchk (fun _ => rfl)
        (by simp)
    obtain ⟨s'', hs'', hset, -, -, -⟩ :=
      demoteCommitF64_spec s vs (hnd List.nodup_nil)
        (fun i hi => hd i hi (by simp))
    rw [hcom] at hs''
    injection hs'' with h2
    subst h2
    obtain ⟨op, hop⟩ := hd i hi (by simp)
    exact ⟨op, op.retypeOp (), hop, hset i hi op hop, rfl,
      slotsCorrespond_retype () op.inputs.1,
      slotsCorrespond_retype () op.inputs.2⟩
  · intro s start vs s' hchk hcom i hi
    obtain ⟨-, -, -, hd, -, hnd⟩ :=
      demoteU32Check_spec s.adj s [] [start] vs hchk (fun _ => rfl)
        (by simp)
    obtain ⟨s'', hs'', hset, -, -, -⟩ :=
      demoteCommitU32_spec s vs (hnd List.nodup_nil)
        (fun i hi => hd i hi (by simp))
    rw [hcom] at hs''
    injection hs'' with h2
    subst h2
    obtain ⟨op, hop⟩ := hd i hi (by simp)
    exact ⟨op, op.retypeOp (), hop, hset i hi op hop, rfl,
      slotsCorrespond_retype () op.inputs.1,
      slotsCorrespond_retype () op.inputs.2⟩

/-- Witness for C9: in the concrete two-node promotion run, node 1's
rewrite keeps its reference to node 0 and defaults its literal slot. -/
theorem claim_C9_rewrite_preserves_reference_slots_witness :
    ∃ (opA : ConstantOpNode Unit) (opB : ConstantOpNode Rat),
      exampleTupleSnarl.getNode 1 = some (.operation opA)
      ∧ (Snarl.mk [.f64Operation ⟨(.value 0, .value 0), .add⟩,
            .f64Operation ⟨(.node 0, .value 0), .multiply⟩]
          [[1], []]).getNode 1 = some (.f64Operation opB)
      ∧ opB.op_ty = opA.op_ty
      ∧ slotsCorrespond (0 : Rat) opA.inputs.1 opB.inputs.1
      ∧ slotsCorrespond (0 : Rat) opA.inputs.2 opB.inputs.2 := by
  refine claim_C9_rewrite_preserves_reference_slots.1 exampleTupleSnarl 0 _
    [1, 0] ?_ 1 (by simp)
  rw [promoteF64Loop_cons_op _ _ _ (by simp)
    (show exampleTupleSnarl.getNode 0
        = some (.operation ⟨(.value (), .value ()), .add⟩) from rfl)]
  show promoteF64Loop
      ⟨[.f64Operation ⟨(.value 0, .value 0), .add⟩,
        .operation ⟨(.node 0, .value ()), .multiply⟩], [[1], []]⟩ [0] [1]
    = _
  rw [promoteF64Loop_cons_op _ _ _ (by simp)
    (show (Snarl.mk [.f64Operation ⟨(.value 0, .value 0), .add⟩,
          .operation ⟨(.node 0, .value ()), .multiply⟩] [[1], []]).getNode 1
        = some (.operation ⟨(.node 0, .value ()), .multiply⟩) from rfl)]
  show promoteF64Loop
      ⟨[.f64Operation ⟨(.value 0, .value 0), .add⟩,
        .f64Operation ⟨(.node 0, .value 0), .multiply⟩], [[1], []]⟩
      [1, 0] [0]
    = _
  rw [promoteF64Loop_cons_mem _ _ _ (by simp), promoteF64Loop_nil]

/-! ## Claim C2: demotion is check-then-commit -/

/-- C2: for every graph whose flood fill from `start` stays on stored
nodes (no dangling reference - a §3 precondition), the demotion walks are
check-then-commit: if the combined forward/backward flood fill can reach
any node that is not of the expected concrete operation kind, the call
returns with the graph exactly as before (`some s`); if every reachable
node is of the expected kind, the entire traversed set is rewritten to
unresolved `Operation` nodes and everything else is untouched. -/
theorem claim_C2_demotion_check_then_commit :
    ∀ (s : Snarl) (start : Nat),
    ((∀ i, Reach s.adj start i → (s.getNode i).isSome = true) →
      ((∃ i, Reach s.adj start i ∧ isF64OpO (s.getNode i) = false) →
          NoiseNode.propagate_tuple_from_f64_op start s = some s)
        ∧ ((∀ i, Reach s.adj start i → isF64OpO (s.getNode i) = true) →
          ∃ s', NoiseNode.propagate_tuple_from_f64_op start s = some s'
            ∧ (∀ i, Reach s.adj start i →
                ∃ op, s.getNode i = some (.f64Operation op)
                  ∧ s'.getNode i = some (.operation (op.retypeOp ())))
            ∧ (∀ i, ¬ Reach s.adj start i →
                s'.getNode i = s.getNode i)))
    ∧ ((∀ i, Reach s.adj start i → (s.getNode i).isSome = true) →
      ((∃ i, Reach s.adj start i ∧ isU32OpO (s.getNode i) = false) →
          NoiseNode.propagate_tuple_from_u32_op start s = some s)
        ∧ ((∀ i, Reach s.adj start i → isU32OpO (s.getNode i) = true) →
          ∃ s', NoiseNode.propagate_tuple_from_u32_op start s = some s'
            ∧ (∀ i, Reach s.adj start i →
                ∃ op, s.getNode i = some (.u32Operation op)
                  ∧ s'.getNode i = some (.operation (op.retypeOp ())))
            ∧ (∀ i, ¬ Reach s.adj start i →
                s'.getNode i = s.getNode i))) := by
  intro s start
  constructor
  · intro hvalid
    constructor
    · rintro ⟨i, hreach, hbad⟩
      cases hchk : demoteF64Check s [] [start] with
      | none =>
        exfalso
        obtain ⟨i', ⟨w, hw, hr⟩, hnone⟩ :=
          demoteF64Check_none s.adj s [] [start] hchk (fun _ => rfl)
        have hw' : w = start := by simpa using hw
        subst hw'
        have hv := hvalid i' hr
        rw [hnone] at hv
        simp at hv
      | some o =>
        cases o with
        | none => simp [NoiseNode.propagate_tuple_from_f64_op, hchk]
        | some vs =>
          exfalso
          obtain ⟨-, hb, -, hd, hf, -⟩ :=
            demoteF64Check_spec s.adj s [] [start] vs hchk (fun _ => rfl)
              (by simp)
          have hivs : i ∈ vs :=
            reach_subset_of_closed (hb start (by simp))
              (fun a ha j hj => hf a ha j hj) i hreach
          obtain ⟨op, hop⟩ := hd i hivs (by simp)
          rw [hop] at hbad
          simp [isF64OpO] at hbad
    · intro hall
      cases hchk : demoteF64Check s [] [start] with
      | none =>
        exfalso
        obtain ⟨i', ⟨w, hw, hr⟩, hnone⟩ :=
          demoteF64Check_none s.adj s [] [start] hchk (fun _ => rfl)
        have hw' : w = start := by simpa using hw
        subst hw'
        have hv := hall i' hr
        rw [hnone] at hv
        cases hv
      | some o =>
        cases o with
        | none =>
          exfalso
          obtain ⟨i', n, ⟨w, hw, hr⟩, hgn, hbadn⟩ :=
            demoteF64Check_abort s.adj s [] [start] hchk (fun _ => rfl)
          have hw' : w = start := by simpa using hw
          subst hw'
          have hv := hall i' hr
          rw [hgn] at hv
          rw [hv] at hbadn
          cases hbadn
        | some vs =>
          obtain ⟨-, hb, hcc, hd, hf, hnd⟩ :=
            demoteF64Check_spec s.adj s [] [start] vs hchk (fun _ => rfl)
              (by simp)
          have hvs_reach : ∀ i, i ∈ vs ↔ Reach s.adj start i := by
            intro i
            constructor
            · intro hi
              rcases hcc i hi with hin | ⟨w, hw, hr⟩
              · simp at hin
              · have hw' : w = start := by simpa using hw
                subst hw'
                exact hr
            · intro hr
              exact reach_subset_of_closed (hb start (by simp))
                (fun a ha j hj => hf a ha j hj) i hr
          obtain ⟨s', hs', hset, hframe, -, -⟩ :=
            demoteCommitF64_spec s vs (hnd List.nodup_nil)
              (fun i hi => hd i hi (by simp))
          refine ⟨s', ?_, ?_, ?_⟩
          · simp [NoiseNode.propagate_tuple_from_f64_op, hchk, hs']
          · intro i hr
            have hivs := (hvs_reach i).mpr hr
            obtain ⟨op, hop⟩ := hd i hivs (by simp)
            exact ⟨op, hop, hset i hivs op hop⟩
          · intro i hnr
            exact hframe i (fun hi => hnr ((hvs_reach i).mp hi))
  · intro hvalid
    constructor
    · rintro ⟨i, hreach, hbad⟩
      cases hchk : demoteU32Check s [] [start] with
      | none =>
        exfalso
        obtain ⟨i', ⟨w, hw, hr⟩, hnone⟩ :=
          demoteU32Check_none s.adj s [] [start] hchk (fun _ => rfl)
        have hw' : w = start := by simpa using hw
        subst hw'
        have hv := hvalid i' hr
        rw [hnone] at hv
        simp at hv
      | some o =>
        cases o with
        | none => simp [NoiseNode.propagate_tuple_from_u32_op, hchk]
        | some vs =>
          exfalso
          obtain ⟨-, hb, -, hd, hf, -⟩ :=
            demoteU32Check_spec s.adj s [] [start] vs hchk (fun _ => rfl)
              (by simp)
          have hivs : i ∈ vs :=
            reach_subset_of_closed (hb start (by simp))
              (fun a ha j hj => hf a ha j hj) i hreach
          obtain ⟨op, hop⟩ := hd i hivs (by simp)
          rw [hop] at hbad
          simp [isU32OpO] at hbad
    · intro hall
      cases hchk : demoteU32Check s [] [start] with
      | none =>
        exfalso
        obtain ⟨i', ⟨w, hw, hr⟩, hnone⟩ :=
          demoteU32Check_none s.adj s [] [start] hchk (fun _ => rfl)
        have hw' : w = start := by simpa using hw
        subst hw'
        have hv := hall i' hr
        rw [hnone] at hv
        cases hv
      | some o =>
        cases o with
        | none =>
          exfalso
          obtain ⟨i', n, ⟨w, hw, hr⟩, hgn, hbadn⟩ :=
            demoteU32Check_abort s.adj s [] [start] hchk (fun _ => rfl)
          have hw' : w = start := by simpa using hw
          subst hw'
          have hv := hall i' hr
          rw [hgn] at hv
          rw [hv] at hbadn
          cases hbadn
        | some vs =>
          obtain ⟨-, hb, hcc, hd, hf, hnd⟩ :=
            demoteU32Check_spec s.adj s [] [start] vs hchk (fun _ => rfl)
              (by simp)
          have hvs_reach : ∀ i, i ∈ vs ↔ Reach s.adj start i := by
            intro i
            constructor
            · intro hi
              rcases hcc i hi with hin | ⟨w, hw, hr⟩
              · simp at hin
              · have hw' : w = start := by simpa using hw
                subst hw'
                exact hr
            · intro hr
              exact reach_subset_of_closed (hb start (by simp))
                (fun a ha j hj => hf a ha j hj) i hr
          obtain ⟨s', hs', hset, hframe, -, -⟩ :=
            demoteCommitU32_spec s vs (hnd List.nodup_nil)
              (fun i hi => hd i hi (by simp))
          refine ⟨s', ?_, ?_, ?_⟩
          · simp [NoiseNode.propagate_tuple_from_u32_op, hchk, hs']
          · intro i hr
            have hivs := (hvs_reach i).mpr hr
            obtain ⟨op, hop⟩ := hd i hivs (by simp)
            exact ⟨op, hop, hset i hivs op hop⟩
          · intro i hnr
            exact hframe i (fun hi => hnr ((hvs_reach i).mp hi))

/-- Witness for C2: demoting from a component still pinned by a
`BasicMulti` consumer returns the store exactly unchanged, and demoting a
pure two-node `F64Operation` component succeeds. -/
theorem claim_C2_demotion_check_then_commit_witness :
    NoiseNode.propagate_tuple_from_f64_op 0 examplePinnedF64Snarl
      = some examplePinnedF64Snarl
    ∧ ∃ s', NoiseNode.propagate_tuple_from_f64_op 0 exampleF64PairSnarl
        = some s'
      ∧ (∀ i, Reach exampleF64PairSnarl.adj 0 i →
          ∃ op, exampleF64PairSnarl.getNode i = some (.f64Operation op)
            ∧ s'.getNode i = some (.operation (op.retypeOp ())))
      ∧ (∀ i, ¬ Reach exampleF64PairSnarl.adj 0 i →
          s'.getNode i = exampleF64PairSnarl.getNode i) := by
  constructor
  · have hmem2 : ∀ i, Reach examplePinnedF64Snarl.adj 0 i →
        i = 0 ∨ i = 1 := by
      refine reach_subset_of_closed (Or.inl rfl) ?_
      rintro i (rfl | rfl) j hj
      · have hadj : examplePinnedF64Snarl.adj 0 = [1] := rfl
        rw [hadj] at hj
        simp at hj
        exact Or.inr hj
      · have hadj : examplePinnedF64Snarl.adj 1 = [] := rfl
        rw [hadj] at hj
        simp at hj
    have hvalid : ∀ i, Reach examplePinnedF64Snarl.adj 0 i →
        (examplePinnedF64Snarl.getNode i).isSome = true := by
      intro i hr
      rcases hmem2 i hr with rfl | rfl <;> rfl
    refine (claim_C2_demotion_check_then_commit examplePinnedF64Snarl 0).1
      hvalid |>.1 ⟨1, ?_, rfl⟩
    exact .step .refl (by decide)
  · have hmem2 : ∀ i, Reach exampleF64PairSnarl.adj 0 i →
        i = 0 ∨ i = 1 := by
      refine reach_subset_of_closed (Or.inl rfl) ?_
      rintro i (rfl | rfl) j hj
      · have hadj : exampleF64PairSnarl.adj 0 = [1] := rfl
        rw [hadj] at hj
        simp at hj
        exact Or.inr hj
      · have hadj : exampleF64PairSnarl.adj 1 = [0] := rfl
        rw [hadj] at hj
        simp at hj
        exact Or.inl hj
    have hvalid : ∀ i, Reach exampleF64PairSnarl.adj 0 i →
        (exampleF64PairSnarl.getNode i).isSome = true := by
      intro i hr
      rcases hmem2 i hr with rfl | rfl <;> rfl
    have hall : ∀ i, Reach exampleF64PairSnarl.adj 0 i →
        isF64OpO (exampleF64PairSnarl.getNode i) = true := by
      intro i hr
      rcases hmem2 i hr with rfl | rfl <;> rfl
    exact (claim_C2_demotion_check_then_commit exampleF64PairSnarl 0).1
      hvalid |>.2 hall

/-! ## Claim C3: promotion then demotion restores the representation -/

/-- C3: for a component consisting entirely of unresolved `Operation`
nodes, a promotion walk followed immediately by the matching demotion walk
from the same start node succeeds and restores the whole store exactly:
every node variant, operator tag and literal/reference slot is as before
the promotion. -/
theorem claim_C3_promote_demote_roundtrip :
    ∀ (s : Snarl) (start : Nat),
    (∀ i, Reach s.adj start i → isTupleOpO (s.getNode i) = true) →
    (∃ s1, NoiseNode.propagate_f64_from_tuple_op start s = some s1
      ∧ NoiseNode.propagate_tuple_from_f64_op start s1 = some s)
    ∧ (∃ s1, NoiseNode.propagate_u32_from_tuple_op start s = some s1
      ∧ NoiseNode.propagate_tuple_from_u32_op start s1 = some s) := by
  intro s start hall
  constructor
  · cases hres : promoteF64Loop s [] [start] with
    | none =>
      exfalso
      obtain ⟨i, ⟨w, hw, hr⟩, -, hbad⟩ :=
        promoteF64Loop_none s.adj s [] [start] hres (fun _ => rfl)
      have hw' : w = start := by simpa using hw
      subst hw'
      rw [hall i hr] at hbad
      cases hbad
    | some p =>
      obtain ⟨s1, vs⟩ := p
      obtain ⟨-, hb, hcc, hd, he, hf, -, hrem, hadj1⟩ :=
        promoteF64Loop_spec s.adj s [] [start] s1 vs hres (fun _ => rfl)
          (by simp)
      have hvs_reach : ∀ i, i ∈ vs ↔ Reach s.adj start i := by
        intro i
        constructor
        · intro hi
          rcases hcc i hi with hin | ⟨w, hw, hr⟩
          · simp at hin
          · have hw' : w = start := by simpa using hw
            subst hw'
            exact hr
        · intro hr
          exact reach_subset_of_closed (hb start (by simp))
            (fun a ha j hj => hf a ha j hj) i hr
      have hall1 : ∀ i, Reach s.adj start i →
          ∃ op, s.getNode i = some (.operation op)
            ∧ s1.getNode i = some (.f64Operation (op.retypeOp 0)) :=
        fun i hr => hd i ((hvs_reach i).mpr hr) (by simp)
      refine ⟨s1, by simp [NoiseNode.propagate_f64_from_tuple_op, hres], ?_⟩
      cases hchk : demoteF64Check s1 [] [start] with
      | none =>
        exfalso
        obtain ⟨i, ⟨w, hw, hr⟩, hnone⟩ :=
          demoteF64Check_none s.adj s1 [] [start] hchk hadj1
        have hw' : w = start := by simpa using hw
        subst hw'
        obtain ⟨op, -, hop1⟩ := hall1 i hr
        rw [hop1] at hnone
        cases hnone
      | some o =>
        cases o with
        | none =>
          exfalso
          obtain ⟨i, n, ⟨w, hw, hr⟩, hgn, hbadn⟩ :=
            demoteF64Check_abort s.adj s1 [] [start] hchk hadj1
          have hw' : w = start := by simpa using hw
          subst hw'
          obtain ⟨op, -, hop1⟩ := hall1 i hr
          rw [hop1] at hgn
          injection hgn with h2
          subst h2
          cases hbadn
        | some vs2 =>
          obtain ⟨-, hb2, hcc2, hd2, hf2, hnd2⟩ :=
            demoteF64Check_spec s.adj s1 [] [start] vs2 hchk hadj1 (by simp)
          have hvs2_reach : ∀ i, i ∈ vs2 ↔ Reach s.adj start i := by
            intro i
            constructor
            · intro hi
              rcases hcc2 i hi with hin | ⟨w, hw, hr⟩
              · simp at hin
              · have hw' : w = start := by simpa using hw
                subst hw'
                exact hr
            · intro hr
              exact reach_subset_of_closed (hb2 start (by simp))
                (fun a ha j hj => hf2 a ha j hj) i hr
          obtain ⟨s2, hs2, hset2, hframe2, -, hrem2⟩ :=
            demoteCommitF64_spec s1 vs2 (hnd2 List.nodup_nil)
              (fun i hi => hd2 i hi (by simp))
          have hs2eq : s2 = s := by
            apply Snarl.eq_of_parts
            · intro j
              by_cases hjr : Reach s.adj start j
              · obtain ⟨op, hopS, hop1⟩ := hall1 j hjr
                have hjvs2 := (hvs2_reach j).mpr hjr
                rw [hset2 j hjvs2 (op.retypeOp 0) hop1,
                  ConstantOpNode.retypeOp_unit_cancel, hopS]
              · rw [hframe2 j (fun hi => hjr ((hvs2_reach j).mp hi))]
                exact he j (Or.inl (fun hjvs => hjr ((hvs_reach j).mp hjvs)))
            · rw [hrem2, hrem]
          rw [show NoiseNode.propagate_tuple_from_f64_op start s1
              = demoteCommitF64 s1 vs2 by
            simp [NoiseNode.propagate_tuple_from_f64_op, hchk]]
          rw [hs2, hs2eq]
  · cases hres : promoteU32Loop s [] [start] with
    | none =>
      exfalso
      obtain ⟨i, ⟨w, hw, hr⟩, -, hbad⟩ :=
        promoteU32Loop_none s.adj s [] [start] hres (fun _ => rfl)
      have hw' : w = start := by simpa using hw
      subst hw'
      rw [hall i hr] at hbad
      cases hbad
    | some p =>
      obtain ⟨s1, vs⟩ := p
      obtain ⟨-, hb, hcc, hd, he, hf, -, hrem, hadj1⟩ :=
        promoteU32Loop_spec s.adj s [] [start] s1 vs hres (fun _ => rfl)
          (by simp)
      have hvs_reach : ∀ i, i ∈ vs ↔ Reach s.adj start i := by
        intro i
        constructor
        · intro hi
          rcases hcc i hi with hin | ⟨w, hw, hr⟩
          · simp at hin
          · have hw' : w = start := by simpa using hw
            subst hw'
            exact hr
        · intro hr
          exact reach_subset_of_closed (hb start (by simp))
            (fun a ha j hj => hf a ha j hj) i hr
      have hall1 : ∀ i, Reach s.adj start i →
          ∃ op, s.getNode i = some (.operation op)
            ∧ s1.getNode i = some (.u32Operation (op.retypeOp 0)) :=
        fun i hr => hd i ((hvs_reach i).mpr hr) (by simp)
      refine ⟨s1, by simp [NoiseNode.propagate_u32_from_tuple_op, hres], ?_⟩
      cases hchk : demoteU32Check s1 [] [start] with
      | none =>
        exfalso
        obtain ⟨i, ⟨w, hw, hr⟩, hnone⟩ :=
          demoteU32Check_none s.adj s1 [] [start] hchk hadj1
        have hw' : w = start := by simpa using hw
        subst hw'
        obtain ⟨op, -, hop1⟩ := hall1 i hr
        rw [hop1] at hnone
        cases hnone
      | some o =>
        cases o with
        | none =>
          exfalso
          obtain ⟨i, n, ⟨w, hw, hr⟩, hgn, hbadn⟩ :=
            demoteU32Check_abort s.adj s1 [] [start] hchk hadj1
          have hw' : w = start := by simpa using hw
          subst hw'
          obtain ⟨op, -, hop1⟩ := hall1 i hr
          rw [hop1] at hgn
          injection hgn with h2
          subst h2
          cases hbadn
        | some vs2 =>
          obtain ⟨-, hb2, hcc2, hd2, hf2, hnd2⟩ :=
            demoteU32Check_spec s.adj s1 [] [start] vs2 hchk hadj1 (by simp)
          have hvs2_reach : ∀ i, i ∈ vs2 ↔ Reach s.adj start i := by
            intro i
            constructor
            · intro hi
              rcases hcc2 i hi with hin | ⟨w, hw, hr⟩
              · simp at hin
              · have hw' : w = start := by simpa using hw
                subst hw'
                exact hr
            · intro hr
              exact reach_subset_of_closed (hb2 start (by simp))
                (fun a ha j hj => hf2 a ha j hj) i hr
          obtain ⟨s2, hs2, hset2, hframe2, -, hrem2⟩ :=
            demoteCommitU32_spec s1 vs2 (hnd2 List.nodup_nil)
              (fun i hi => hd2 i hi (by simp))
          have hs2eq : s2 = s := by
            apply Snarl.eq_of_parts
            · intro j
              by_cases hjr : Reach s.adj start j
              · obtain ⟨op, hopS, hop1⟩ := hall1 j hjr
                have hjvs2 := (hvs2_reach j).mpr hjr
                rw [hset2 j hjvs2 (op.retypeOp 0) hop1,
                  ConstantOpNode.retypeOp_unit_cancel, hopS]
              · rw [hframe2 j (fun hi => hjr ((hvs2_reach j).mp hi))]
                exact he j (Or.inl (fun hjvs => hjr ((hvs_reach j).mp hjvs)))
            · rw [hrem2, hrem]
          rw [show NoiseNode.propagate_tuple_from_u32_op start s1
              = demoteCommitU32 s1 vs2 by
            simp [NoiseNode.propagate_tuple_from_u32_op, hchk]]
          rw [hs2, hs2eq]

/-- Witness for C3: the two-node unresolved component promotes and then
demotes back to exactly its original representation, for both numeric
types. -/
theorem claim_C3_promote_demote_roundtrip_witness :
    (∃ s1, NoiseNode.propagate_f64_from_tuple_op 0 exampleTupleSnarl
        = some s1
      ∧ NoiseNode.propagate_tuple_from_f64_op 0 s1 = some exampleTupleSnarl)
    ∧ (∃ s1, NoiseNode.propagate_u32_from_tuple_op 0 exampleTupleSnarl
        = some s1
      ∧ NoiseNode.propagate_tuple_from_u32_op 0 s1
          = some exampleTupleSnarl) := by
  have hmem2 : ∀ i, Reach exampleTupleSnarl.adj 0 i → i = 0 ∨ i = 1 := by
    refine reach_subset_of_closed (Or.inl rfl) ?_
    rintro i (rfl | rfl) j hj
    · have hadj : exampleTupleSnarl.adj 0 = [1] := rfl
      rw [hadj] at hj
      simp at hj
      exact Or.inr hj
    · have hadj : exampleTupleSnarl.adj 1 = [0] := rfl
      rw [hadj] at hj
      simp at hj
      exact Or.inl hj
  refine claim_C3_promote_demote_roundtrip exampleTupleSnarl 0 ?_
  intro i hr
  rcases hmem2 i hr with rfl | rfl <;> rfl

/-! ## Compiler totality on well-formed graphs (for C5, amended) -/

theorem SnarlWF_nodeWF {s : Snarl} {rank : Nat → Nat}
    (hwf : SnarlWF s rank = true) {j : Nat} {n : NoiseNode}
    (hgn : s.getNode j = some n) : NodeWF s rank (rank j) n = true := by
  have hj : j < s.nodes.length := Snarl.getNode_lt_length hgn
  have hall := List.all_eq_true.mp hwf j (List.mem_range.mpr hj)
  simpa [hgn] using hall

theorem isSome_bind_of {α β : Type} {x : Option α} {f : α → Option β}
    (hx : x.isSome = true)
    (hf : ∀ a, x = some a → (f a).isSome = true) :
    (x.bind f).isSome = true := by
  cases x with
  | none => simp at hx
  | some a => simpa using hf a rfl

theorem isSome_map {α β : Type} (g : α → β) (x : Option α) :
    (x.map g).isSome = x.isSome := by
  cases x <;> rfl

theorem mapM_isSome {α β : Type} (f : α → Option β) :
    ∀ (l : List α), (∀ x ∈ l, (f x).isSome = true) →
      (l.mapM f).isSome = true := by
  intro l
  induction l with
  | nil => intro _; simp [List.mapM.loop]
  | cons a t ih =>
    intro h
    rw [List.mapM_cons]
    cases hfa : f a with
    | none =>
      have := h a (by simp)
      rw [hfa] at this
      simp at this
    | some b =>
      cases hmt : t.mapM f with
      | none =>
        have := ih (fun x hx => h x (by simp [hx]))
        rw [hmt] at this
        simp at this
      | some bs => simp [hfa, hmt]

/-- Totality of `NodeValue::<f64>::var` on well-formed graphs: a slot
whose rank bound is within the fuel always resolves. -/
theorem varF64_total {s : Snarl} {rank : Nat → Nat}
    (hwf : SnarlWF s rank = true) :
    ∀ (fuel r : Nat) (v : NodeValue Rat),
      slotOkF64 s rank r v = true → r ≤ fuel →
      (NodeValue.varF64 fuel s v).isSome = true := by
  intro fuel
  induction fuel with
  | zero =>
    intro r v hok hr
    cases v with
    | value x => simp [NodeValue.varF64]
    | node j =>
      exfalso
      simp only [slotOkF64, Bool.and_eq_true, decide_eq_true_eq] at hok
      omega
  | succ f ih =>
    intro r v hok hr
    cases v with
    | value x => simp [NodeValue.varF64]
    | node j =>
      simp only [slotOkF64, Bool.and_eq_true, decide_eq_true_eq] at hok
      obtain ⟨hlt, hkind⟩ := hok
      cases hgn : s.getNode j with
      | none => rw [hgn] at hkind; simp at hkind
      | some nj =>
        rw [hgn] at hkind
        cases nj
        case f64 c => simp [NodeValue.varF64, hgn]
        case f64Operation op =>
          have hself := SnarlWF_nodeWF hwf hgn
          simp only [NodeWF, Bool.and_eq_true] at hself
          obtain ⟨h1, h2⟩ := hself
          simp only [NodeValue.varF64, hgn]
          rw [ConstantOpNode.varF64Op]
          refine isSome_bind_of (ih (rank j) op.inputs.1 h1 (by omega))
            (fun a _ => ?_)
          refine isSome_bind_of (ih (rank j) op.inputs.2 h2 (by omega))
            (fun b _ => by simp)
        all_goals simp at hkind

/-- Totality of `NodeValue::<u32>::var` on well-formed graphs. -/
theorem varU32_total {s : Snarl} {rank : Nat → Nat}
    (hwf : SnarlWF s rank = true) :
    ∀ (fuel r : Nat) (v : NodeValue Nat),
      slotOkU32 s rank r v = true → r ≤ fuel →
      (NodeValue.varU32 fuel s v).isSome = true := by
  intro fuel
  induction fuel with
  | zero =>
    intro r v hok hr
    cases v with
    | value x => simp [NodeValue.varU32]
    | node j =>
      exfalso
      simp only [slotOkU32, Bool.and_eq_true, decide_eq_true_eq] at hok
      omega
  | succ f ih =>
    intro r v hok hr
    cases v with
    | value x => simp [NodeValue.varU32]
    | node j =>
      simp only [slotOkU32, Bool.and_eq_true, decide_eq_true_eq] at hok
      obtain ⟨hlt, hkind⟩ := hok
      cases hgn : s.getNode j with
      | none => rw [hgn] at hkind; simp at hkind
      | some nj =>
        rw [hgn] at hkind
        cases nj
        case u32 c => simp [NodeValue.varU32, hgn]
        case u32Operation op =>
          have hself := SnarlWF_nodeWF hwf hgn
          simp only [NodeWF, Bool.and_eq_true] at hself
          obtain ⟨h1, h2⟩ := hself
          simp only [NodeValue.varU32, hgn]
          refine isSome_bind_of (ih (rank j) op.inputs.1 h1 (by omega))
            (fun a _ => ?_)
          refine isSome_bind_of (ih (rank j) op.inputs.2 h2 (by omega))
            (fun b _ => by simp)
        all_goals simp at hkind

/-- Totality of `ConstantOpNode::<f64>::var` on well-formed graphs. -/
theorem varF64Op_total {s : Snarl} {rank : Nat → Nat}
    (hwf : SnarlWF s rank = true) (fuel r : Nat) (op : ConstantOpNode Rat)
    (h1 : slotOkF64 s rank r op.inputs.1 = true)
    (h2 : slotOkF64 s rank r op.inputs.2 = true) (hr : r ≤ fuel) :
    (ConstantOpNode.varF64Op fuel s op).isSome = true := by
  rw [ConstantOpNode.varF64Op]
  refine isSome_bind_of (varF64_total hwf fuel r op.inputs.1 h1 hr)
    (fun a _ => ?_)
  refine isSome_bind_of (varF64_total hwf fuel r op.inputs.2 h2 hr)
    (fun b _ => by simp)

/-- Totality of the expression compiler on well-formed graphs: with fuel
above the start node's rank, `NoiseNode::expr` always produces a tree. -/
theorem expr_total {s : Snarl} {rank : Nat → Nat}
    (hwf : SnarlWF s rank = true) :
    ∀ (fuel : Nat) (i : Nat) (n : NoiseNode), s.getNode i = some n →
      exprableKind n = true → rank i < fuel →
      (NoiseNode.expr fuel s n).isSome = true := by
  intro fuel
  induction fuel using Nat.strong_induction_on with
  | _ fuel IH =>
    intro i n hgn hkind hrank
    obtain ⟨f, rfl⟩ : ∃ f, fuel = f + 1 := ⟨fuel - 1, by omega⟩
    have hself := SnarlWF_nodeWF hwf hgn
    have hvF : ∀ v, slotOkF64 s rank (rank i) v = true →
        (NodeValue.varF64 (f + 1) s v).isSome = true :=
      fun v hok => varF64_total hwf (f + 1) (rank i) v hok (by omega)
    have hvU : ∀ v, slotOkU32 s rank (rank i) v = true →
        (NodeValue.varU32 (f + 1) s v).isSome = true :=
      fun v hok => varU32_total hwf (f + 1) (rank i) v hok (by omega)
    have hinput : ∀ (d : Rat) (o : Option Nat),
        inputOk s rank (rank i) o = true →
        (exprOfInput (f + 1) s d o).isSome = true := by
      intro d o hok
      cases o with
      | none => simp [exprOfInput]
      | some j =>
        simp only [inputOk, Bool.and_eq_true, decide_eq_true_eq] at hok
        obtain ⟨hlt, hkindj⟩ := hok
        cases hgnj : s.getNode j with
        | none => rw [hgnj] at hkindj; simp at hkindj
        | some nj =>
          rw [hgnj] at hkindj
          simp only [exprOfInput, exprIdx, hgnj, Option.some_bind]
          exact IH f (by omega) j nj hgnj (by simpa using hkindj)
            (by omega)
    cases n with
    | abs node =>
      simp only [NodeWF] at hself
      rw [NoiseNode.expr, UnaryNode.expr, isSome_map]
      exact hinput 0 node.input_node_idx hself
    | negate node =>
      simp only [NodeWF] at hself
      rw [NoiseNode.expr, isSome_map, UnaryNode.expr]
      exact hinput 0 node.input_node_idx hself
    | add node =>
      simp only [NodeWF, Bool.and_eq_true] at hself
      obtain ⟨h1, h2⟩ := hself
      rw [NoiseNode.expr, isSome_map, CombinerNode.expr]
      exact isSome_bind_of (hinput _ _ h1) (fun a _ =>
        isSome_bind_of (hinput _ _ h2) (fun b _ => by simp))
    | max node =>
      simp only [NodeWF, Bool.and_eq_true] at hself
      obtain ⟨h1, h2⟩ := hself
      rw [NoiseNode.expr, isSome_map, CombinerNode.expr]
      exact isSome_bind_of (hinput _ _ h1) (fun a _ =>
        isSome_bind_of (hinput _ _ h2) (fun b _ => by simp))
    | min node =>
      simp only [NodeWF, Bool.and_eq_true] at hself
      obtain ⟨h1, h2⟩ := hself
      rw [NoiseNode.expr, isSome_map, CombinerNode.expr]
      exact isSome_bind_of (hinput _ _ h1) (fun a _ =>
        isSome_bind_of (hinput _ _ h2) (fun b _ => by simp))
    | multiply node =>
      simp only [NodeWF, Bool.and_eq_true] at hself
      obtain ⟨h1, h2⟩ := hself
      rw [NoiseNode.expr, isSome_map, CombinerNode.expr]
      exact isSome_bind_of (hinput _ _ h1) (fun a _ =>
        isSome_bind_of (hinput _ _ h2) (fun b _ => by simp))
    | power node =>
      simp only [NodeWF, Bool.and_eq_true] at hself
      obtain ⟨h1, h2⟩ := hself
      rw [NoiseNode.expr, isSome_map, CombinerNode.expr]
      exact isSome_bind_of (hinput _ _ h1) (fun a _ =>
        isSome_bind_of (hinput _ _ h2) (fun b _ => by simp))
    | basicMulti node =>
      simp only [NodeWF, Bool.and_eq_true] at hself
      obtain ⟨⟨⟨⟨h1, h2⟩, h3⟩, h4⟩, h5⟩ := hself
      rw [NoiseNode.expr, isSome_map, FractalNode.expr]
      exact isSome_bind_of (hvU _ h1) (fun a _ =>
        isSome_bind_of (hvU _ h2) (fun b _ =>
          isSome_bind_of (hvF _ h3) (fun c _ =>
            isSome_bind_of (hvF _ h4) (fun d _ =>
              isSome_bind_of (hvF _ h5) (fun e _ => by simp)))))
    | billow node =>
      simp only [NodeWF, Bool.and_eq_true] at hself
      obtain ⟨⟨⟨⟨h1, h2⟩, h3⟩, h4⟩, h5⟩ := hself
      rw [NoiseNode.expr, isSome_map, FractalNode.expr]
      exact isSome_bind_of (hvU _ h1) (fun a _ =>
        isSome_bind_of (hvU _ h2) (fun b _ =>
          isSome_bind_of (hvF _ h3) (fun c _ =>
            isSome_bind_of (hvF _ h4) (fun d _ =>
              isSome_bind_of (hvF _ h5) (fun e _ => by simp)))))
    | fbm node =>
      simp only [NodeWF, Bool.and_eq_true] at hself
      obtain ⟨⟨⟨⟨h1, h2⟩, h3⟩, h4⟩, h5⟩ := hself
      rw [NoiseNode.expr, isSome_map, FractalNode.expr]
      exact isSome_bind_of (hvU _ h1) (fun a _ =>
        isSome_bind_of (hvU _ h2) (fun b _ =>
          isSome_bind_of (hvF _ h3) (fun c _ =>
            isSome_bind_of (hvF _ h4) (fun d _ =>
              isSome_bind_of (hvF _ h5) (fun e _ => by simp)))))
    | hybridMulti node =>
      simp only [NodeWF, Bool.and_eq_true] at hself
      obtain ⟨⟨⟨⟨h1, h2⟩, h3⟩, h4⟩, h5⟩ := hself
      rw [NoiseNode.expr, isSome_map, FractalNode.expr]
      exact isSome_bind_of (hvU _ h1) (fun a _ =>
        isSome_bind_of (hvU _ h2) (fun b _ =>
          isSome_bind_of (hvF _ h3) (fun c _ =>
            isSome_bind_of (hvF _ h4) (fun d _ =>
              isSome_bind_of (hvF _ h5) (fun e _ => by simp)))))
    | rigidMulti node =>
      simp only [NodeWF, Bool.and_eq_true] at hself
      obtain ⟨⟨⟨⟨⟨h1, h2⟩, h3⟩, h4⟩, h5⟩, h6⟩ := hself
      rw [NoiseNode.expr, isSome_map, RigidFractalNode.expr]
      exact isSome_bind_of (hvU _ h1) (fun a _ =>
        isSome_bind_of (hvU _ h2) (fun b _ =>
          isSome_bind_of (hvF _ h3) (fun c _ =>
            isSome_bind_of (hvF _ h4) (fun d _ =>
              isSome_bind_of (hvF _ h5) (fun e _ =>
                isSome_bind_of (hvF _ h6) (fun g _ => by simp))))))
    | blend node =>
      simp only [NodeWF, Bool.and_eq_true] at hself
      obtain ⟨⟨h1, h2⟩, h3⟩ := hself
      rw [NoiseNode.expr, isSome_map, BlendNode.expr]
      exact isSome_bind_of (hinput _ _ h1) (fun a _ =>
        isSome_bind_of (hinput _ _ h2) (fun b _ =>
          isSome_bind_of (hinput _ _ h3) (fun c _ => by simp)))
    | checkerboard node =>
      simp only [NodeWF] at hself
      rw [NoiseNode.expr, isSome_map]
      exact hvU _ hself
    | clamp node =>
      simp only [NodeWF, Bool.and_eq_true] at hself
      obtain ⟨⟨h1, h2⟩, h3⟩ := hself
      rw [NoiseNode.expr, isSome_map, ClampNode.expr]
      exact isSome_bind_of (hinput _ _ h1) (fun a _ =>
        isSome_bind_of (hvF _ h2) (fun b _ =>
          isSome_bind_of (hvF _ h3) (fun c _ => by simp)))
    | cylinders node =>
      simp only [NodeWF] at hself
      rw [NoiseNode.expr, isSome_map]
      exact hvF _ hself
    | curve node =>
      simp only [NodeWF, Bool.and_eq_true] at hself
      obtain ⟨h1, h2⟩ := hself
      rw [NoiseNode.expr, isSome_map, CurveNode.expr]
      refine isSome_bind_of (hinput _ _ h1) (fun a _ => ?_)
      refine isSome_bind_of ?_ (fun b _ => by simp)
      apply mapM_isSome
      intro j hj
      have hjmem : some j ∈ node.control_point_node_indices := by
        rcases List.mem_filterMap.mp hj with ⟨o, homem, hoeq⟩
        simpa [show o = some j from hoeq] using homem
      have hok := List.all_eq_true.mp h2 (some j) hjmem
      simp only [controlPointSlotOk, Bool.and_eq_true,
        decide_eq_true_eq] at hok
      obtain ⟨hlt, hkindj⟩ := hok
      cases hgnj : s.getNode j with
      | none => rw [hgnj] at hkindj; simp at hkindj
      | some nj =>
        rw [hgnj] at hkindj
        cases nj
        case controlPoint cp =>
          have hcpwf := SnarlWF_nodeWF hwf hgnj
          simp only [NodeWF, Bool.and_eq_true] at hcpwf
          obtain ⟨hc1, hc2⟩ := hcpwf
          simp only [curveControlPoint, hgnj]
          refine isSome_bind_of
            (varF64_total hwf (f + 1) (rank j) cp.input hc1 (by omega))
            (fun x _ => ?_)
          exact isSome_bind_of
            (varF64_total hwf (f + 1) (rank j) cp.output hc2 (by omega))
            (fun y _ => by simp)
        all_goals simp at hkindj
    | displace node =>
      simp only [NodeWF, Bool.and_eq_true] at hself
      obtain ⟨⟨⟨⟨h1, h2⟩, h3⟩, h4⟩, h5⟩ := hself
      rw [NoiseNode.expr, isSome_map, DisplaceNode.expr]
      exact isSome_bind_of (hinput _ _ h1) (fun a _ =>
        isSome_bind_of (hinput _ _ h2) (fun b _ =>
          isSome_bind_of (hinput _ _ h3) (fun c _ =>
            isSome_bind_of (hinput _ _ h4) (fun d _ =>
              isSome_bind_of (hinput _ _ h5) (fun e _ => by simp)))))
    | exponent node =>
      simp only [NodeWF, Bool.and_eq_true] at hself
      obtain ⟨h1, h2⟩ := hself
      rw [NoiseNode.expr, isSome_map, ExponentNode.expr]
      exact isSome_bind_of (hinput _ _ h1) (fun a _ =>
        isSome_bind_of (hvF _ h2) (fun b _ => by simp))
    | f64 node => rw [NoiseNode.expr]; rfl
    | f64Operation node =>
      simp only [NodeWF, Bool.and_eq_true] at hself
      obtain ⟨h1, h2⟩ := hself
      rw [NoiseNode.expr, isSome_map]
      exact varF64Op_total hwf (f + 1) (rank i) node h1 h2 (by omega)
    | openSimplex node =>
      simp only [NodeWF] at hself
      rw [NoiseNode.expr, isSome_map]
      exact hvU _ hself
    | perlin node =>
      simp only [NodeWF] at hself
      rw [NoiseNode.expr, isSome_map]
      exact hvU _ hself
    | perlinSurflet node =>
      simp only [NodeWF] at hself
      rw [NoiseNode.expr, isSome_map]
      exact hvU _ hself
    | simplex node =>
      simp only [NodeWF] at hself
      rw [NoiseNode.expr, isSome_map]
      exact hvU _ hself
    | superSimplex node =>
      simp only [NodeWF] at hself
      rw [NoiseNode.expr, isSome_map]
      exact hvU _ hself
    | value node =>
      simp only [NodeWF] at hself
      rw [NoiseNode.expr, isSome_map]
      exact hvU _ hself
    | rotatePoint node =>
      simp only [NodeWF, Bool.and_eq_true] at hself
      obtain ⟨⟨⟨⟨h1, h2⟩, h3⟩, h4⟩, h5⟩ := hself
      rw [NoiseNode.expr, isSome_map, TransformNode.expr]
      exact isSome_bind_of (hinput _ _ h1) (fun a _ =>
        isSome_bind_of (hvF _ h2) (fun b _ =>
          isSome_bind_of (hvF _ h3) (fun c _ =>
            isSome_bind_of (hvF _ h4) (fun d _ =>
              isSome_bind_of (hvF _ h5) (fun e _ => by simp)))))
    | scalePoint node =>
      simp only [NodeWF, Bool.and_eq_true] at hself
      obtain ⟨⟨⟨⟨h1, h2⟩, h3⟩, h4⟩, h5⟩ := hself
      rw [NoiseNode.expr, isSome_map, TransformNode.expr]
      exact isSome_bind_of (hinput _ _ h1) (fun a _ =>
        isSome_bind_of (hvF _ h2) (fun b _ =>
          isSome_bind_of (hvF _ h3) (fun c _ =>
            isSome_bind_of (hvF _ h4) (fun d _ =>
              isSome_bind_of (hvF _ h5) (fun e _ => by simp)))))
    | translatePoint node =>
      simp only [NodeWF, Bool.and_eq_true] at hself
      obtain ⟨⟨⟨⟨h1, h2⟩, h3⟩, h4⟩, h5⟩ := hself
      rw [NoiseNode.expr, isSome_map, TransformNode.expr]
      exact isSome_bind_of (hinput _ _ h1) (fun a _ =>
        isSome_bind_of (hvF _ h2) (fun b _ =>
          isSome_bind_of (hvF _ h3) (fun c _ =>
            isSome_bind_of (hvF _ h4) (fun d _ =>
              isSome_bind_of (hvF _ h5) (fun e _ => by simp)))))
    | scaleBias node =>
      simp only [NodeWF, Bool.and_eq_true] at hself
      obtain ⟨⟨h1, h2⟩, h3⟩ := hself
      rw [NoiseNode.expr, isSome_map, ScaleBiasNode.expr]
      exact isSome_bind_of (hinput _ _ h1) (fun a _ =>
        isSome_bind_of (hvF _ h2) (fun b _ =>
          isSome_bind_of (hvF _ h3) (fun c _ => by simp)))
    | select node =>
      simp only [NodeWF, Bool.and_eq_true] at hself
      obtain ⟨⟨⟨⟨⟨h1, h2⟩, h3⟩, h4⟩, h5⟩, h6⟩ := hself
      rw [NoiseNode.expr, isSome_map, SelectNode.expr]
      exact isSome_bind_of (hinput _ _ h1) (fun a _ =>
        isSome_bind_of (hinput _ _ h2) (fun b _ =>
          isSome_bind_of (hinput _ _ h3) (fun c _ =>
            isSome_bind_of (hvF _ h4) (fun d _ =>
              isSome_bind_of (hvF _ h5) (fun e _ =>
                isSome_bind_of (hvF _ h6) (fun g _ => by simp))))))
    | terrace node =>
      simp only [NodeWF, Bool.and_eq_true] at hself
      obtain ⟨h1, h2⟩ := hself
      rw [NoiseNode.expr, isSome_map, TerraceNode.expr]
      refine isSome_bind_of (hinput _ _ h1) (fun a _ => ?_)
      refine isSome_bind_of ?_ (fun b _ => by simp)
      apply mapM_isSome
      intro j hj
      have hjmem : some j ∈ node.control_point_node_indices := by
        rcases List.mem_filterMap.mp hj with ⟨o, homem, hoeq⟩
        simpa [show o = some j from hoeq] using homem
      have hok := List.all_eq_true.mp h2 (some j) hjmem
      simp only [terraceSlotOk, Bool.and_eq_true, decide_eq_true_eq] at hok
      obtain ⟨hlt, hkindj⟩ := hok
      cases hgnj : s.getNode j with
      | none => rw [hgnj] at hkindj; simp at hkindj
      | some nj =>
        rw [hgnj] at hkindj
        cases nj
        case f64 c => simp [terraceControlPoint, hgnj]
        case f64Operation op =>
          have hopwf := SnarlWF_nodeWF hwf hgnj
          simp only [NodeWF, Bool.and_eq_true] at hopwf
          obtain ⟨ho1, ho2⟩ := hopwf
          simp only [terraceControlPoint, hgnj]
          exact varF64Op_total hwf (f + 1) (rank j) op ho1 ho2 (by omega)
        all_goals simp at hkindj
    | turbulence node =>
      simp only [NodeWF, Bool.and_eq_true] at hself
      obtain ⟨⟨⟨⟨h1, h2⟩, h3⟩, h4⟩, h5⟩ := hself
      rw [NoiseNode.expr, isSome_map, TurbulenceNode.expr]
      exact isSome_bind_of (hinput _ _ h1) (fun a _ =>
        isSome_bind_of (hvU _ h2) (fun b _ =>
          isSome_bind_of (hvF _ h3) (fun c _ =>
            isSome_bind_of (hvF _ h4) (fun d _ =>
              isSome_bind_of (hvU _ h5) (fun e _ => by simp)))))
    | worley node =>
      simp only [NodeWF, Bool.and_eq_true] at hself
      obtain ⟨h1, h2⟩ := hself
      rw [NoiseNode.expr, isSome_map, WorleyNode.expr]
      exact isSome_bind_of (hvU _ h1) (fun a _ =>
        isSome_bind_of (hvF _ h2) (fun b _ => by simp))
    | controlPoint node => simp [exprableKind] at hkind
    | operation node => simp [exprableKind] at hkind
    | u32 node => simp [exprableKind] at hkind
    | u32Operation node => simp [exprableKind] at hkind

/-- C5 (amended): for any graph satisfying the §3 invariants - witnessed
by a rank function that strictly decreases along every reference edge,
with every reference valid and kind-correct - `compile(n)` terminates:
`NoiseNode::expr` produces a tree whenever the fuel exceeds the start
node's rank.  The original claim's equality of the tree's literal-leaf
count with the number of distinct reachable `Constant`/concrete-operation
nodes is dropped: it is refuted by the counterexample (literal leaves also
arise from literal-valued and disconnected slots, and one reachable node
can contribute several leaves). -/
theorem claim_C5_amended_compile_terminates
    (s : Snarl) (rank : Nat → Nat) (hwf : SnarlWF s rank = true)
    (fuel i : Nat) (n : NoiseNode) (hgn : s.getNode i = some n)
    (hkind : exprableKind n = true) (hrank : rank i < fuel) :
    ∃ t, NoiseNode.expr fuel s n = some t :=
  Option.isSome_iff_exists.mp (expr_total hwf fuel i n hgn hkind hrank)

/-- Witness for amended C5: the single-Perlin graph is well-formed under
the constant-zero rank, and compiles with fuel 1. -/
theorem claim_C5_amended_compile_terminates_witness :
    ∃ t, NoiseNode.expr 1 ⟨[.perlin ⟨defaultImage, .value 0⟩], []⟩
        (.perlin ⟨defaultImage, .value 0⟩) = some t :=
  claim_C5_amended_compile_terminates
    ⟨[.perlin ⟨defaultImage, .value 0⟩], []⟩ (fun _ => 0) rfl
    1 0 (.perlin ⟨defaultImage, .value 0⟩) rfl rfl Nat.zero_lt_one

end NoiseGui
